import Mathlib

/-!
# Shared / weak reference-counted pointers

A shallow embedding of the control-block protocol of `sw_fwd.h`, `shared.h` and `weak.h`.

* The heap of control blocks is a list; a block pointer is `Option Nat`
  (`none` is `nullptr`, `some b` is the `b`-th block ever allocated; addresses are never reused).
* Access pointers (`T*`) are natural numbers, `0` is `nullptr`.
* The `int` counters are integers (they do go negative when a stale handle decrements them);
  signed overflow, which needs `2 ^ 31` live handles, is outside the model.
  The conversion to `size_t` performed by `UseCount` is explicit.
* Every block carries three ghost counters recording how often `Destroy()` was called on it,
  how often the payload's destructor actually ran, and how often `delete` was applied to it.
  Payloads are plain objects: their destructors touch no control block, except in the sections
  on a payload that stores a `WeakPtr` and on a payload that stores a `SharedPtr`.
* The handle objects of a program state are objects of their own; a handle that is a member of
  a payload appears only in those two sections.
* Dereferencing a null block pointer is reported as `Fault.nullDeref`; the exception
  `BadWeakPtr` is reported as `Fault.BadWeakPtr`.

Two further sections embed `IntrusivePtr` over `RefCounted` objects (`intrusive.h`) and
`UniquePtr` over `CompressedPair` (`unique.h`, `compressed_pair.h`).
-/

namespace SmartPtrs

/-! ## Control blocks (`sw_fwd.h`) -/

/-- Conversion of an `int` value to the 64-bit `size_t`. -/
def toSizeT (x : Int) : Nat := (x % 2 ^ 64).toNat

/-- The values an `int` field can hold. -/
def IsInt (x : Int) : Prop := -(2 ^ 31) ≤ x ∧ x < 2 ^ 31

instance (x : Int) : Decidable (IsInt x) := by unfold IsInt; infer_instance

/-- The two concrete control blocks: `PointingConterBlock<T>` stores the `T* ptr_` it will
delete, `EmplaceConterBlock<T>` stores the object inline in `buffer_`. The object built by
`new (&buffer_) T(args...)` is represented by the arguments it was constructed from. -/
inductive BlockBody where
  | PointingConterBlock (ptr_ : Nat)
  | EmplaceConterBlock (buffer_ : List Nat)
deriving DecidableEq, Repr

/-- `ControlBlockBase` with its derived part and the ghost counters. -/
structure ControlBlockBase where
  count_ : Int
  weak_count_ : Int
  body : BlockBody
  destroyCalls : Nat
  dtorRuns : Nat
  freed : Nat
deriving DecidableEq, Repr

/-- A block as the constructors leave it: `count_ = 0`, `weak_count_ = 0`. -/
def ControlBlockBase.fresh (body : BlockBody) : ControlBlockBase :=
  { count_ := 0, weak_count_ := 0, body := body, destroyCalls := 0, dtorRuns := 0, freed := 0 }

instance : Inhabited ControlBlockBase :=
  ⟨ControlBlockBase.fresh (BlockBody.PointingConterBlock 0)⟩

def ControlBlockBase.Increment (c : ControlBlockBase) : ControlBlockBase :=
  { c with count_ := c.count_ + 1 }

def ControlBlockBase.IncrementWeak (c : ControlBlockBase) : ControlBlockBase :=
  { c with weak_count_ := c.weak_count_ + 1 }

def ControlBlockBase.Decrement (c : ControlBlockBase) : ControlBlockBase :=
  { c with count_ := c.count_ - 1 }

def ControlBlockBase.DecrementWeak (c : ControlBlockBase) : ControlBlockBase :=
  { c with weak_count_ := c.weak_count_ - 1 }

def ControlBlockBase.Get1 (c : ControlBlockBase) : Int := c.count_

def ControlBlockBase.Get2 (c : ControlBlockBase) : Int := c.weak_count_

/-- The virtual `Destroy()`. `PointingConterBlock`: `delete ptr_; ptr_ = nullptr;`
(deleting a null pointer runs nothing). `EmplaceConterBlock`: `Get()->~T()`. -/
def ControlBlockBase.Destroy (c : ControlBlockBase) : ControlBlockBase :=
  match c.body with
  | BlockBody.PointingConterBlock p =>
    { c with body := BlockBody.PointingConterBlock 0,
             destroyCalls := c.destroyCalls + 1,
             dtorRuns := if p = 0 then c.dtorRuns else c.dtorRuns + 1 }
  | BlockBody.EmplaceConterBlock _ =>
    { c with destroyCalls := c.destroyCalls + 1, dtorRuns := c.dtorRuns + 1 }

/-- The effect of `delete block_` on the block: one more deallocation. -/
def ControlBlockBase.delete (c : ControlBlockBase) : ControlBlockBase :=
  { c with freed := c.freed + 1 }

/-- The heap of control blocks. -/
abbrev Heap := List ControlBlockBase

/-- The block behind a non-null block pointer. -/
def Heap.block (h : Heap) (b : Nat) : ControlBlockBase := h.getD b default

def Heap.Increment (h : Heap) (b : Nat) : Heap := List.modify ControlBlockBase.Increment b h

def Heap.IncrementWeak (h : Heap) (b : Nat) : Heap :=
  List.modify ControlBlockBase.IncrementWeak b h

def Heap.Decrement (h : Heap) (b : Nat) : Heap := List.modify ControlBlockBase.Decrement b h

def Heap.DecrementWeak (h : Heap) (b : Nat) : Heap :=
  List.modify ControlBlockBase.DecrementWeak b h

def Heap.Get1 (h : Heap) (b : Nat) : Int := (h.block b).Get1

def Heap.Get2 (h : Heap) (b : Nat) : Int := (h.block b).Get2

def Heap.Destroy (h : Heap) (b : Nat) : Heap := List.modify ControlBlockBase.Destroy b h

def Heap.delete (h : Heap) (b : Nat) : Heap := List.modify ControlBlockBase.delete b h

/-- The expression `new PointingConterBlock<T>(ptr)` / `new EmplaceConterBlock<T>(...)`:
the new block's pointer and the heap holding it. -/
def Heap.new (h : Heap) (body : BlockBody) : Nat × Heap :=
  (h.length, h ++ [ControlBlockBase.fresh body])

/-- `EmplaceConterBlock::Get()` for the block behind the block pointer `b`: the address of its
`buffer_`. The storage of block `b` is given the access-pointer value `b + 1`, which is never
null and differs from block to block. -/
def EmplaceConterBlock.Get (b : Nat) : Nat := b + 1

/-- What the operations can raise. -/
inductive Fault where
  | BadWeakPtr
  | nullDeref
deriving DecidableEq, Repr

/-! ## The handles -/

/-- `SharedPtr<T>`: `T* ptr_` and `ControlBlockBase* block_`. -/
structure SharedPtr where
  ptr_ : Nat
  block_ : Option Nat
deriving DecidableEq, Repr

/-- `WeakPtr<T>`: `T* ptr_` and `ControlBlockBase* block_`. -/
structure WeakPtr where
  ptr_ : Nat
  block_ : Option Nat
deriving DecidableEq, Repr

namespace SharedPtr

def Get (self : SharedPtr) : Nat := self.ptr_

def GetBlock (self : SharedPtr) : Option Nat := self.block_

/-- `UseCount()`: `block_ ? block_->Get1() : 0`, returned as `size_t`. -/
def UseCount (self : SharedPtr) (h : Heap) : Nat :=
  match self.block_ with
  | some b => toSizeT (h.Get1 b)
  | none => 0

/-- `SharedPtr()` and `SharedPtr(std::nullptr_t)`. -/
def ctorDefault : SharedPtr := { ptr_ := 0, block_ := none }

/-- `explicit SharedPtr(T* ptr)`. -/
def ctorRaw (ptr : Nat) (h : Heap) : SharedPtr × Heap :=
  if ptr ≠ 0 then
    let nb := h.new (BlockBody.PointingConterBlock ptr)
    ({ ptr_ := ptr, block_ := some nb.1 }, nb.2.Increment nb.1)
  else
    ({ ptr_ := ptr, block_ := none }, h)

/-- `SharedPtr(const SharedPtr& other)`. -/
def ctorCopy (other : SharedPtr) (h : Heap) : SharedPtr × Heap :=
  match other.block_ with
  | some b => ({ ptr_ := other.ptr_, block_ := some b }, h.Increment b)
  | none => ({ ptr_ := other.ptr_, block_ := none }, h)

/-- `SharedPtr(SharedPtr&& other)`: the new handle and what is left of `other`. -/
def ctorMove (other : SharedPtr) : SharedPtr × SharedPtr :=
  ({ ptr_ := other.ptr_, block_ := other.block_ }, { ptr_ := 0, block_ := none })

/-- The aliasing constructor `SharedPtr(const SharedPtr<Y>& other, T* ptr)`. -/
def ctorAlias (other : SharedPtr) (ptr : Nat) (h : Heap) : SharedPtr × Heap :=
  match other.GetBlock with
  | some b => ({ ptr_ := ptr, block_ := some b }, h.Increment b)
  | none => ({ ptr_ := ptr, block_ := none }, h)

/-- `Realise()` for a handle whose `block_` is the non-null `b`. -/
def Realise (b : Nat) (h : Heap) : Heap :=
  if h.Get1 b + h.Get2 b = 0 then h.delete b else h

/-- `Reset()`; the destructor `~SharedPtr()` is exactly this call. -/
def Reset (self : SharedPtr) (h : Heap) : SharedPtr × Heap :=
  match self.block_ with
  | some b =>
    let h1 := h.Decrement b
    let h2 := if h1.Get1 b = 0 then Realise b (h1.Destroy b) else h1
    ({ ptr_ := 0, block_ := none }, h2)
  | none => (self, h)

/-- The body of `operator=(const SharedPtr& other)` once `this != &other` holds, for an
`other` that `Reset()` does not destroy: `other` is an object of its own, not a member of the
payload `*this` owns. The source reads `other.block_` and `other.ptr_` after `Reset()`; for such
an `other` they are what they were before. `SharedPtr.assignCopyMember` is the other case. -/
def assignCopy (self other : SharedPtr) (h : Heap) : SharedPtr × Heap :=
  let r := self.Reset h
  match other.block_ with
  | some b => ({ ptr_ := other.ptr_, block_ := some b }, r.2.Increment b)
  | none => ({ ptr_ := other.ptr_, block_ := none }, r.2)

/-- The body of `operator=(SharedPtr&& other)` once `this != &other` holds:
the assigned handle, what is left of `other`, and the heap. -/
def assignMove (self other : SharedPtr) (h : Heap) : SharedPtr × SharedPtr × Heap :=
  let r := self.Reset h
  ({ ptr_ := other.ptr_, block_ := other.block_ }, { ptr_ := 0, block_ := none }, r.2)

/-- `SharedPtr(T* ptr, ControlBlockBase* block)`: adopts both, touches no count. -/
def ctorPtrBlock (ptr : Nat) (block : Option Nat) : SharedPtr := { ptr_ := ptr, block_ := block }

/-- The converting copy constructor `SharedPtr(const SharedPtr<U>& other)`. -/
def ctorConvert (other : SharedPtr) (h : Heap) : SharedPtr × Heap :=
  match other.GetBlock with
  | some b => ({ ptr_ := other.Get, block_ := some b }, h.Increment b)
  | none => ({ ptr_ := other.Get, block_ := none }, h)

/-- The converting move constructor `SharedPtr(SharedPtr<U>&& other)`: the new handle and what
is left of `other`. -/
def ctorMoveConvert (other : SharedPtr) : SharedPtr × SharedPtr :=
  ({ ptr_ := other.Get, block_ := other.GetBlock }, { ptr_ := 0, block_ := none })

/-- The converting `operator=(const SharedPtr<U>& other)`; its guard is
`this->Get() != other.Get()`. -/
def assignConvert (self other : SharedPtr) (h : Heap) : SharedPtr × Heap :=
  if self.Get ≠ other.Get then
    let r := self.Reset h
    match other.GetBlock with
    | some b => ({ ptr_ := other.Get, block_ := some b }, r.2.Increment b)
    | none => ({ ptr_ := other.Get, block_ := none }, r.2)
  else
    (self, h)

/-- The converting `operator=(SharedPtr<U>&& other)`; its guard is
`this->Get() != other.Get()`. The assigned handle, what is left of `other`, and the heap. -/
def assignMoveConvert (self other : SharedPtr) (h : Heap) : SharedPtr × SharedPtr × Heap :=
  if self.Get ≠ other.Get then
    let r := self.Reset h
    ({ ptr_ := other.Get, block_ := other.GetBlock }, { ptr_ := 0, block_ := none }, r.2)
  else
    (self, other, h)

/-- `Reset(T* ptr)` (and its twin `Reset(U* ptr)`). -/
def ResetPtr (self : SharedPtr) (ptr : Nat) (h : Heap) : SharedPtr × Heap :=
  let r := self.Reset h
  if ptr ≠ 0 then
    let nb := r.2.new (BlockBody.PointingConterBlock ptr)
    ({ ptr_ := ptr, block_ := some nb.1 }, nb.2.Increment nb.1)
  else
    ({ ptr_ := ptr, block_ := none }, r.2)

/-- `Swap(SharedPtr& other)`: what `*this` and `other` hold afterwards. -/
def Swap (self other : SharedPtr) : SharedPtr × SharedPtr :=
  ({ ptr_ := other.ptr_, block_ := other.block_ }, { ptr_ := self.ptr_, block_ := self.block_ })

end SharedPtr

/-- `MakeShared<T>(args...)`: one `new EmplaceConterBlock<T>(args...)`, `Increment()`, and a
`SharedPtr` built from `block->Get()` and the block. -/
def MakeShared (args : List Nat) (h : Heap) : SharedPtr × Heap :=
  let nb := h.new (BlockBody.EmplaceConterBlock args)
  let h1 := nb.2.Increment nb.1
  let ptr := EmplaceConterBlock.Get nb.1
  (SharedPtr.ctorPtrBlock ptr (some nb.1), h1)

namespace WeakPtr

def Get (self : WeakPtr) : Nat := self.ptr_

def GetBlock (self : WeakPtr) : Option Nat := self.block_

/-- `UseCount()`: `block_ ? block_->Get1() : 0`, returned as `size_t`. -/
def UseCount (self : WeakPtr) (h : Heap) : Nat :=
  match self.block_ with
  | some b => toSizeT (h.Get1 b)
  | none => 0

/-- `Expired()`: `UseCount() == 0`. -/
def Expired (self : WeakPtr) (h : Heap) : Bool :=
  if self.UseCount h = 0 then true else false

/-- `WeakPtr()`. -/
def ctorDefault : WeakPtr := { ptr_ := 0, block_ := none }

/-- `WeakPtr(const WeakPtr& other)`: the weak count is touched only under `!other.Expired()`. -/
def ctorCopy (other : WeakPtr) (h : Heap) : Except Fault (WeakPtr × Heap) :=
  if !other.Expired h then
    match other.block_ with
    | some b => Except.ok ({ ptr_ := other.ptr_, block_ := some b }, h.IncrementWeak b)
    | none => Except.error Fault.nullDeref
  else
    Except.ok ({ ptr_ := other.ptr_, block_ := other.block_ }, h)

/-- `WeakPtr(WeakPtr&& other)`: the new handle and what is left of `other`. -/
def ctorMove (other : WeakPtr) : WeakPtr × WeakPtr :=
  ({ ptr_ := other.ptr_, block_ := other.block_ }, { ptr_ := 0, block_ := none })

/-- `WeakPtr(const SharedPtr<T>& other)` (and its converting twin). -/
def ctorShared (other : SharedPtr) (h : Heap) : WeakPtr × Heap :=
  match other.GetBlock with
  | some b => ({ ptr_ := other.Get, block_ := some b }, h.IncrementWeak b)
  | none => ({ ptr_ := other.Get, block_ := none }, h)

/-- `Realise()` for a handle whose `block_` is the non-null `b`. -/
def Realise (b : Nat) (h : Heap) : Heap :=
  if h.Get1 b + h.Get2 b = 0 then h.delete b else h

/-- `Reset()`; the destructor `~WeakPtr()` is exactly this call.
The guard is on `ptr_`, and `block_` is dereferenced unchecked under it. -/
def Reset (self : WeakPtr) (h : Heap) : Except Fault (WeakPtr × Heap) :=
  if self.ptr_ ≠ 0 then
    match self.block_ with
    | some b =>
      let h1 := h.DecrementWeak b
      let h2 := if h1.Get2 b = 0 then Realise b h1 else h1
      Except.ok ({ ptr_ := 0, block_ := none }, h2)
    | none => Except.error Fault.nullDeref
  else
    Except.ok (self, h)

/-- The body of `operator=(const WeakPtr& other)` once `this != &other` holds. -/
def assignCopy (self other : WeakPtr) (h : Heap) : WeakPtr × Heap :=
  let h1 :=
    match self.block_ with
    | some a => Realise a (h.DecrementWeak a)
    | none => h
  match other.block_ with
  | some b => ({ ptr_ := other.ptr_, block_ := some b }, h1.IncrementWeak b)
  | none => ({ ptr_ := other.ptr_, block_ := none }, h1)

/-- `operator=(WeakPtr&& other)`; its guard is `this->Get() != other.Get()`.
The assigned handle, what is left of `other`, and the heap. -/
def assignMove (self other : WeakPtr) (h : Heap) : Except Fault (WeakPtr × WeakPtr × Heap) :=
  if self.Get ≠ other.Get then
    match self.Reset h with
    | Except.ok r =>
      Except.ok
        ({ ptr_ := other.Get, block_ := other.GetBlock }, { ptr_ := 0, block_ := none }, r.2)
    | Except.error e => Except.error e
  else
    Except.ok (self, other, h)

/-- The converting copy constructor `WeakPtr(const WeakPtr<U>& other)`. -/
def ctorConvert (other : WeakPtr) (h : Heap) : WeakPtr × Heap :=
  match other.GetBlock with
  | some b => ({ ptr_ := other.Get, block_ := some b }, h.IncrementWeak b)
  | none => ({ ptr_ := other.Get, block_ := none }, h)

/-- `Swap(WeakPtr& other)`: what `*this` and `other` hold afterwards. -/
def Swap (self other : WeakPtr) : WeakPtr × WeakPtr :=
  ({ ptr_ := other.ptr_, block_ := other.block_ }, { ptr_ := self.ptr_, block_ := self.block_ })

end WeakPtr

/-- `explicit SharedPtr(const WeakPtr<T>& other)`. -/
def SharedPtr.ctorWeak (other : WeakPtr) (h : Heap) : Except Fault (SharedPtr × Heap) :=
  if other.Expired h then
    Except.error Fault.BadWeakPtr
  else if !other.Expired h then
    match other.GetBlock with
    | some b => Except.ok ({ ptr_ := other.Get, block_ := some b }, h.Increment b)
    | none => Except.error Fault.nullDeref
  else
    Except.error Fault.BadWeakPtr

/-- `Lock()`. -/
def WeakPtr.Lock (self : WeakPtr) (h : Heap) : Except Fault (SharedPtr × Heap) :=
  if !self.Expired h then
    SharedPtr.ctorWeak self h
  else
    Except.ok (SharedPtr.ctorDefault, h)

/-! ## A payload that stores a `WeakPtr`

Elsewhere payload destructors touch no control block. The two definitions below are
`Destroy()` and `SharedPtr::Reset()` again, for a payload with a `WeakPtr` member. -/

/-- The virtual `Destroy()` on block `b` when the payload stores the `WeakPtr` `held` as a
member: the payload's destructor destroys its member, which is `held.Reset()`, and the rest is
`Heap.Destroy`. -/
def Heap.DestroyHolding (h : Heap) (b : Nat) (held : WeakPtr) : Except Fault Heap :=
  match held.Reset h with
  | Except.ok r => Except.ok (r.2.Destroy b)
  | Except.error e => Except.error e

/-- `SharedPtr::Reset()` when the payload of its block stores the `WeakPtr` `held`. -/
def SharedPtr.ResetHolding (self : SharedPtr) (held : WeakPtr) (h : Heap) :
    Except Fault (SharedPtr × Heap) :=
  match self.block_ with
  | some b =>
    let h1 := h.Decrement b
    if h1.Get1 b = 0 then
      match h1.DestroyHolding b held with
      | Except.ok h2 => Except.ok ({ ptr_ := 0, block_ := none }, SharedPtr.Realise b h2)
      | Except.error e => Except.error e
    else
      Except.ok ({ ptr_ := 0, block_ := none }, h1)
  | none => Except.ok (self, h)

/-! ## A payload that stores a `SharedPtr`

`operator=(const SharedPtr& other)` takes `other` by reference and reads `other.block_` and
`other.ptr_` after `Reset()`. The definitions below are `Destroy()`, `Reset()` and the copy
assignment again, for an `other` that is a member of the payload of the block `*this`
references, as in `head = head->next`. -/

/-- The virtual `Destroy()` on block `b` when the payload stores the `SharedPtr` `held` as a
member: the payload's destructor destroys its member, which is `held.Reset()`, and the rest is
`Heap.Destroy`. The member as its destructor leaves it, and the heap. -/
def Heap.DestroyOwning (h : Heap) (b : Nat) (held : SharedPtr) : SharedPtr × Heap :=
  let r := held.Reset h
  (r.1, r.2.Destroy b)

/-- `SharedPtr::Reset()` when the payload of its block stores the `SharedPtr` `held`: the
handle, what the member's storage holds afterwards, and the heap. -/
def SharedPtr.ResetOwning (self : SharedPtr) (held : SharedPtr) (h : Heap) :
    SharedPtr × SharedPtr × Heap :=
  match self.block_ with
  | some b =>
    let h1 := h.Decrement b
    if h1.Get1 b = 0 then
      let d := h1.DestroyOwning b held
      ({ ptr_ := 0, block_ := none }, d.1, SharedPtr.Realise b d.2)
    else
      ({ ptr_ := 0, block_ := none }, held, h1)
  | none => (self, held, h)

/-- The body of `operator=(const SharedPtr& other)` once `this != &other` holds, when `other`
is the member `held` of the payload of the block `*this` references: `Reset()` runs first, and
`other.block_` and `other.ptr_` are then read from the member's storage as `Reset()` left it
(released storage keeps what was last written to it). -/
def SharedPtr.assignCopyMember (self held : SharedPtr) (h : Heap) : SharedPtr × Heap :=
  let r := self.ResetOwning held h
  match r.2.1.block_ with
  | some b => ({ ptr_ := r.2.1.ptr_, block_ := some b }, r.2.2.Increment b)
  | none => ({ ptr_ := r.2.1.ptr_, block_ := none }, r.2.2)

/-! ## Self-observation

`shared.h` declares `EnableSharedFromThis<T>` with `SharedFromThis()` and `WeakFromThis()` but
gives them no body, and neither `SharedPtr(T*)` nor `MakeShared` records anything in the
object. The three definitions below follow the specification. -/

/-- Modelled from the spec: the state of `EnableSharedFromThis<T>`, whose members are missing
from `shared.h`: the weak back-reference the object carries once it is managed. -/
structure EnableSharedFromThis where
  weak_this : WeakPtr
deriving DecidableEq, Repr

/-- Modelled from the spec: the wiring step missing from `SharedPtr(T*)` and `MakeShared`:
at the moment the object becomes managed by `p`, a weak back-reference made from `p` is
injected into the object. -/
def EnableSharedFromThis.wire (p : SharedPtr) (h : Heap) : EnableSharedFromThis × Heap :=
  let r := WeakPtr.ctorShared p h
  ({ weak_this := r.1 }, r.2)

/-- Modelled from the spec: `SharedFromThis()`, declared without a body in `shared.h`: a
`SharedPtr` minted from the back-reference, participating in the block that manages the
object. -/
def EnableSharedFromThis.SharedFromThis (self : EnableSharedFromThis) (h : Heap) :
    Except Fault (SharedPtr × Heap) :=
  SharedPtr.ctorWeak self.weak_this h

/-- Modelled from the spec: `WeakFromThis()`, declared without a body in `shared.h`: a
`WeakPtr` copied from the back-reference. -/
def EnableSharedFromThis.WeakFromThis (self : EnableSharedFromThis) (h : Heap) :
    Except Fault (WeakPtr × Heap) :=
  WeakPtr.ctorCopy self.weak_this h

/-- The contract of self-observation for an object managed by `p` on the heap `g`, once the
back-reference is wired: `SharedFromThis()` yields a `SharedPtr` with `p`'s block and access
pointer and raises `p.UseCount()` by one, `WeakFromThis()` yields a `WeakPtr` with `p`'s block
and access pointer, and neither allocates a block. -/
def SelfObserves (p : SharedPtr) (g : Heap) : Prop :=
  ∃ sp g2 w g3,
    (EnableSharedFromThis.wire p g).1.SharedFromThis (EnableSharedFromThis.wire p g).2
      = Except.ok (sp, g2) ∧
    sp.GetBlock = p.GetBlock ∧ sp.Get = p.Get ∧ g2.length = g.length ∧
    p.UseCount g2 = p.UseCount g + 1 ∧
    (EnableSharedFromThis.wire p g).1.WeakFromThis (EnableSharedFromThis.wire p g).2
      = Except.ok (w, g3) ∧
    w.GetBlock = p.GetBlock ∧ w.Get = p.Get ∧ g3.length = g.length

/-! ## Programs: operations applied to named handle objects

A program state holds the heap and the handle objects created so far. A slot is `some p` while
the object is alive and `none` once its destructor has run. Object identity (`this == &other`)
is slot identity. An operation naming a slot that holds no live object does nothing. -/

structure Sys where
  heap : Heap
  shared : List (Option SharedPtr)
  weak : List (Option WeakPtr)
deriving DecidableEq, Repr

/-- No block, no handle. -/
def Sys.init : Sys := { heap := [], shared := [], weak := [] }

/-- The live `SharedPtr` object in slot `i`, if any. -/
def Sys.sharedAt (s : Sys) (i : Nat) : Option SharedPtr := s.shared.getD i none

/-- The live `WeakPtr` object in slot `i`, if any. -/
def Sys.weakAt (s : Sys) (i : Nat) : Option WeakPtr := s.weak.getD i none

/-- Whether a slot holds a live `SharedPtr` whose `block_` is `b`. -/
def SharedPtr.refers (b : Nat) : Option SharedPtr → Bool
  | some p => decide (p.block_ = some b)
  | none => false

/-- Whether a slot holds a live `WeakPtr` whose `block_` is `b`. -/
def WeakPtr.refers (b : Nat) : Option WeakPtr → Bool
  | some p => decide (p.block_ = some b)
  | none => false

/-- Number of live `SharedPtr` objects whose `block_` is `b`. -/
def Sys.sharedRefs (s : Sys) (b : Nat) : Nat := s.shared.countP (SharedPtr.refers b)

/-- Number of live `WeakPtr` objects whose `block_` is `b`. -/
def Sys.weakRefs (s : Sys) (b : Nat) : Nat := s.weak.countP (WeakPtr.refers b)

/-- The operations of a program. Constructors create a new object in the next free slot. -/
inductive Op where
  | sharedDefault
  | sharedRaw (ptr : Nat)
  | sharedCopy (j : Nat)
  | sharedMove (j : Nat)
  | sharedAlias (j : Nat) (ptr : Nat)
  | sharedFromWeak (j : Nat)
  | sharedAssign (i j : Nat)
  | sharedMoveAssign (i j : Nat)
  | sharedReset (i : Nat)
  | sharedDestroy (i : Nat)
  | weakDefault
  | weakFromShared (j : Nat)
  | weakCopy (j : Nat)
  | weakMove (j : Nat)
  | weakAssign (i j : Nat)
  | weakMoveAssign (i j : Nat)
  | weakReset (i : Nat)
  | weakDestroy (i : Nat)
  | weakLock (j : Nat)
  | sharedConvert (j : Nat)
  | sharedMoveConvert (j : Nat)
  | sharedAssignConvert (i j : Nat)
  | sharedMoveAssignConvert (i j : Nat)
  | sharedResetPtr (i : Nat) (ptr : Nat)
  | sharedSwap (i j : Nat)
  | makeShared (args : List Nat)
  | weakConvert (j : Nat)
  | weakSwap (i j : Nat)
deriving DecidableEq, Repr

/-- One operation. -/
def step (s : Sys) : Op → Except Fault Sys
  | Op.sharedDefault =>
    Except.ok { s with shared := s.shared ++ [some SharedPtr.ctorDefault] }
  | Op.sharedRaw ptr =>
    let r := SharedPtr.ctorRaw ptr s.heap
    Except.ok { s with heap := r.2, shared := s.shared ++ [some r.1] }
  | Op.sharedCopy j =>
    match s.sharedAt j with
    | some o =>
      let r := SharedPtr.ctorCopy o s.heap
      Except.ok { s with heap := r.2, shared := s.shared ++ [some r.1] }
    | none => Except.ok s
  | Op.sharedMove j =>
    match s.sharedAt j with
    | some o =>
      let r := SharedPtr.ctorMove o
      Except.ok { s with shared := s.shared.set j (some r.2) ++ [some r.1] }
    | none => Except.ok s
  | Op.sharedAlias j ptr =>
    match s.sharedAt j with
    | some o =>
      let r := SharedPtr.ctorAlias o ptr s.heap
      Except.ok { s with heap := r.2, shared := s.shared ++ [some r.1] }
    | none => Except.ok s
  | Op.sharedFromWeak j =>
    match s.weakAt j with
    | some w =>
      match SharedPtr.ctorWeak w s.heap with
      | Except.ok r => Except.ok { s with heap := r.2, shared := s.shared ++ [some r.1] }
      | Except.error e => Except.error e
    | none => Except.ok s
  | Op.sharedAssign i j =>
    if i = j then Except.ok s
    else
      match s.sharedAt i, s.sharedAt j with
      | some a, some o =>
        let r := SharedPtr.assignCopy a o s.heap
        Except.ok { s with heap := r.2, shared := s.shared.set i (some r.1) }
      | _, _ => Except.ok s
  | Op.sharedMoveAssign i j =>
    if i = j then Except.ok s
    else
      match s.sharedAt i, s.sharedAt j with
      | some a, some o =>
        let r := SharedPtr.assignMove a o s.heap
        Except.ok { s with heap := r.2.2,
                           shared := (s.shared.set i (some r.1)).set j (some r.2.1) }
      | _, _ => Except.ok s
  | Op.sharedReset i =>
    match s.sharedAt i with
    | some a =>
      let r := a.Reset s.heap
      Except.ok { s with heap := r.2, shared := s.shared.set i (some r.1) }
    | none => Except.ok s
  | Op.sharedDestroy i =>
    match s.sharedAt i with
    | some a =>
      let r := a.Reset s.heap
      Except.ok { s with heap := r.2, shared := s.shared.set i none }
    | none => Except.ok s
  | Op.weakDefault =>
    Except.ok { s with weak := s.weak ++ [some WeakPtr.ctorDefault] }
  | Op.weakFromShared j =>
    match s.sharedAt j with
    | some o =>
      let r := WeakPtr.ctorShared o s.heap
      Except.ok { s with heap := r.2, weak := s.weak ++ [some r.1] }
    | none => Except.ok s
  | Op.weakCopy j =>
    match s.weakAt j with
    | some o =>
      match WeakPtr.ctorCopy o s.heap with
      | Except.ok r => Except.ok { s with heap := r.2, weak := s.weak ++ [some r.1] }
      | Except.error e => Except.error e
    | none => Except.ok s
  | Op.weakMove j =>
    match s.weakAt j with
    | some o =>
      let r := WeakPtr.ctorMove o
      Except.ok { s with weak := s.weak.set j (some r.2) ++ [some r.1] }
    | none => Except.ok s
  | Op.weakAssign i j =>
    if i = j then Except.ok s
    else
      match s.weakAt i, s.weakAt j with
      | some a, some o =>
        let r := WeakPtr.assignCopy a o s.heap
        Except.ok { s with heap := r.2, weak := s.weak.set i (some r.1) }
      | _, _ => Except.ok s
  | Op.weakMoveAssign i j =>
    match s.weakAt i, s.weakAt j with
    | some a, some o =>
      match WeakPtr.assignMove a o s.heap with
      | Except.ok r =>
        Except.ok { s with heap := r.2.2,
                           weak := (s.weak.set i (some r.1)).set j (some r.2.1) }
      | Except.error e => Except.error e
    | _, _ => Except.ok s
  | Op.weakReset i =>
    match s.weakAt i with
    | some a =>
      match a.Reset s.heap with
      | Except.ok r => Except.ok { s with heap := r.2, weak := s.weak.set i (some r.1) }
      | Except.error e => Except.error e
    | none => Except.ok s
  | Op.weakDestroy i =>
    match s.weakAt i with
    | some a =>
      match a.Reset s.heap with
      | Except.ok r => Except.ok { s with heap := r.2, weak := s.weak.set i none }
      | Except.error e => Except.error e
    | none => Except.ok s
  | Op.weakLock j =>
    match s.weakAt j with
    | some w =>
      match WeakPtr.Lock w s.heap with
      | Except.ok r => Except.ok { s with heap := r.2, shared := s.shared ++ [some r.1] }
      | Except.error e => Except.error e
    | none => Except.ok s
  | Op.sharedConvert j =>
    match s.sharedAt j with
    | some o =>
      let r := SharedPtr.ctorConvert o s.heap
      Except.ok { s with heap := r.2, shared := s.shared ++ [some r.1] }
    | none => Except.ok s
  | Op.sharedMoveConvert j =>
    match s.sharedAt j with
    | some o =>
      let r := SharedPtr.ctorMoveConvert o
      Except.ok { s with shared := s.shared.set j (some r.2) ++ [some r.1] }
    | none => Except.ok s
  | Op.sharedAssignConvert i j =>
    match s.sharedAt i, s.sharedAt j with
    | some a, some o =>
      let r := SharedPtr.assignConvert a o s.heap
      Except.ok { s with heap := r.2, shared := s.shared.set i (some r.1) }
    | _, _ => Except.ok s
  | Op.sharedMoveAssignConvert i j =>
    match s.sharedAt i, s.sharedAt j with
    | some a, some o =>
      let r := SharedPtr.assignMoveConvert a o s.heap
      Except.ok { s with heap := r.2.2,
                         shared := (s.shared.set i (some r.1)).set j (some r.2.1) }
    | _, _ => Except.ok s
  | Op.sharedResetPtr i ptr =>
    match s.sharedAt i with
    | some a =>
      let r := a.ResetPtr ptr s.heap
      Except.ok { s with heap := r.2, shared := s.shared.set i (some r.1) }
    | none => Except.ok s
  | Op.sharedSwap i j =>
    match s.sharedAt i, s.sharedAt j with
    | some a, some o =>
      let r := a.Swap o
      Except.ok { s with shared := (s.shared.set i (some r.1)).set j (some r.2) }
    | _, _ => Except.ok s
  | Op.makeShared args =>
    let r := MakeShared args s.heap
    Except.ok { s with heap := r.2, shared := s.shared ++ [some r.1] }
  | Op.weakConvert j =>
    match s.weakAt j with
    | some o =>
      let r := WeakPtr.ctorConvert o s.heap
      Except.ok { s with heap := r.2, weak := s.weak ++ [some r.1] }
    | none => Except.ok s
  | Op.weakSwap i j =>
    match s.weakAt i, s.weakAt j with
    | some a, some o =>
      let r := a.Swap o
      Except.ok { s with weak := (s.weak.set i (some r.1)).set j (some r.2) }
    | _, _ => Except.ok s

/-- A program: the operations in order, stopping at the first fault. -/
def run (s : Sys) : List Op → Except Fault Sys
  | [] => Except.ok s
  | op :: ops =>
    match step s op with
    | Except.ok t => run t ops
    | Except.error e => Except.error e

/-! ## Predicates on programs and states -/

/-- Every block's strong count is the number of live `SharedPtr` objects referencing it
(a block pointer outside the heap reads as a zero count). -/
def Sys.Counted (s : Sys) : Prop := ∀ b, (s.heap.block b).count_ = (s.sharedRefs b : Int)

/-- The operations that construct, copy, move, assign, reset and destroy `SharedPtr` objects. -/
def Op.isShared : Op → Bool
  | Op.sharedDefault => true
  | Op.sharedRaw _ => true
  | Op.sharedCopy _ => true
  | Op.sharedMove _ => true
  | Op.sharedAlias _ _ => true
  | Op.sharedAssign _ _ => true
  | Op.sharedMoveAssign _ _ => true
  | Op.sharedReset _ => true
  | Op.sharedDestroy _ => true
  | Op.sharedConvert _ => true
  | Op.sharedMoveConvert _ => true
  | Op.sharedAssignConvert _ _ => true
  | Op.sharedMoveAssignConvert _ _ => true
  | Op.sharedResetPtr _ _ => true
  | Op.sharedSwap _ _ => true
  | Op.makeShared _ => true
  | _ => false

/-- What a block records about its strong side: the strong count, the payload it holds and
the two destruction counters. -/
def ControlBlockBase.strongPart (c : ControlBlockBase) : Int × BlockBody × Nat × Nat :=
  (c.count_, c.body, c.destroyCalls, c.dtorRuns)

/-- The operations that construct, copy, move, assign, reset, swap and destroy `WeakPtr`
objects (`Lock()`, which makes a `SharedPtr`, is not one of them). -/
def Op.isWeak : Op → Bool
  | Op.weakDefault => true
  | Op.weakFromShared _ => true
  | Op.weakCopy _ => true
  | Op.weakConvert _ => true
  | Op.weakMove _ => true
  | Op.weakAssign _ _ => true
  | Op.weakMoveAssign _ _ => true
  | Op.weakReset _ => true
  | Op.weakSwap _ _ => true
  | Op.weakDestroy _ => true
  | _ => false

/-- How one operation may move the strong side of an existing block: not at all; one more
owner of a block that has owners; one owner fewer with owners remaining; or the last owner
gone together with the one `Destroy()` call. -/
def ControlBlockBase.StrongStep (c d : ControlBlockBase) : Prop :=
  (d.count_ = c.count_ ∧ d.destroyCalls = c.destroyCalls) ∨
  (0 < c.count_ ∧ d.count_ = c.count_ + 1 ∧ d.destroyCalls = c.destroyCalls) ∨
  (1 < c.count_ ∧ d.count_ = c.count_ - 1 ∧ d.destroyCalls = c.destroyCalls) ∨
  (c.count_ = 1 ∧ d.count_ = 0 ∧ d.destroyCalls = c.destroyCalls + 1)

/-- The heap `g` follows the heap `h` by one operation: blocks are only added, every existing
block makes a `StrongStep`, and a new block starts with strong count 1 and no `Destroy()`. -/
def Heap.StrongSteps (h g : Heap) : Prop :=
  h.length ≤ g.length ∧
  (∀ b, b < h.length → (h.block b).StrongStep (g.block b)) ∧
  (∀ b, h.length ≤ b → b < g.length →
    (g.block b).count_ = 1 ∧ (g.block b).destroyCalls = 0)

/-- Every allocated block either has owners and was never destroyed, or has no owner and was
destroyed exactly once. -/
def Sys.Settled (s : Sys) : Prop :=
  ∀ b, b < s.heap.length →
    (0 < (s.heap.block b).count_ ∧ (s.heap.block b).destroyCalls = 0) ∨
    ((s.heap.block b).count_ = 0 ∧ (s.heap.block b).destroyCalls = 1)

/-! ## Concrete programs and states used as test points -/

/-- `a` wraps the raw pointer 7, `b` and `c` are copies of `a`, then `b` is destroyed. -/
def abaProgram : List Op :=
  [Op.sharedRaw 7, Op.sharedCopy 0, Op.sharedCopy 0, Op.sharedDestroy 1]

/-- The handle value held by `a`, `b` and `c`. -/
def abaHandle : SharedPtr := { ptr_ := 7, block_ := some 0 }

/-- The state `abaProgram` ends in. -/
def abaAfterDropB : Sys :=
  { heap := [{ count_ := 2, weak_count_ := 0, body := BlockBody.PointingConterBlock 7,
               destroyCalls := 0, dtorRuns := 0, freed := 0 }],
    shared := [some abaHandle, none, some abaHandle],
    weak := [] }

/-- The state after `c` is destroyed as well. -/
def abaAfterDropC : Sys :=
  { heap := [{ count_ := 1, weak_count_ := 0, body := BlockBody.PointingConterBlock 7,
               destroyCalls := 0, dtorRuns := 0, freed := 0 }],
    shared := [some abaHandle, none, none],
    weak := [] }

/-- One pointing block whose last `SharedPtr` is gone (payload destroyed, strong count 0)
while one `WeakPtr` still counts on it. -/
def expiredHeap : Heap :=
  [{ count_ := 0, weak_count_ := 1, body := BlockBody.PointingConterBlock 0,
     destroyCalls := 1, dtorRuns := 1, freed := 0 }]

/-- One pointing block shared by an owner and an aliasing `SharedPtr`, observed by one
`WeakPtr`. -/
def aliasedHeap : Heap :=
  [{ count_ := 2, weak_count_ := 1, body := BlockBody.PointingConterBlock 7,
     destroyCalls := 0, dtorRuns := 0, freed := 0 }]

/-- Two `SharedPtr` objects (an owner and an aliasing one) and one `WeakPtr` on block 0. -/
def observedSys : Sys :=
  { heap := aliasedHeap,
    shared := [some { ptr_ := 7, block_ := some 0 }, some { ptr_ := 0, block_ := some 0 }],
    weak := [some { ptr_ := 7, block_ := some 0 }] }

/-- Two unrelated owners: `SharedPtr` 0 wraps the raw pointer 7, `SharedPtr` 1 wraps 8. -/
def twoOwners : Sys :=
  { heap := [{ count_ := 1, weak_count_ := 0, body := BlockBody.PointingConterBlock 7,
               destroyCalls := 0, dtorRuns := 0, freed := 0 },
             { count_ := 1, weak_count_ := 0, body := BlockBody.PointingConterBlock 8,
               destroyCalls := 0, dtorRuns := 0, freed := 0 }],
    shared := [some { ptr_ := 7, block_ := some 0 }, some { ptr_ := 8, block_ := some 1 }],
    weak := [] }

/-- One owner: `SharedPtr` 0 wraps the raw pointer 7. -/
def oneOwner : Sys :=
  { heap := [{ count_ := 1, weak_count_ := 0, body := BlockBody.PointingConterBlock 7,
               destroyCalls := 0, dtorRuns := 0, freed := 0 }],
    shared := [some { ptr_ := 7, block_ := some 0 }],
    weak := [] }

/-- The state after `p` wrapped 7, `w` observed `p`, and `p` was reset: the block is expired
and still observed. -/
def expiredSys : Sys :=
  { heap := expiredHeap,
    shared := [some { ptr_ := 0, block_ := none }],
    weak := [some { ptr_ := 7, block_ := some 0 }] }

/-- One pointing block with one owner whose payload stores the only `WeakPtr` on the block. -/
def selfObservedHeap : Heap :=
  [{ count_ := 1, weak_count_ := 1, body := BlockBody.PointingConterBlock 7,
     destroyCalls := 0, dtorRuns := 0, freed := 0 }]

/-- Two pointing blocks with one owner each: `head` owns block 0, and the payload of block 0
stores the only `SharedPtr` on block 1 (`head->next`). -/
def chainHeap : Heap :=
  [{ count_ := 1, weak_count_ := 0, body := BlockBody.PointingConterBlock 7,
     destroyCalls := 0, dtorRuns := 0, freed := 0 },
   { count_ := 1, weak_count_ := 0, body := BlockBody.PointingConterBlock 8,
     destroyCalls := 0, dtorRuns := 0, freed := 0 }]

/-! ## Intrusive pointers (`intrusive.h`)

Reference-counted objects live in a list; an object pointer is `Option Nat` (`none` is
`nullptr`). The counter is a `size_t`, so its arithmetic is modulo `2 ^ 64`. Each object
carries a ghost counter of the `Deleter::Destroy` calls made on it. A pointer member that a
constructor leaves uninitialised holds whatever its storage held before; that value is an
argument (`garbage`) of the constructor. -/

/-- `SimpleCounter`: `size_t count_`. -/
structure SimpleCounter where
  count_ : Nat
deriving DecidableEq, Repr

/-- `IncRef()`: `++count_; return count_;`. -/
def SimpleCounter.IncRef (c : SimpleCounter) : SimpleCounter × Nat :=
  ({ count_ := (c.count_ + 1) % 2 ^ 64 }, (c.count_ + 1) % 2 ^ 64)

/-- `DecRef()`: `--count_; return count_;`. -/
def SimpleCounter.DecRef (c : SimpleCounter) : SimpleCounter × Nat :=
  ({ count_ := (c.count_ + 2 ^ 64 - 1) % 2 ^ 64 }, (c.count_ + 2 ^ 64 - 1) % 2 ^ 64)

def SimpleCounter.RefCount (c : SimpleCounter) : Nat := c.count_

/-- `RefCounted<Derived, SimpleCounter, Deleter>`: the counter, and the ghost count of
`Deleter::Destroy` calls on the object. -/
structure RefCounted where
  counter_ : SimpleCounter
  destroyed : Nat
deriving DecidableEq, Repr

instance : Inhabited RefCounted := ⟨{ counter_ := { count_ := 0 }, destroyed := 0 }⟩

def RefCounted.IncRef (o : RefCounted) : RefCounted :=
  { o with counter_ := o.counter_.IncRef.1 }

/-- `DecRef()`: `if (counter_.DecRef() == 0) Deleter::Destroy(this)`. -/
def RefCounted.DecRef (o : RefCounted) : RefCounted :=
  let r := o.counter_.DecRef
  if r.2 = 0 then { counter_ := r.1, destroyed := o.destroyed + 1 }
  else { o with counter_ := r.1 }

def RefCounted.RefCount (o : RefCounted) : Nat := o.counter_.RefCount

/-- The reference-counted objects allocated so far. -/
abbrev Objects := List RefCounted

/-- The object behind a non-null object pointer. -/
def Objects.obj (os : Objects) (k : Nat) : RefCounted := os.getD k default

def Objects.IncRef (os : Objects) (k : Nat) : Objects := List.modify RefCounted.IncRef k os

def Objects.DecRef (os : Objects) (k : Nat) : Objects := List.modify RefCounted.DecRef k os

/-- `IntrusivePtr<T>`: `T* ptr_`. -/
structure IntrusivePtr where
  ptr_ : Option Nat
deriving DecidableEq, Repr

namespace IntrusivePtr

def Get (self : IntrusivePtr) : Option Nat := self.ptr_

/-- `UseCount()`: `ptr_ ? ptr_->RefCount() : 0`. -/
def UseCount (self : IntrusivePtr) (os : Objects) : Nat :=
  match self.ptr_ with
  | some k => (os.obj k).RefCount
  | none => 0

/-- `explicit operator bool()`. -/
def toBool (self : IntrusivePtr) : Bool := self.ptr_ != none

/-- `IntrusivePtr()` and `IntrusivePtr(std::nullptr_t)`. -/
def ctorDefault : IntrusivePtr := { ptr_ := none }

/-- `IntrusivePtr(T* ptr)`: `ptr_` is assigned only under `ptr != nullptr`. -/
def ctorRaw (ptr : Option Nat) (garbage : Option Nat) (os : Objects) :
    IntrusivePtr × Objects :=
  match ptr with
  | some k => ({ ptr_ := some k }, os.IncRef k)
  | none => ({ ptr_ := garbage }, os)

/-- The converting `IntrusivePtr(const IntrusivePtr<Y>& other)`: `ptr_` is assigned only
under `other.Get() != nullptr`. -/
def ctorConvert (other : IntrusivePtr) (garbage : Option Nat) (os : Objects) :
    IntrusivePtr × Objects :=
  match other.Get with
  | some k => ({ ptr_ := some k }, os.IncRef k)
  | none => ({ ptr_ := garbage }, os)

/-- `IntrusivePtr(IntrusivePtr&& other)` and its converting twin: the new handle and what is
left of `other`. -/
def ctorMove (other : IntrusivePtr) : IntrusivePtr × IntrusivePtr :=
  ({ ptr_ := other.ptr_ }, { ptr_ := none })

/-- `IntrusivePtr(const IntrusivePtr& other)`. -/
def ctorCopy (other : IntrusivePtr) (os : Objects) : IntrusivePtr × Objects :=
  match other.Get with
  | some k => ({ ptr_ := some k }, os.IncRef k)
  | none => ({ ptr_ := none }, os)

/-- The body of `operator=(const IntrusivePtr& other)` once `this != &other` holds, for an
`other` that `ptr_->DecRef()` does not destroy: `other` is an object of its own, not a member
of the object `*this` points at. The source reads `other.ptr_` once more after the `DecRef()`;
for such an `other` it is what it was before. `IntrusivePtr.assignCopyMember` is the other
case. -/
def assignCopy (self other : IntrusivePtr) (os : Objects) : IntrusivePtr × Objects :=
  let os1 :=
    match other.ptr_ with
    | some k => os.IncRef k
    | none => os
  let os2 :=
    match self.ptr_ with
    | some k => os1.DecRef k
    | none => os1
  ({ ptr_ := other.ptr_ }, os2)

/-- `operator=(IntrusivePtr&& other)`; its guard is `ptr_ != other.ptr_`. The assigned
handle, what is left of `other`, and the objects. -/
def assignMove (self other : IntrusivePtr) (os : Objects) :
    IntrusivePtr × IntrusivePtr × Objects :=
  if self.ptr_ ≠ other.ptr_ then
    let os1 :=
      match self.ptr_ with
      | some k => os.DecRef k
      | none => os
    ({ ptr_ := other.ptr_ }, { ptr_ := none }, os1)
  else
    (self, other, os)

/-- `Reset(T* ptr)`. -/
def ResetPtr (self : IntrusivePtr) (ptr : Option Nat) (os : Objects) :
    IntrusivePtr × Objects :=
  if ptr ≠ self.ptr_ then
    let os1 :=
      match ptr with
      | some k => os.IncRef k
      | none => os
    let os2 :=
      match self.ptr_ with
      | some k => os1.DecRef k
      | none => os1
    ({ ptr_ := ptr }, os2)
  else
    (self, os)

/-- `Set(T* ptr)`: the same statements as `Reset(T* ptr)`. -/
def Set (self : IntrusivePtr) (ptr : Option Nat) (os : Objects) : IntrusivePtr × Objects :=
  if ptr ≠ self.ptr_ then
    let os1 :=
      match ptr with
      | some k => os.IncRef k
      | none => os
    let os2 :=
      match self.ptr_ with
      | some k => os1.DecRef k
      | none => os1
    ({ ptr_ := ptr }, os2)
  else
    (self, os)

/-- `Reset()`; the destructor `~IntrusivePtr()` is exactly this call. -/
def Reset (self : IntrusivePtr) (os : Objects) : IntrusivePtr × Objects :=
  match self.ptr_ with
  | some k => ({ ptr_ := none }, os.DecRef k)
  | none => (self, os)

/-- `Swap(IntrusivePtr& other)`: what `*this` and `other` hold afterwards. -/
def Swap (self other : IntrusivePtr) : IntrusivePtr × IntrusivePtr :=
  ({ ptr_ := other.ptr_ }, { ptr_ := self.ptr_ })

end IntrusivePtr

/-- `RefCounted::DecRef()` on object `k` when the object stores the `IntrusivePtr` `held` as
a member: `if (counter_.DecRef() == 0) Deleter::Destroy(this)`, and destroying the object
destroys its member, which is `held.Reset()`. What the member's storage holds afterwards, and
the objects. -/
def Objects.DecRefOwning (os : Objects) (k : Nat) (held : IntrusivePtr) :
    IntrusivePtr × Objects :=
  if (os.obj k).counter_.DecRef.2 = 0 then held.Reset (os.DecRef k)
  else (held, os.DecRef k)

/-- The body of `operator=(const IntrusivePtr& other)` once `this != &other` holds, when
`other` is the member `held` of the object `*this` points at: `other.ptr_` is read for the
`IncRef()`, `ptr_->DecRef()` runs, and `other.ptr_` is read again, from the member's storage as
the `DecRef()` left it (released storage keeps what was last written to it). -/
def IntrusivePtr.assignCopyMember (self held : IntrusivePtr) (os : Objects) :
    IntrusivePtr × Objects :=
  let os1 :=
    match held.ptr_ with
    | some k => os.IncRef k
    | none => os
  let r :=
    match self.ptr_ with
    | some k => os1.DecRefOwning k held
    | none => (held, os1)
  ({ ptr_ := r.1.ptr_ }, r.2)

/-- The expression `new T(args...)`: the new object's pointer and the objects. `RefCounted`
declares no copy constructor, so when the arguments select the implicit copy constructor of `T`
(`src` is the object copied) the new object's `counter_` is a copy of the source's; with any
other arguments `counter_` is value-initialised, `count_ = 0`. -/
def Objects.new (os : Objects) (src : Option Nat) : Nat × Objects :=
  let counter_ : SimpleCounter :=
    match src with
    | some k => (os.obj k).counter_
    | none => { count_ := 0 }
  (os.length, os ++ [{ counter_ := counter_, destroyed := 0 }])

/-- `MakeIntrusive<T>(args...)`: `IntrusivePtr<T>(new T(args...))`; `src` is the object the
arguments copy, if they select the copy constructor. -/
def MakeIntrusive (src : Option Nat) (os : Objects) : IntrusivePtr × Objects :=
  let r := os.new src
  IntrusivePtr.ctorRaw (some r.1) none r.2

/-- A program state for intrusive pointers: the objects and the `IntrusivePtr` objects
created so far (`none` once destroyed). -/
structure ISys where
  objs : Objects
  ptrs : List (Option IntrusivePtr)
deriving DecidableEq, Repr

def ISys.init : ISys := { objs := [], ptrs := [] }

/-- The live `IntrusivePtr` object in slot `i`, if any. -/
def ISys.ptrAt (s : ISys) (i : Nat) : Option IntrusivePtr := s.ptrs.getD i none

/-- Whether a slot holds a live `IntrusivePtr` pointing at object `k`. -/
def IntrusivePtr.refers (k : Nat) : Option IntrusivePtr → Bool
  | some p => decide (p.ptr_ = some k)
  | none => false

/-- Number of live `IntrusivePtr` objects pointing at object `k`. -/
def ISys.refs (s : ISys) (k : Nat) : Nat := s.ptrs.countP (IntrusivePtr.refers k)

/-- The operations of a program. A raw pointer handed to a constructor or to `Reset` is the
`Get()` of a live `IntrusivePtr` (slot `j`); new objects come from `MakeIntrusive` with
arguments that copy no reference-counted object. -/
inductive IOp where
  | default
  | make
  | raw (j : Nat) (garbage : Option Nat)
  | rawNull (garbage : Option Nat)
  | copy (j : Nat)
  | convert (j : Nat) (garbage : Option Nat)
  | move (j : Nat)
  | assign (i j : Nat)
  | moveAssign (i j : Nat)
  | reset (i : Nat)
  | resetPtr (i j : Nat)
  | set (i j : Nat)
  | swap (i j : Nat)
  | destroy (i : Nat)
deriving DecidableEq, Repr

/-- One operation. -/
def istep (s : ISys) : IOp → ISys
  | IOp.default => { s with ptrs := s.ptrs ++ [some IntrusivePtr.ctorDefault] }
  | IOp.make =>
    let r := MakeIntrusive none s.objs
    { objs := r.2, ptrs := s.ptrs ++ [some r.1] }
  | IOp.raw j garbage =>
    match s.ptrAt j with
    | some o =>
      let r := IntrusivePtr.ctorRaw o.Get garbage s.objs
      { objs := r.2, ptrs := s.ptrs ++ [some r.1] }
    | none => s
  | IOp.rawNull garbage =>
    let r := IntrusivePtr.ctorRaw none garbage s.objs
    { objs := r.2, ptrs := s.ptrs ++ [some r.1] }
  | IOp.copy j =>
    match s.ptrAt j with
    | some o =>
      let r := IntrusivePtr.ctorCopy o s.objs
      { objs := r.2, ptrs := s.ptrs ++ [some r.1] }
    | none => s
  | IOp.convert j garbage =>
    match s.ptrAt j with
    | some o =>
      let r := IntrusivePtr.ctorConvert o garbage s.objs
      { objs := r.2, ptrs := s.ptrs ++ [some r.1] }
    | none => s
  | IOp.move j =>
    match s.ptrAt j with
    | some o =>
      let r := IntrusivePtr.ctorMove o
      { s with ptrs := s.ptrs.set j (some r.2) ++ [some r.1] }
    | none => s
  | IOp.assign i j =>
    if i = j then s
    else
      match s.ptrAt i, s.ptrAt j with
      | some a, some o =>
        let r := IntrusivePtr.assignCopy a o s.objs
        { objs := r.2, ptrs := s.ptrs.set i (some r.1) }
      | _, _ => s
  | IOp.moveAssign i j =>
    match s.ptrAt i, s.ptrAt j with
    | some a, some o =>
      let r := IntrusivePtr.assignMove a o s.objs
      { objs := r.2.2, ptrs := (s.ptrs.set i (some r.1)).set j (some r.2.1) }
    | _, _ => s
  | IOp.reset i =>
    match s.ptrAt i with
    | some a =>
      let r := a.Reset s.objs
      { objs := r.2, ptrs := s.ptrs.set i (some r.1) }
    | none => s
  | IOp.resetPtr i j =>
    match s.ptrAt i, s.ptrAt j with
    | some a, some o =>
      let r := a.ResetPtr o.Get s.objs
      { objs := r.2, ptrs := s.ptrs.set i (some r.1) }
    | _, _ => s
  | IOp.set i j =>
    match s.ptrAt i, s.ptrAt j with
    | some a, some o =>
      let r := a.Set o.Get s.objs
      { objs := r.2, ptrs := s.ptrs.set i (some r.1) }
    | _, _ => s
  | IOp.swap i j =>
    match s.ptrAt i, s.ptrAt j with
    | some a, some o =>
      let r := a.Swap o
      { s with ptrs := (s.ptrs.set i (some r.1)).set j (some r.2) }
    | _, _ => s
  | IOp.destroy i =>
    match s.ptrAt i with
    | some a =>
      let r := a.Reset s.objs
      { objs := r.2, ptrs := s.ptrs.set i none }
    | none => s

/-- A program: the operations in order. -/
def irun (s : ISys) : List IOp → ISys
  | [] => s
  | op :: ops => irun (istep s op) ops

/-- The operation leaves no pointer member uninitialised in state `s`: it is not a
construction from a null raw pointer, nor a converting copy of an empty `IntrusivePtr`. -/
def IOp.determinate (s : ISys) : IOp → Bool
  | IOp.raw j _ =>
    match s.ptrAt j with
    | some o => o.ptr_ != none
    | none => true
  | IOp.rawNull _ => false
  | IOp.convert j _ =>
    match s.ptrAt j with
    | some o => o.ptr_ != none
    | none => true
  | _ => true

/-- Every operation of the program is determinate in the state it is applied to. -/
def Determinate (s : ISys) : List IOp → Prop
  | [] => True
  | op :: ops => op.determinate s = true ∧ Determinate (istep s op) ops

/-- Every object's counter is the number of live `IntrusivePtr` objects pointing at it, and
an allocated object has been destroyed once if that number is 0 and never otherwise. -/
def ISys.Counted (s : ISys) : Prop :=
  ∀ k, (s.objs.obj k).RefCount = s.refs k ∧
    (k < s.objs.length → (s.objs.obj k).destroyed = if s.refs k = 0 then 1 else 0)

/-- The statements `if (x != nullptr) x->IncRef(); if (y != nullptr) y->DecRef();`, in this
order: the counter traffic of copy assignment and of `Reset(T*)`. -/
def Objects.retarget (os : Objects) (x y : Option Nat) : Objects :=
  let os1 :=
    match x with
    | some k => os.IncRef k
    | none => os
  match y with
  | some k => os1.DecRef k
  | none => os1

/-- `Deleter::Destroy` ran on an object during a step exactly if the step brought its
counter from a positive value to 0, and then once. -/
def ISys.DestroyStep (s t : ISys) : Prop :=
  ∀ k, k < s.objs.length →
    (t.objs.obj k).destroyed
      = (s.objs.obj k).destroyed
        + (if 0 < (s.objs.obj k).RefCount ∧ (t.objs.obj k).RefCount = 0 then 1 else 0)

/-! ## `UniquePtr` (`unique.h`) over `CompressedPair` (`compressed_pair.h`)

A raw pointer is a `Nat` (0 is `nullptr`). A deleter is a value of a type `D`; `Deleter()` is
the value-initialised deleter, `default`. Calling a deleter on a pointer is an event: the calls
made so far are a list of pairs (the deleter object called, its argument). -/

/-- `CompressedPair<F, S>`: the elements behind `GetFirst()` and `GetSecond()`. -/
structure CompressedPair (F S : Type) where
  first : F
  second : S
deriving DecidableEq, Repr

def CompressedPair.GetFirst {F S : Type} (p : CompressedPair F S) : F := p.first

def CompressedPair.GetSecond {F S : Type} (p : CompressedPair F S) : S := p.second

/-- `UniquePtr<T, Deleter>`: `CompressedPair<T*, Deleter> pair_`. -/
structure UniquePtr (D : Type) where
  pair_ : CompressedPair Nat D
deriving DecidableEq, Repr

/-- The deleter calls made so far, oldest first. -/
abbrev DeleterCalls (D : Type) := List (D × Nat)

namespace UniquePtr

variable {D : Type}

/-- `explicit UniquePtr(T* ptr = nullptr)`: `pair_(ptr, Deleter())`. -/
def ctorPtr [Inhabited D] (ptr : Nat) : UniquePtr D :=
  { pair_ := { first := ptr, second := default } }

/-- `UniquePtr(T* ptr, Deleter deleter)`. -/
def ctorDeleter (ptr : Nat) (deleter : D) : UniquePtr D :=
  { pair_ := { first := ptr, second := deleter } }

def Get (self : UniquePtr D) : Nat := self.pair_.GetFirst

def GetDeleter (self : UniquePtr D) : D := self.pair_.GetSecond

/-- `explicit operator bool()`. -/
def toBool (self : UniquePtr D) : Bool := self.pair_.GetFirst != 0

/-- `Release()`: the pointer returned and the handle afterwards. -/
def Release (self : UniquePtr D) : Nat × UniquePtr D :=
  (self.pair_.GetFirst, { pair_ := { self.pair_ with first := 0 } })

/-- `Reset(T* ptr = nullptr)`:
`auto ptr2 = pair_.GetFirst(); pair_.GetFirst() = ptr; Deleter()(ptr2);`. -/
def Reset [Inhabited D] (self : UniquePtr D) (ptr : Nat) (calls : DeleterCalls D) :
    UniquePtr D × DeleterCalls D :=
  let ptr2 := self.pair_.GetFirst
  ({ pair_ := { self.pair_ with first := ptr } }, calls ++ [((default : D), ptr2)])

/-- `~UniquePtr()`: `Reset()`. -/
def dtor [Inhabited D] (self : UniquePtr D) (calls : DeleterCalls D) : DeleterCalls D :=
  (self.Reset 0 calls).2

/-- `UniquePtr(UniquePtr&& other)`: `pair_(other.Release(), std::move(other.GetDeleter()))`;
the new handle and what is left of `other`. -/
def ctorMove (other : UniquePtr D) : UniquePtr D × UniquePtr D :=
  let r := other.Release
  ({ pair_ := { first := r.1, second := r.2.GetDeleter } }, r.2)

/-- The body of `operator=(UniquePtr&& other)` once `this != &other` holds: the assigned
handle, what is left of `other`, and the deleter calls. -/
def assignMove [Inhabited D] (self other : UniquePtr D) (calls : DeleterCalls D) :
    UniquePtr D × UniquePtr D × DeleterCalls D :=
  let r := self.Reset 0 calls
  let o := other.Release
  ({ pair_ := { first := o.1, second := o.2.GetDeleter } }, o.2, r.2)

/-- `Swap(UniquePtr& other)`: what `*this` and `other` hold afterwards. -/
def Swap (self other : UniquePtr D) : UniquePtr D × UniquePtr D := (other, self)

end UniquePtr

/-! ## Lemmas on the heap -/

theorem block_modify (f : ControlBlockBase → ControlBlockBase) (h : Heap) (a b : Nat) :
    Heap.block (List.modify f a h) b
      = if a = b ∧ b < h.length then f (h.block b) else h.block b := by
  unfold Heap.block
  simp only [List.getD_eq_getElem?_getD, List.getElem?_modify]
  by_cases hb : b < h.length
  · by_cases hab : a = b
    · simp [hab, hb, List.getElem?_eq_getElem]
    · simp [hab, hb, List.getElem?_eq_getElem]
  · have : h[b]? = none := List.getElem?_eq_none (by omega)
    simp [this, hb]

theorem block_of_length_le (h : Heap) (b : Nat) (hb : h.length ≤ b) :
    h.block b = default := by
  unfold Heap.block
  simp [List.getElem?_eq_none hb]

theorem block_append (h : Heap) (c : ControlBlockBase) (b : Nat) :
    Heap.block (h ++ [c]) b
      = if b < h.length then h.block b else if b = h.length then c else default := by
  unfold Heap.block
  simp only [List.getD_eq_getElem?_getD]
  by_cases hb : b < h.length
  · simp [hb, List.getElem?_append_left hb]
  · by_cases hb2 : b = h.length
    · subst hb2
      simp
    · have : (h ++ [c])[b]? = none := List.getElem?_eq_none (by simp; omega)
      simp [this, hb, hb2]

theorem default_count : (default : ControlBlockBase).count_ = 0 := rfl

theorem default_weak_count : (default : ControlBlockBase).weak_count_ = 0 := rfl

@[simp] theorem length_Increment (h : Heap) (a : Nat) :
    (h.Increment a).length = h.length := by simp [Heap.Increment]

@[simp] theorem length_Decrement (h : Heap) (a : Nat) :
    (h.Decrement a).length = h.length := by simp [Heap.Decrement]

@[simp] theorem length_IncrementWeak (h : Heap) (a : Nat) :
    (h.IncrementWeak a).length = h.length := by simp [Heap.IncrementWeak]

@[simp] theorem length_DecrementWeak (h : Heap) (a : Nat) :
    (h.DecrementWeak a).length = h.length := by simp [Heap.DecrementWeak]

@[simp] theorem length_Destroy (h : Heap) (a : Nat) :
    (h.Destroy a).length = h.length := by simp [Heap.Destroy]

@[simp] theorem length_delete (h : Heap) (a : Nat) :
    (h.delete a).length = h.length := by simp [Heap.delete]

theorem count_Increment (h : Heap) (a b : Nat) :
    ((h.Increment a).block b).count_
      = (h.block b).count_ + (if a = b ∧ b < h.length then 1 else 0) := by
  rw [Heap.Increment, block_modify]
  split_ifs <;> simp [ControlBlockBase.Increment]

theorem count_Decrement (h : Heap) (a b : Nat) :
    ((h.Decrement a).block b).count_
      = (h.block b).count_ - (if a = b ∧ b < h.length then 1 else 0) := by
  rw [Heap.Decrement, block_modify]
  split_ifs <;> simp [ControlBlockBase.Decrement]

@[simp] theorem count_IncrementWeak (h : Heap) (a b : Nat) :
    ((h.IncrementWeak a).block b).count_ = (h.block b).count_ := by
  rw [Heap.IncrementWeak, block_modify]
  split_ifs <;> simp [ControlBlockBase.IncrementWeak]

@[simp] theorem count_DecrementWeak (h : Heap) (a b : Nat) :
    ((h.DecrementWeak a).block b).count_ = (h.block b).count_ := by
  rw [Heap.DecrementWeak, block_modify]
  split_ifs <;> simp [ControlBlockBase.DecrementWeak]

@[simp] theorem count_Destroy (h : Heap) (a b : Nat) :
    ((h.Destroy a).block b).count_ = (h.block b).count_ := by
  rw [Heap.Destroy, block_modify]
  split_ifs
  · unfold ControlBlockBase.Destroy
    split <;> rfl
  · rfl

@[simp] theorem count_delete (h : Heap) (a b : Nat) :
    ((h.delete a).block b).count_ = (h.block b).count_ := by
  rw [Heap.delete, block_modify]
  split_ifs <;> simp [ControlBlockBase.delete]

@[simp] theorem shared_length_Realise (a : Nat) (h : Heap) :
    (SharedPtr.Realise a h).length = h.length := by
  unfold SharedPtr.Realise
  split_ifs <;> simp

@[simp] theorem shared_count_Realise (a b : Nat) (h : Heap) :
    ((SharedPtr.Realise a h).block b).count_ = (h.block b).count_ := by
  unfold SharedPtr.Realise
  split_ifs <;> simp

@[simp] theorem weak_length_Realise (a : Nat) (h : Heap) :
    (WeakPtr.Realise a h).length = h.length := by
  unfold WeakPtr.Realise
  split_ifs <;> simp

@[simp] theorem weak_count_Realise (a b : Nat) (h : Heap) :
    ((WeakPtr.Realise a h).block b).count_ = (h.block b).count_ := by
  unfold WeakPtr.Realise
  split_ifs <;> simp

@[simp] theorem shared_Reset_block (p : SharedPtr) (h : Heap) :
    (p.Reset h).1.block_ = none := by
  unfold SharedPtr.Reset
  split
  · rfl
  · assumption

@[simp] theorem shared_length_Reset (p : SharedPtr) (h : Heap) :
    (p.Reset h).2.length = h.length := by
  unfold SharedPtr.Reset
  split
  · dsimp only
    split_ifs <;> simp
  · rfl

theorem shared_count_Reset (p : SharedPtr) (h : Heap) (b : Nat) :
    ((p.Reset h).2.block b).count_
      = (h.block b).count_ - (if p.block_ = some b ∧ b < h.length then 1 else 0) := by
  unfold SharedPtr.Reset
  split
  · next a ha =>
    dsimp only
    simp only [ha, Option.some.injEq]
    split_ifs <;> simp [count_Decrement, *]
  · next ha => simp [ha]

/-! ## Lemmas on the handle store -/

theorem countP_set_int {α : Type} (p : α → Bool) (l : List α) (i : Nat) (x : α)
    (hi : i < l.length) :
    ((l.set i x).countP p : Int)
      = l.countP p - (if p (l.get ⟨i, hi⟩) then 1 else 0) + (if p x then 1 else 0) := by
  induction l generalizing i with
  | nil => simp at hi
  | cons y ys ih =>
    cases i with
    | zero =>
      simp only [List.set_cons_zero, List.countP_cons, List.get_eq_getElem, List.getElem_cons_zero]
      push_cast
      split_ifs <;> omega
    | succ k =>
      have hk : k < ys.length := by simpa using hi
      have := ih k hk
      simp only [List.set_cons_succ, List.countP_cons, List.get_eq_getElem,
        List.getElem_cons_succ] at this ⊢
      push_cast
      omega

theorem getD_none_eq_some {α : Type} (l : List (Option α)) (i : Nat) (a : α)
    (h : l.getD i none = some a) : ∃ hi : i < l.length, l.get ⟨i, hi⟩ = some a := by
  by_cases hi : i < l.length
  · refine ⟨hi, ?_⟩
    simpa [List.getD_eq_getElem?_getD, List.getElem?_eq_getElem hi] using h
  · simp [List.getD_eq_getElem?_getD, List.getElem?_eq_none (Nat.le_of_not_lt hi)] at h

theorem getD_set_none {α : Type} (l : List (Option α)) (i j : Nat) (x : Option α) :
    (l.set i x).getD j none = if i = j ∧ j < l.length then x else l.getD j none := by
  simp only [List.getD_eq_getElem?_getD, List.getElem?_set]
  by_cases hij : i = j
  · by_cases hj : j < l.length
    · simp [hij, hj]
    · simp [hij, hj, List.getElem?_eq_none (Nat.le_of_not_lt hj)]
  · simp [hij]

theorem getD_append_none {α : Type} (l : List (Option α)) (x : Option α) (j : Nat) :
    (l ++ [x]).getD j none
      = if j < l.length then l.getD j none else if j = l.length then x else none := by
  simp only [List.getD_eq_getElem?_getD]
  by_cases hj : j < l.length
  · simp [hj, List.getElem?_append_left hj]
  · by_cases hj2 : j = l.length
    · subst hj2
      simp
    · have : (l ++ [x])[j]? = none := List.getElem?_eq_none (by simp; omega)
      simp [this, hj, hj2]

theorem shared_refs_set (l : List (Option SharedPtr)) (i : Nat) (a : SharedPtr)
    (x : Option SharedPtr) (b : Nat) (h : l.getD i none = some a) :
    ((l.set i x).countP (SharedPtr.refers b) : Int)
      = l.countP (SharedPtr.refers b) - (if a.block_ = some b then 1 else 0)
        + (if SharedPtr.refers b x then 1 else 0) := by
  obtain ⟨hi, hget⟩ := getD_none_eq_some l i a h
  rw [countP_set_int _ l i x hi, hget]
  simp [SharedPtr.refers]

theorem shared_refs_append (l : List (Option SharedPtr)) (x : Option SharedPtr) (b : Nat) :
    ((l ++ [x]).countP (SharedPtr.refers b) : Int)
      = l.countP (SharedPtr.refers b) + (if SharedPtr.refers b x then 1 else 0) := by
  rw [List.countP_append]
  simp [List.countP_cons]

theorem shared_refs_pos (l : List (Option SharedPtr)) (i : Nat) (a : SharedPtr) (b : Nat)
    (h : l.getD i none = some a) (hb : a.block_ = some b) :
    0 < l.countP (SharedPtr.refers b) := by
  obtain ⟨hi, hget⟩ := getD_none_eq_some l i a h
  rw [List.countP_pos_iff]
  exact ⟨some a, by rw [← hget]; exact List.get_mem l i hi, by simp [SharedPtr.refers, hb]⟩

theorem Counted_valid (s : Sys) (hs : s.Counted) (i : Nat) (a : SharedPtr) (b : Nat)
    (h : s.sharedAt i = some a) (hb : a.block_ = some b) : b < s.heap.length := by
  by_contra hlt
  have h0 := hs b
  rw [block_of_length_le _ _ (Nat.le_of_not_lt hlt), default_count] at h0
  have := shared_refs_pos s.shared i a b h hb
  unfold Sys.sharedRefs at h0
  omega

theorem count_pos_valid (h : Heap) (b : Nat) (hb : (h.block b).count_ ≠ 0) : b < h.length := by
  by_contra hlt
  rw [block_of_length_le _ _ (Nat.le_of_not_lt hlt), default_count] at hb
  exact hb rfl

/-! ## The strong count is the number of live `SharedPtr` objects -/

theorem Counted_sharedDefault (s : Sys) (hs : s.Counted) :
    Sys.Counted { s with shared := s.shared ++ [some SharedPtr.ctorDefault] } := by
  intro b
  have h0 := hs b
  simp only [Sys.sharedRefs] at h0 ⊢
  rw [shared_refs_append]
  simp [SharedPtr.refers, SharedPtr.ctorDefault, h0]

theorem Counted_sharedRaw (s : Sys) (hs : s.Counted) (ptr : Nat) :
    Sys.Counted { s with heap := (SharedPtr.ctorRaw ptr s.heap).2,
                         shared := s.shared ++ [some (SharedPtr.ctorRaw ptr s.heap).1] } := by
  intro b
  have h0 := hs b
  simp only [Sys.sharedRefs] at h0 ⊢
  rw [shared_refs_append]
  by_cases hp : ptr = 0
  · simp [SharedPtr.ctorRaw, hp, SharedPtr.refers, h0]
  · simp only [SharedPtr.ctorRaw, ne_eq, hp, not_false_eq_true, ↓reduceIte, Heap.new,
      count_Increment, block_append, SharedPtr.refers, List.length_append,
      List.length_singleton, Option.some.injEq, decide_eq_true_eq]
    by_cases hb : b < s.heap.length
    · have : s.heap.length ≠ b := by omega
      simp [hb, this, h0]
    · have hd := block_of_length_le _ _ (Nat.le_of_not_lt hb)
      rw [hd, default_count] at h0
      by_cases hb2 : b = s.heap.length
      · subst hb2
        simp [ControlBlockBase.fresh, ← h0]
      · have : s.heap.length ≠ b := fun h => hb2 h.symm
        simp [hb, hb2, this, default_count, ← h0]

theorem Counted_acquire (s : Sys) (hs : s.Counted) (j : Nat) (o : SharedPtr)
    (hj : s.sharedAt j = some o) (ptr : Nat) :
    Sys.Counted { s with
      heap := (match o.block_ with | some c => s.heap.Increment c | none => s.heap),
      shared := s.shared ++ [some { ptr_ := ptr, block_ := o.block_ }] } := by
  intro b
  have h0 := hs b
  simp only [Sys.sharedRefs] at h0 ⊢
  rw [shared_refs_append]
  cases hc : o.block_ with
  | none => simp [SharedPtr.refers, h0]
  | some c =>
    have hv := Counted_valid s hs j o c hj hc
    simp only [count_Increment, SharedPtr.refers, Option.some.injEq, decide_eq_true_eq, h0]
    by_cases hcb : c = b
    · subst hcb
      simp [hv]
    · simp [hcb]

theorem Counted_release (s : Sys) (hs : s.Counted) (i : Nat) (a : SharedPtr)
    (hi : s.sharedAt i = some a) (x : Option SharedPtr)
    (hx : ∀ b, SharedPtr.refers b x = false) :
    Sys.Counted { s with heap := (a.Reset s.heap).2, shared := s.shared.set i x } := by
  intro b
  have h0 := hs b
  simp only [Sys.sharedRefs] at h0 ⊢
  rw [shared_refs_set s.shared i a x b hi, shared_count_Reset, hx b, h0]
  by_cases hab : a.block_ = some b
  · have hv := Counted_valid s hs i a b hi hab
    simp [hab, hv]
  · simp [hab]

theorem Counted_adopt (s : Sys) (hs : s.Counted) (i j : Nat) (e o : SharedPtr)
    (hi : s.sharedAt i = some e) (he : e.block_ = none) (hj : s.sharedAt j = some o)
    (ptr : Nat) :
    Sys.Counted { s with
      heap := (match o.block_ with | some c => s.heap.Increment c | none => s.heap),
      shared := s.shared.set i (some { ptr_ := ptr, block_ := o.block_ }) } := by
  intro b
  have h0 := hs b
  simp only [Sys.sharedRefs] at h0 ⊢
  rw [shared_refs_set s.shared i e _ b hi]
  cases hc : o.block_ with
  | none => simp [SharedPtr.refers, h0, he]
  | some c =>
    have hv := Counted_valid s hs j o c hj hc
    simp only [count_Increment, SharedPtr.refers, Option.some.injEq, decide_eq_true_eq, h0, he]
    by_cases hcb : c = b
    · subst hcb
      simp [hv]
    · simp [hcb]

theorem Counted_transfer (s : Sys) (hs : s.Counted) (i j : Nat) (hij : i ≠ j)
    (e o : SharedPtr) (hi : s.sharedAt i = some e) (he : e.block_ = none)
    (hj : s.sharedAt j = some o) :
    Sys.Counted { s with
      shared := (s.shared.set i (some { ptr_ := o.ptr_, block_ := o.block_ })).set j
        (some { ptr_ := 0, block_ := none }) } := by
  intro b
  have h0 := hs b
  simp only [Sys.sharedRefs] at h0 ⊢
  have hj2 : (s.shared.set i (some { ptr_ := o.ptr_, block_ := o.block_ })).getD j none
      = some o := by
    rw [getD_set_none]
    simp only [hij, false_and, ↓reduceIte]
    exact hj
  rw [shared_refs_set _ j o _ b hj2, shared_refs_set s.shared i e _ b hi, h0]
  simp [SharedPtr.refers, he]

theorem Counted_moved (s : Sys) (hs : s.Counted) (j : Nat) (o : SharedPtr)
    (hj : s.sharedAt j = some o) :
    Sys.Counted { s with
      shared := s.shared.set j (some { ptr_ := 0, block_ := none })
        ++ [some { ptr_ := o.ptr_, block_ := o.block_ }] } := by
  intro b
  have h0 := hs b
  simp only [Sys.sharedRefs] at h0 ⊢
  rw [shared_refs_append, shared_refs_set s.shared j o _ b hj, h0]
  simp [SharedPtr.refers]

theorem Counted_heap (s : Sys) (hs : s.Counted) (h : Heap) (w : List (Option WeakPtr))
    (hh : ∀ b, (h.block b).count_ = (s.heap.block b).count_) :
    Sys.Counted { s with heap := h, weak := w } := by
  intro b
  rw [hh b]
  exact hs b

theorem Counted_promote (s : Sys) (hs : s.Counted) (c : Nat)
    (hc : (s.heap.block c).count_ ≠ 0) (ptr : Nat) :
    Sys.Counted { s with heap := s.heap.Increment c,
                         shared := s.shared ++ [some { ptr_ := ptr, block_ := some c }] } := by
  intro b
  have h0 := hs b
  simp only [Sys.sharedRefs] at h0 ⊢
  rw [shared_refs_append]
  have hv := count_pos_valid _ _ hc
  simp only [count_Increment, SharedPtr.refers, Option.some.injEq, decide_eq_true_eq, h0]
  by_cases hcb : c = b
  · subst hcb
    simp [hv]
  · simp [hcb]

theorem weak_Reset_count (w : WeakPtr) (h : Heap) (r : WeakPtr × Heap)
    (hr : w.Reset h = Except.ok r) (b : Nat) :
    (r.2.block b).count_ = (h.block b).count_ := by
  unfold WeakPtr.Reset at hr
  split_ifs at hr with hp
  · split at hr
    · injection hr with hr
      subst hr
      dsimp only
      split_ifs <;> simp
    · cases hr
  · injection hr with hr
    subst hr
    rfl

theorem weak_ctorCopy_count (w : WeakPtr) (h : Heap) (r : WeakPtr × Heap)
    (hr : w.ctorCopy h = Except.ok r) (b : Nat) :
    (r.2.block b).count_ = (h.block b).count_ := by
  unfold WeakPtr.ctorCopy at hr
  split_ifs at hr with hp
  · split at hr
    · injection hr with hr
      subst hr
      simp
    · cases hr
  · injection hr with hr
    subst hr
    rfl

theorem weak_ctorShared_count (o : SharedPtr) (h : Heap) (b : Nat) :
    ((WeakPtr.ctorShared o h).2.block b).count_ = (h.block b).count_ := by
  unfold WeakPtr.ctorShared
  split <;> simp

theorem weak_ctorConvert_count (o : WeakPtr) (h : Heap) (b : Nat) :
    ((WeakPtr.ctorConvert o h).2.block b).count_ = (h.block b).count_ := by
  unfold WeakPtr.ctorConvert
  split <;> simp

theorem weak_assignCopy_count (a o : WeakPtr) (h : Heap) (b : Nat) :
    ((WeakPtr.assignCopy a o h).2.block b).count_ = (h.block b).count_ := by
  unfold WeakPtr.assignCopy
  split <;> split <;> simp

theorem weak_assignMove_count (a o : WeakPtr) (h : Heap) (r : WeakPtr × WeakPtr × Heap)
    (hr : WeakPtr.assignMove a o h = Except.ok r) (b : Nat) :
    (r.2.2.block b).count_ = (h.block b).count_ := by
  unfold WeakPtr.assignMove at hr
  split_ifs at hr with hp
  · split at hr
    · next r1 h1 =>
      injection hr with hr
      subst hr
      exact weak_Reset_count a h r1 h1 b
    · cases hr
  · injection hr with hr
    subst hr
    rfl

theorem ctorWeak_ok (w : WeakPtr) (h : Heap) (r : SharedPtr × Heap)
    (hr : SharedPtr.ctorWeak w h = Except.ok r) :
    ∃ c, w.block_ = some c ∧ (h.block c).count_ ≠ 0 ∧
      r = ({ ptr_ := w.ptr_, block_ := some c }, h.Increment c) := by
  unfold SharedPtr.ctorWeak at hr
  split_ifs at hr with he he2
  split at hr
  · next c hc =>
    injection hr with hr
    refine ⟨c, hc, ?_, hr.symm⟩
    intro h0
    apply he
    simp only [WeakPtr.GetBlock] at hc
    simp [WeakPtr.Expired, WeakPtr.UseCount, hc, Heap.Get1, ControlBlockBase.Get1, h0, toSizeT]
  · cases hr

theorem Lock_ok (w : WeakPtr) (h : Heap) (r : SharedPtr × Heap)
    (hr : w.Lock h = Except.ok r) :
    r = (SharedPtr.ctorDefault, h) ∨
    ∃ c, w.block_ = some c ∧ (h.block c).count_ ≠ 0 ∧
      r = ({ ptr_ := w.ptr_, block_ := some c }, h.Increment c) := by
  unfold WeakPtr.Lock at hr
  split_ifs at hr with he
  · exact Or.inr (ctorWeak_ok w h r hr)
  · injection hr with hr
    exact Or.inl hr.symm

theorem block_new_Increment (h : Heap) (body : BlockBody) (b : Nat) :
    ((h.new body).2.Increment (h.new body).1).block b
      = if b = h.length then (ControlBlockBase.fresh body).Increment else h.block b := by
  simp only [Heap.new, Heap.Increment, block_modify, block_append, List.length_append,
    List.length_singleton]
  by_cases hb : b < h.length
  · have h1 : h.length ≠ b := by omega
    have h2 : b ≠ h.length := by omega
    simp [hb, h1, h2]
  · by_cases hb2 : b = h.length
    · subst hb2
      simp
    · have h1 : h.length ≠ b := fun e => hb2 e.symm
      simp [hb, hb2, h1, block_of_length_le h b (Nat.le_of_not_lt hb)]

theorem count_new_Increment (h : Heap) (body : BlockBody) (b : Nat) :
    (((h.new body).2.Increment (h.new body).1).block b).count_
      = (h.block b).count_ + (if b = h.length then 1 else 0) := by
  rw [block_new_Increment]
  by_cases hb : b = h.length
  · subst hb
    simp [ControlBlockBase.fresh, ControlBlockBase.Increment,
      block_of_length_le h h.length (Nat.le_refl _), default_count]
  · simp [hb]

theorem Counted_newBlock (s : Sys) (hs : s.Counted) (body : BlockBody) (ptr : Nat) :
    Sys.Counted { s with
      heap := (s.heap.new body).2.Increment (s.heap.new body).1,
      shared := s.shared ++ [some { ptr_ := ptr, block_ := some s.heap.length }] } := by
  intro b
  have h0 := hs b
  simp only [Sys.sharedRefs] at h0 ⊢
  rw [shared_refs_append, count_new_Increment, h0]
  by_cases hb : b = s.heap.length
  · simp [SharedPtr.refers, hb]
  · have : s.heap.length ≠ b := fun e => hb e.symm
    simp [SharedPtr.refers, hb, this]

theorem Counted_adoptNew (s : Sys) (hs : s.Counted) (i : Nat) (e : SharedPtr)
    (hi : s.sharedAt i = some e) (he : e.block_ = none) (body : BlockBody) (ptr : Nat) :
    Sys.Counted { s with
      heap := (s.heap.new body).2.Increment (s.heap.new body).1,
      shared := s.shared.set i (some { ptr_ := ptr, block_ := some s.heap.length }) } := by
  intro b
  have h0 := hs b
  simp only [Sys.sharedRefs] at h0 ⊢
  rw [shared_refs_set s.shared i e _ b hi, count_new_Increment, h0]
  by_cases hb : b = s.heap.length
  · simp [SharedPtr.refers, hb, he]
  · have : s.heap.length ≠ b := fun e => hb e.symm
    simp [SharedPtr.refers, hb, this, he]

theorem Counted_swap (s : Sys) (hs : s.Counted) (i j : Nat) (a o : SharedPtr)
    (hi : s.sharedAt i = some a) (hj : s.sharedAt j = some o) :
    Sys.Counted { s with
      shared := (s.shared.set i (some { ptr_ := o.ptr_, block_ := o.block_ })).set j
        (some { ptr_ := a.ptr_, block_ := a.block_ }) } := by
  intro b
  have h0 := hs b
  simp only [Sys.sharedRefs] at h0 ⊢
  have hj2 : (s.shared.set i (some { ptr_ := o.ptr_, block_ := o.block_ })).getD j none
      = some o := by
    rw [getD_set_none]
    by_cases hij : i = j
    · subst hij
      obtain ⟨hlt, _⟩ := getD_none_eq_some s.shared i a hi
      simp [hlt]
    · simp only [hij, false_and, ↓reduceIte]
      exact hj
  rw [shared_refs_set _ j o _ b hj2, shared_refs_set s.shared i a _ b hi, h0]
  simp only [SharedPtr.refers, decide_eq_true_eq]
  omega

theorem refers_none_block (p : SharedPtr) (hp : p.block_ = none) (b : Nat) :
    SharedPtr.refers b (some p) = false := by
  simp [SharedPtr.refers, hp]

theorem set_getD_self {α : Type} (l : List (Option α)) (i : Nat) (a : α)
    (h : l.getD i none = some a) : l.set i (some a) = l := by
  obtain ⟨hi, hget⟩ := getD_none_eq_some l i a h
  apply List.ext_getElem?
  intro n
  rw [List.getElem?_set]
  by_cases hin : i = n
  · subst hin
    simp only [↓reduceIte, hi]
    rw [List.getElem?_eq_getElem hi]
    simpa using hget.symm
  · simp [hin]

theorem Counted_assignCopy (s : Sys) (hs : s.Counted) (i j : Nat) (hij : i ≠ j)
    (a o : SharedPtr) (ha : s.sharedAt i = some a) (ho : s.sharedAt j = some o) :
    Sys.Counted { s with heap := (SharedPtr.assignCopy a o s.heap).2,
                         shared := s.shared.set i (some (SharedPtr.assignCopy a o s.heap).1) } := by
  have h1 := Counted_release s hs i a ha (some (a.Reset s.heap).1)
    (refers_none_block _ (shared_Reset_block a s.heap))
  have hi1 : Sys.sharedAt { s with heap := (a.Reset s.heap).2,
                                   shared := s.shared.set i (some (a.Reset s.heap).1) } i
      = some (a.Reset s.heap).1 := by
    obtain ⟨hlt, _⟩ := getD_none_eq_some s.shared i a ha
    simp [Sys.sharedAt, getD_set_none, hlt]
  have hj1 : Sys.sharedAt { s with heap := (a.Reset s.heap).2,
                                   shared := s.shared.set i (some (a.Reset s.heap).1) } j
      = some o := by
    simp only [Sys.sharedAt, getD_set_none, hij, false_and, ↓reduceIte]
    exact ho
  have h2 := Counted_adopt _ h1 i j _ o hi1 (shared_Reset_block a s.heap) hj1 o.ptr_
  unfold SharedPtr.assignCopy
  cases hb : o.block_ <;> simpa [hb, List.set_set] using h2

theorem Counted_assignMove (s : Sys) (hs : s.Counted) (i j : Nat) (hij : i ≠ j)
    (a o : SharedPtr) (ha : s.sharedAt i = some a) (ho : s.sharedAt j = some o) :
    Sys.Counted { s with
      heap := (SharedPtr.assignMove a o s.heap).2.2,
      shared := (s.shared.set i (some (SharedPtr.assignMove a o s.heap).1)).set j
        (some (SharedPtr.assignMove a o s.heap).2.1) } := by
  have h1 := Counted_release s hs i a ha (some (a.Reset s.heap).1)
    (refers_none_block _ (shared_Reset_block a s.heap))
  have hi1 : Sys.sharedAt { s with heap := (a.Reset s.heap).2,
                                   shared := s.shared.set i (some (a.Reset s.heap).1) } i
      = some (a.Reset s.heap).1 := by
    obtain ⟨hlt, _⟩ := getD_none_eq_some s.shared i a ha
    simp [Sys.sharedAt, getD_set_none, hlt]
  have hj1 : Sys.sharedAt { s with heap := (a.Reset s.heap).2,
                                   shared := s.shared.set i (some (a.Reset s.heap).1) } j
      = some o := by
    simp only [Sys.sharedAt, getD_set_none, hij, false_and, ↓reduceIte]
    exact ho
  have h2 := Counted_transfer _ h1 i j hij _ o hi1 (shared_Reset_block a s.heap) hj1
  simpa [SharedPtr.assignMove, List.set_set] using h2

theorem Counted_resetPtr (s : Sys) (hs : s.Counted) (i : Nat) (a : SharedPtr)
    (ha : s.sharedAt i = some a) (ptr : Nat) :
    Sys.Counted { s with heap := (a.ResetPtr ptr s.heap).2,
                         shared := s.shared.set i (some (a.ResetPtr ptr s.heap).1) } := by
  by_cases hp : ptr = 0
  · have h1 := Counted_release s hs i a ha (some { ptr_ := ptr, block_ := none })
      (refers_none_block _ rfl)
    simpa [SharedPtr.ResetPtr, hp] using h1
  · have h1 := Counted_release s hs i a ha (some (a.Reset s.heap).1)
      (refers_none_block _ (shared_Reset_block a s.heap))
    have hi1 : Sys.sharedAt { s with heap := (a.Reset s.heap).2,
                                     shared := s.shared.set i (some (a.Reset s.heap).1) } i
        = some (a.Reset s.heap).1 := by
      obtain ⟨hlt, _⟩ := getD_none_eq_some s.shared i a ha
      simp [Sys.sharedAt, getD_set_none, hlt]
    have h2 := Counted_adoptNew _ h1 i _ hi1 (shared_Reset_block a s.heap)
      (BlockBody.PointingConterBlock ptr) ptr
    simpa [SharedPtr.ResetPtr, hp, List.set_set, Heap.new] using h2

theorem same_slot_eq (s : Sys) (i : Nat) (a o : SharedPtr)
    (ha : s.sharedAt i = some a) (ho : s.sharedAt i = some o) : a = o := by
  rw [ha] at ho
  injection ho

theorem assignConvert_of_ne (a o : SharedPtr) (h : Heap) (hg : a.Get ≠ o.Get) :
    SharedPtr.assignConvert a o h = SharedPtr.assignCopy a o h := by
  have hg2 : ¬ a.ptr_ = o.ptr_ := hg
  simp [SharedPtr.assignConvert, SharedPtr.assignCopy, SharedPtr.GetBlock, SharedPtr.Get, hg2]

theorem assignMoveConvert_of_ne (a o : SharedPtr) (h : Heap) (hg : a.Get ≠ o.Get) :
    SharedPtr.assignMoveConvert a o h = SharedPtr.assignMove a o h := by
  have hg2 : ¬ a.ptr_ = o.ptr_ := hg
  simp [SharedPtr.assignMoveConvert, SharedPtr.assignMove, SharedPtr.GetBlock, SharedPtr.Get, hg2]

theorem assignConvert_of_eq (a o : SharedPtr) (h : Heap) (hg : a.Get = o.Get) :
    SharedPtr.assignConvert a o h = (a, h) := by
  simp [SharedPtr.assignConvert, hg]

theorem assignMoveConvert_of_eq (a o : SharedPtr) (h : Heap) (hg : a.Get = o.Get) :
    SharedPtr.assignMoveConvert a o h = (a, o, h) := by
  simp [SharedPtr.assignMoveConvert, hg]

theorem step_Counted (s t : Sys) (op : Op) (hs : s.Counted) (ht : step s op = Except.ok t) :
    t.Counted := by
  cases op with
  | sharedDefault =>
    simp only [step, Except.ok.injEq] at ht
    subst ht
    exact Counted_sharedDefault s hs
  | sharedRaw ptr =>
    simp only [step, Except.ok.injEq] at ht
    subst ht
    exact Counted_sharedRaw s hs ptr
  | sharedCopy j =>
    simp only [step] at ht
    split at ht
    · next o ho =>
      injection ht with ht
      subst ht
      have := Counted_acquire s hs j o ho o.ptr_
      unfold SharedPtr.ctorCopy
      cases hb : o.block_ <;> simpa [hb] using this
    · injection ht with ht
      subst ht
      exact hs
  | sharedMove j =>
    simp only [step] at ht
    split at ht
    · next o ho =>
      injection ht with ht
      subst ht
      exact Counted_moved s hs j o ho
    · injection ht with ht
      subst ht
      exact hs
  | sharedAlias j ptr =>
    simp only [step] at ht
    split at ht
    · next o ho =>
      injection ht with ht
      subst ht
      have := Counted_acquire s hs j o ho ptr
      unfold SharedPtr.ctorAlias SharedPtr.GetBlock
      cases hb : o.block_ <;> simpa [hb] using this
    · injection ht with ht
      subst ht
      exact hs
  | sharedFromWeak j =>
    simp only [step] at ht
    split at ht
    · next w hw =>
      split at ht
      · next r hr =>
        injection ht with ht
        subst ht
        obtain ⟨c, _, hc, rfl⟩ := ctorWeak_ok w s.heap r hr
        exact Counted_promote s hs c hc w.ptr_
      · cases ht
    · injection ht with ht
      subst ht
      exact hs
  | sharedAssign i j =>
    simp only [step] at ht
    split_ifs at ht with hij
    · injection ht with ht
      subst ht
      exact hs
    · split at ht
      · next a o ha ho =>
        injection ht with ht
        subst ht
        have h1 := Counted_release s hs i a ha (some (a.Reset s.heap).1)
          (refers_none_block _ (shared_Reset_block a s.heap))
        have hi1 : Sys.sharedAt { s with heap := (a.Reset s.heap).2,
                                         shared := s.shared.set i (some (a.Reset s.heap).1) } i
            = some (a.Reset s.heap).1 := by
          obtain ⟨hlt, _⟩ := getD_none_eq_some s.shared i a ha
          simp [Sys.sharedAt, getD_set_none, hlt]
        have hj1 : Sys.sharedAt { s with heap := (a.Reset s.heap).2,
                                         shared := s.shared.set i (some (a.Reset s.heap).1) } j
            = some o := by
          simp only [Sys.sharedAt, getD_set_none, hij, false_and, ↓reduceIte]
          exact ho
        have h2 := Counted_adopt _ h1 i j _ o hi1 (shared_Reset_block a s.heap) hj1 o.ptr_
        unfold SharedPtr.assignCopy
        cases hb : o.block_ <;> simpa [hb, List.set_set] using h2
      · injection ht with ht
        subst ht
        exact hs
  | sharedMoveAssign i j =>
    simp only [step] at ht
    split_ifs at ht with hij
    · injection ht with ht
      subst ht
      exact hs
    · split at ht
      · next a o ha ho =>
        injection ht with ht
        subst ht
        have h1 := Counted_release s hs i a ha (some (a.Reset s.heap).1)
          (refers_none_block _ (shared_Reset_block a s.heap))
        have hi1 : Sys.sharedAt { s with heap := (a.Reset s.heap).2,
                                         shared := s.shared.set i (some (a.Reset s.heap).1) } i
            = some (a.Reset s.heap).1 := by
          obtain ⟨hlt, _⟩ := getD_none_eq_some s.shared i a ha
          simp [Sys.sharedAt, getD_set_none, hlt]
        have hj1 : Sys.sharedAt { s with heap := (a.Reset s.heap).2,
                                         shared := s.shared.set i (some (a.Reset s.heap).1) } j
            = some o := by
          simp only [Sys.sharedAt, getD_set_none, hij, false_and, ↓reduceIte]
          exact ho
        have h2 := Counted_transfer _ h1 i j hij _ o hi1 (shared_Reset_block a s.heap) hj1
        simpa [SharedPtr.assignMove, List.set_set] using h2
      · injection ht with ht
        subst ht
        exact hs
  | sharedReset i =>
    simp only [step] at ht
    split at ht
    · next a ha =>
      injection ht with ht
      subst ht
      exact Counted_release s hs i a ha _ (refers_none_block _ (shared_Reset_block a s.heap))
    · injection ht with ht
      subst ht
      exact hs
  | sharedDestroy i =>
    simp only [step] at ht
    split at ht
    · next a ha =>
      injection ht with ht
      subst ht
      exact Counted_release s hs i a ha none (fun _ => rfl)
    · injection ht with ht
      subst ht
      exact hs
  | weakDefault =>
    simp only [step, Except.ok.injEq] at ht
    subst ht
    exact Counted_heap s hs s.heap _ (fun _ => rfl)
  | weakFromShared j =>
    simp only [step] at ht
    split at ht
    · injection ht with ht
      subst ht
      exact Counted_heap s hs _ _ (weak_ctorShared_count _ _)
    · injection ht with ht
      subst ht
      exact hs
  | weakCopy j =>
    simp only [step] at ht
    split at ht
    · next w hw =>
      split at ht
      · next r hr =>
        injection ht with ht
        subst ht
        exact Counted_heap s hs _ _ (weak_ctorCopy_count w s.heap r hr)
      · cases ht
    · injection ht with ht
      subst ht
      exact hs
  | weakMove j =>
    simp only [step] at ht
    split at ht
    · injection ht with ht
      subst ht
      exact Counted_heap s hs s.heap _ (fun _ => rfl)
    · injection ht with ht
      subst ht
      exact hs
  | weakAssign i j =>
    simp only [step] at ht
    split_ifs at ht with hij
    · injection ht with ht
      subst ht
      exact hs
    · split at ht
      · injection ht with ht
        subst ht
        exact Counted_heap s hs _ _ (weak_assignCopy_count _ _ _)
      · injection ht with ht
        subst ht
        exact hs
  | weakMoveAssign i j =>
    simp only [step] at ht
    split at ht
    · next a o ha ho =>
      split at ht
      · next r hr =>
        injection ht with ht
        subst ht
        exact Counted_heap s hs _ _ (weak_assignMove_count a o s.heap r hr)
      · cases ht
    · injection ht with ht
      subst ht
      exact hs
  | weakReset i =>
    simp only [step] at ht
    split at ht
    · next a ha =>
      split at ht
      · next r hr =>
        injection ht with ht
        subst ht
        exact Counted_heap s hs _ _ (weak_Reset_count a s.heap r hr)
      · cases ht
    · injection ht with ht
      subst ht
      exact hs
  | weakDestroy i =>
    simp only [step] at ht
    split at ht
    · next a ha =>
      split at ht
      · next r hr =>
        injection ht with ht
        subst ht
        exact Counted_heap s hs _ _ (weak_Reset_count a s.heap r hr)
      · cases ht
    · injection ht with ht
      subst ht
      exact hs
  | weakLock j =>
    simp only [step] at ht
    split at ht
    · next w hw =>
      split at ht
      · next r hr =>
        injection ht with ht
        subst ht
        rcases Lock_ok w s.heap r hr with rfl | ⟨c, _, hc, rfl⟩
        · exact Counted_sharedDefault s hs
        · exact Counted_promote s hs c hc w.ptr_
      · cases ht
    · injection ht with ht
      subst ht
      exact hs
  | sharedConvert j =>
    simp only [step] at ht
    split at ht
    · next o ho =>
      injection ht with ht
      subst ht
      have := Counted_acquire s hs j o ho o.ptr_
      unfold SharedPtr.ctorConvert SharedPtr.GetBlock SharedPtr.Get
      cases hb : o.block_ <;> simpa [hb] using this
    · injection ht with ht
      subst ht
      exact hs
  | sharedMoveConvert j =>
    simp only [step] at ht
    split at ht
    · next o ho =>
      injection ht with ht
      subst ht
      exact Counted_moved s hs j o ho
    · injection ht with ht
      subst ht
      exact hs
  | sharedAssignConvert i j =>
    simp only [step] at ht
    split at ht
    · next a o ha ho =>
      injection ht with ht
      subst ht
      by_cases hg : a.Get = o.Get
      · rw [assignConvert_of_eq a o s.heap hg]
        have hl : s.shared.set i (some a) = s.shared := set_getD_self s.shared i a ha
        rw [hl]
        exact hs
      · have hij : i ≠ j := by
          rintro rfl
          exact hg (by rw [same_slot_eq s i a o ha ho])
        have h2 := Counted_assignCopy s hs i j hij a o ha ho
        rw [assignConvert_of_ne a o s.heap hg]
        exact h2
    · injection ht with ht
      subst ht
      exact hs
  | sharedMoveAssignConvert i j =>
    simp only [step] at ht
    split at ht
    · next a o ha ho =>
      injection ht with ht
      subst ht
      by_cases hg : a.Get = o.Get
      · rw [assignMoveConvert_of_eq a o s.heap hg]
        have hl : s.shared.set i (some a) = s.shared := set_getD_self s.shared i a ha
        have hl2 : s.shared.set j (some o) = s.shared := set_getD_self s.shared j o ho
        rw [hl, hl2]
        exact hs
      · have hij : i ≠ j := by
          rintro rfl
          exact hg (by rw [same_slot_eq s i a o ha ho])
        have h2 := Counted_assignMove s hs i j hij a o ha ho
        rw [assignMoveConvert_of_ne a o s.heap hg]
        exact h2
    · injection ht with ht
      subst ht
      exact hs
  | sharedResetPtr i ptr =>
    simp only [step] at ht
    split at ht
    · next a ha =>
      injection ht with ht
      subst ht
      exact Counted_resetPtr s hs i a ha ptr
    · injection ht with ht
      subst ht
      exact hs
  | sharedSwap i j =>
    simp only [step] at ht
    split at ht
    · next a o ha ho =>
      injection ht with ht
      subst ht
      exact Counted_swap s hs i j a o ha ho
    · injection ht with ht
      subst ht
      exact hs
  | makeShared args =>
    simp only [step, Except.ok.injEq] at ht
    subst ht
    exact Counted_newBlock s hs (BlockBody.EmplaceConterBlock args)
      (EmplaceConterBlock.Get s.heap.length)
  | weakConvert j =>
    simp only [step] at ht
    split at ht
    · injection ht with ht
      subst ht
      exact Counted_heap s hs _ _ (weak_ctorConvert_count _ _)
    · injection ht with ht
      subst ht
      exact hs
  | weakSwap i j =>
    simp only [step] at ht
    split at ht
    · injection ht with ht
      subst ht
      exact Counted_heap s hs s.heap _ (fun _ => rfl)
    · injection ht with ht
      subst ht
      exact hs

theorem run_Counted (ops : List Op) (s t : Sys) (hs : s.Counted)
    (ht : run s ops = Except.ok t) : t.Counted := by
  induction ops generalizing s with
  | nil =>
    simp only [run, Except.ok.injEq] at ht
    subst ht
    exact hs
  | cons op ops ih =>
    simp only [run] at ht
    split at ht
    · next u hu => exact ih u (step_Counted s u op hs hu) ht
    · cases ht

theorem step_shared_ok (s : Sys) (op : Op) (hop : op.isShared = true) :
    ∃ t, step s op = Except.ok t := by
  cases op <;> simp only [Op.isShared, Bool.false_eq_true] at hop <;> simp only [step]
  case sharedDefault => exact ⟨_, rfl⟩
  case sharedRaw => exact ⟨_, rfl⟩
  case sharedCopy => split <;> exact ⟨_, rfl⟩
  case sharedMove => split <;> exact ⟨_, rfl⟩
  case sharedAlias => split <;> exact ⟨_, rfl⟩
  case sharedAssign => split_ifs <;> [exact ⟨_, rfl⟩; (split <;> exact ⟨_, rfl⟩)]
  case sharedMoveAssign => split_ifs <;> [exact ⟨_, rfl⟩; (split <;> exact ⟨_, rfl⟩)]
  case sharedReset => split <;> exact ⟨_, rfl⟩
  case sharedDestroy => split <;> exact ⟨_, rfl⟩
  case sharedConvert => split <;> exact ⟨_, rfl⟩
  case sharedMoveConvert => split <;> exact ⟨_, rfl⟩
  case sharedAssignConvert => split <;> exact ⟨_, rfl⟩
  case sharedMoveAssignConvert => split <;> exact ⟨_, rfl⟩
  case sharedResetPtr => split <;> exact ⟨_, rfl⟩
  case sharedSwap => split <;> exact ⟨_, rfl⟩
  case makeShared => exact ⟨_, rfl⟩

theorem run_shared_ok (ops : List Op) (s : Sys) (hops : ∀ op ∈ ops, op.isShared = true) :
    ∃ t, run s ops = Except.ok t := by
  induction ops generalizing s with
  | nil => exact ⟨s, rfl⟩
  | cons op ops ih =>
    obtain ⟨u, hu⟩ := step_shared_ok s op (hops op (List.mem_cons_self op ops))
    obtain ⟨t, ht⟩ := ih u (fun o ho => hops o (List.mem_cons_of_mem op ho))
    exact ⟨t, by simp only [run, hu, ht]⟩

theorem toSizeT_natCast (n : Nat) (hn : n < 2 ^ 64) : toSizeT (n : Int) = n := by
  unfold toSizeT
  have : ((n : Int) % 2 ^ 64) = n := Int.emod_eq_of_lt (by omega) (by omega)
  rw [this]
  simp

theorem Counted_UseCount (t : Sys) (ht : t.Counted) (p : SharedPtr) (b : Nat)
    (hb : p.block_ = some b) (hlt : t.sharedRefs b < 2 ^ 31) :
    p.UseCount t.heap = t.sharedRefs b := by
  unfold SharedPtr.UseCount
  rw [hb]
  simp only [Heap.Get1, ControlBlockBase.Get1, ht b]
  exact toSizeT_natCast _ (by omega)

theorem Counted_init : Sys.Counted Sys.init := by
  intro b
  simp [Sys.init, Sys.sharedRefs, Heap.block, default_count]

/-! ## The claims -/

/-- C1: from a state in which every strong count is the number of live `SharedPtr` objects on
its block, after any program that completes, `UseCount()` of every live `SharedPtr` with a block
is the number of live `SharedPtr` objects on that block (as long as that number fits an `int`);
and a program of `SharedPtr` constructions, copies, moves, assignments, resets and destructions
always completes. -/
theorem use_count_is_live_shared_handles (s : Sys) (ops : List Op) (hs : s.Counted) :
    (∀ t, run s ops = Except.ok t →
      ∀ i p b, t.sharedAt i = some p → p.block_ = some b → t.sharedRefs b < 2 ^ 31 →
        p.UseCount t.heap = t.sharedRefs b) ∧
    ((∀ op ∈ ops, op.isShared = true) → ∃ t, run s ops = Except.ok t) := by
  refine ⟨?_, run_shared_ok ops s⟩
  intro t ht i p b _ hb hlt
  exact Counted_UseCount t (run_Counted ops s t hs ht) p b hb hlt

/-- Witness for C1: `a` wraps a raw pointer, `b` and `c` copy it; after `b` is destroyed `a` and
`c` report 2, after `c` is destroyed too `a` reports 1. -/
theorem use_count_is_live_shared_handles_witness :
    Sys.Counted Sys.init ∧
    run Sys.init abaProgram = Except.ok abaAfterDropB ∧
    (abaAfterDropB.sharedAt 0 = some abaHandle ∧ abaAfterDropB.sharedAt 2 = some abaHandle ∧
      abaHandle.UseCount abaAfterDropB.heap = abaAfterDropB.sharedRefs 0 ∧
      abaAfterDropB.sharedRefs 0 = 2) ∧
    run Sys.init (abaProgram ++ [Op.sharedDestroy 2]) = Except.ok abaAfterDropC ∧
    (abaAfterDropC.sharedAt 0 = some abaHandle ∧
      abaHandle.UseCount abaAfterDropC.heap = abaAfterDropC.sharedRefs 0 ∧
      abaAfterDropC.sharedRefs 0 = 1) :=
  ⟨Counted_init, rfl,
    ⟨rfl, rfl,
      (use_count_is_live_shared_handles Sys.init abaProgram Counted_init).1
        abaAfterDropB rfl 0 abaHandle 0 rfl rfl (by decide),
      by decide⟩,
    rfl,
    ⟨rfl,
      (use_count_is_live_shared_handles Sys.init (abaProgram ++ [Op.sharedDestroy 2])
        Counted_init).1 abaAfterDropC rfl 0 abaHandle 0 rfl rfl (by decide),
      by decide⟩⟩

/-- C2 (evaluation at the failing program): `p` wraps a raw pointer and `w` observes `p`.
Resetting `p`, the last `SharedPtr`, runs `Destroy()` once and does not free the block, as
claimed. Then `w2` is copy-constructed from the now expired `w` (the weak count stays 1) and
destroyed: the block is freed although `w`, which referenced the block when `p` was reset, is
still alive and still references it. -/
theorem block_freed_before_observing_weak_released :
    (run Sys.init [Op.sharedRaw 7, Op.weakFromShared 0, Op.sharedReset 0]).map
        (fun t => (t.weakAt 0, (t.heap.block 0).destroyCalls, (t.heap.block 0).dtorRuns,
          (t.heap.block 0).freed, (t.heap.block 0).weak_count_))
      = Except.ok (some (WeakPtr.mk 7 (some 0)), 1, 1, 0, 1) ∧
    (run Sys.init [Op.sharedRaw 7, Op.weakFromShared 0, Op.sharedReset 0, Op.weakCopy 0]).map
        (fun t => (t.weakAt 0, t.weakAt 1, (t.heap.block 0).freed, (t.heap.block 0).weak_count_))
      = Except.ok (some (WeakPtr.mk 7 (some 0)), some (WeakPtr.mk 7 (some 0)), 0, 1) ∧
    (run Sys.init [Op.sharedRaw 7, Op.weakFromShared 0, Op.sharedReset 0, Op.weakCopy 0,
        Op.weakDestroy 1]).map
        (fun t => (t.weakAt 0, t.weakAt 1, (t.heap.block 0).freed, (t.heap.block 0).weak_count_))
      = Except.ok (some (WeakPtr.mk 7 (some 0)), none, 1, 0) :=
  ⟨rfl, rfl, rfl⟩

/-- C3 (evaluation at two failing programs). First program: a block is freed while a live
`WeakPtr` still references it (`w2` is a copy of the expired `w`; destroying `w` frees the
block under `w2`), and the stale `w2` then decrements the weak count of the freed block to -1.
Second program: a `WeakPtr` made from an aliasing `SharedPtr` with a null access pointer is
never released, so after every handle is gone the block has still not been freed. -/
theorem control_block_freed_under_live_weak_or_never :
    (run Sys.init [Op.sharedRaw 7, Op.weakFromShared 0, Op.sharedReset 0, Op.weakCopy 0,
        Op.weakDestroy 0]).map
        (fun t => (t.weakAt 1, t.weakRefs 0, (t.heap.block 0).freed))
      = Except.ok (some (WeakPtr.mk 7 (some 0)), 1, 1) ∧
    (run Sys.init [Op.sharedRaw 7, Op.weakFromShared 0, Op.sharedReset 0, Op.weakCopy 0,
        Op.weakDestroy 0, Op.weakDestroy 1]).map
        (fun t => (t.weakRefs 0, (t.heap.block 0).freed, (t.heap.block 0).weak_count_))
      = Except.ok (0, 1, -1) ∧
    (run Sys.init [Op.sharedRaw 7, Op.sharedAlias 0 0, Op.weakFromShared 1, Op.sharedDestroy 0,
        Op.sharedDestroy 1, Op.weakDestroy 0]).map
        (fun t => (t.sharedRefs 0, t.weakRefs 0, (t.heap.block 0).count_,
          (t.heap.block 0).weak_count_, (t.heap.block 0).freed))
      = Except.ok (0, 0, 0, 1, 0) :=
  ⟨rfl, rfl, rfl⟩

/-- C4 (evaluation at the failing input): block 0 has strong count 0 and weak count 1, and `w`
references it, so `w` is expired. Copy-constructing from `w` yields a second handle on block 0
and leaves the heap, hence the weak count 1, as it was. (From a non-expired source the same
constructor does add one, and the move constructor changes no count.) -/
theorem weak_copy_of_expired_keeps_weak_count :
    WeakPtr.Expired (WeakPtr.mk 7 (some 0)) expiredHeap = true ∧
    WeakPtr.ctorCopy (WeakPtr.mk 7 (some 0)) expiredHeap
      = Except.ok (WeakPtr.mk 7 (some 0), expiredHeap) ∧
    expiredHeap.Get2 0 = 1 ∧
    (WeakPtr.ctorCopy (WeakPtr.mk 7 (some 0)) (expiredHeap.Increment 0)).map
        (fun r => (r.1, r.2.Get2 0))
      = Except.ok (WeakPtr.mk 7 (some 0), 2) :=
  ⟨rfl, rfl, rfl, rfl⟩

/-- C5 (evaluation at the failing input): `w` was made from an aliasing `SharedPtr` whose
access pointer is null, so `w.ptr_ = 0` while `w.block_` is block 0 and the weak count is 1.
`Reset()` (and so the destructor) returns the handle and the heap untouched: the weak count is
still 1 and `w` still holds the block. A handle with a non-null `ptr_` on the same block is
released as claimed. -/
theorem weak_reset_with_null_ptr_releases_nothing :
    (run Sys.init [Op.sharedRaw 7, Op.sharedAlias 0 0, Op.weakFromShared 1]).map
        (fun t => (t.weakAt 0, (t.heap.block 0).weak_count_))
      = Except.ok (some (WeakPtr.mk 0 (some 0)), 1) ∧
    WeakPtr.Reset (WeakPtr.mk 0 (some 0)) aliasedHeap
      = Except.ok (WeakPtr.mk 0 (some 0), aliasedHeap) ∧
    aliasedHeap.Get2 0 = 1 ∧
    (WeakPtr.Reset (WeakPtr.mk 7 (some 0)) aliasedHeap).map (fun r => (r.1, r.2.Get2 0))
      = Except.ok (WeakPtr.mk 0 none, 0) :=
  ⟨rfl, rfl, rfl, rfl⟩

theorem toSizeT_eq_zero_iff (x : Int) (hx : IsInt x) : toSizeT x = 0 ↔ x = 0 := by
  unfold IsInt at hx
  unfold toSizeT
  constructor
  · intro h
    have h1 : x % 2 ^ 64 ≤ 0 := Int.toNat_eq_zero.mp h
    have h2 : 0 ≤ x % 2 ^ 64 := Int.emod_nonneg x (by norm_num)
    have h3 : x % 2 ^ 64 = 0 := le_antisymm h1 h2
    omega
  · rintro rfl
    rfl

theorem toSizeT_of_nonneg (x : Int) (h0 : 0 ≤ x) (hx : x < 2 ^ 31) :
    (toSizeT x : Int) = x := by
  unfold toSizeT
  have : x % 2 ^ 64 = x := Int.emod_eq_of_lt h0 (by omega)
  rw [this]
  exact Int.toNat_of_nonneg h0

theorem weak_Expired_iff_UseCount (w : WeakPtr) (h : Heap) :
    w.Expired h = true ↔ w.UseCount h = 0 := by
  unfold WeakPtr.Expired
  split_ifs with hc <;> simp [hc]

theorem weak_UseCount_IncrementWeak (w : WeakPtr) (h : Heap) (a : Nat) :
    w.UseCount (h.IncrementWeak a) = w.UseCount h := by
  unfold WeakPtr.UseCount
  split <;> simp [Heap.Get1, ControlBlockBase.Get1]

theorem weak_UseCount_DecrementWeak (w : WeakPtr) (h : Heap) (a : Nat) :
    w.UseCount (h.DecrementWeak a) = w.UseCount h := by
  unfold WeakPtr.UseCount
  split <;> simp [Heap.Get1, ControlBlockBase.Get1]

theorem weak_Expired_iff (w : WeakPtr) (h : Heap)
    (hint : ∀ b, w.block_ = some b → IsInt (h.Get1 b)) :
    w.Expired h = true ↔ (w.block_ = none ∨ ∃ b, w.block_ = some b ∧ h.Get1 b = 0) := by
  rw [weak_Expired_iff_UseCount]
  unfold WeakPtr.UseCount
  cases hb : w.block_ with
  | none => simp
  | some b =>
    simp only [false_or, Option.some.injEq, exists_eq_left', reduceCtorEq]
    exact toSizeT_eq_zero_iff _ (hint b hb)

theorem weak_Expired_after_Reset (w : WeakPtr) (p : SharedPtr) (h : Heap) (b : Nat)
    (hI : IsInt (h.Get1 b)) (hwb : w.block_ = some b) (hpb : p.block_ = some b)
    (hlt : b < h.length) (hpos : 0 < h.Get1 b) :
    w.Expired h = false ∧ (w.Expired (p.Reset h).2 = true ↔ h.Get1 b = 1) := by
  have hint : ∀ c, w.block_ = some c → IsInt (h.Get1 c) := by
    intro c hc
    rw [hwb] at hc
    injection hc with hc
    subst hc
    exact hI
  constructor
  · cases he : w.Expired h with
    | false => rfl
    | true =>
      rcases (weak_Expired_iff w h hint).mp he with hn | ⟨c, hc, h0⟩
      · rw [hn] at hwb
        cases hwb
      · rw [hwb] at hc
        injection hc with hc
        subst hc
        omega
  · have hcount : (p.Reset h).2.Get1 b = h.Get1 b - 1 := by
      simp [Heap.Get1, ControlBlockBase.Get1, shared_count_Reset, hpb, hlt]
    have hint2 : ∀ c, w.block_ = some c → IsInt ((p.Reset h).2.Get1 c) := by
      intro c hc
      rw [hwb] at hc
      injection hc with hc
      subst hc
      rw [hcount]
      unfold IsInt at hI ⊢
      omega
    rw [weak_Expired_iff w _ hint2]
    constructor
    · rintro (hn | ⟨c, hc, h0⟩)
      · rw [hn] at hwb
        cases hwb
      · rw [hwb] at hc
        injection hc with hc
        subst hc
        omega
    · intro h1
      exact Or.inr ⟨b, hwb, by omega⟩

/-- C6: for a `WeakPtr` whose block (if any) holds an `int` strong count, `Expired()` is true
exactly when there is no block or the strong count is 0; neither `Expired()` nor `UseCount()`
depends on the weak count; `UseCount()` is 0 without a block or with strong count 0 and is the
strong count otherwise; and in a state whose strong counts are the numbers of live `SharedPtr`
objects, when a `SharedPtr` on the `WeakPtr`'s block is reset or destroyed, the `WeakPtr`, not
expired before, is expired afterwards exactly if that `SharedPtr` was the last one. -/
theorem weak_expired_iff_no_strong_owner (s : Sys) (w : WeakPtr)
    (hint : ∀ b, w.block_ = some b → IsInt (s.heap.Get1 b)) :
    (w.Expired s.heap = true ↔
      (w.block_ = none ∨ ∃ b, w.block_ = some b ∧ s.heap.Get1 b = 0)) ∧
    (∀ a, w.Expired (s.heap.IncrementWeak a) = w.Expired s.heap ∧
          w.Expired (s.heap.DecrementWeak a) = w.Expired s.heap ∧
          w.UseCount (s.heap.IncrementWeak a) = w.UseCount s.heap ∧
          w.UseCount (s.heap.DecrementWeak a) = w.UseCount s.heap) ∧
    (w.block_ = none → w.UseCount s.heap = 0) ∧
    (∀ b, w.block_ = some b → s.heap.Get1 b = 0 → w.UseCount s.heap = 0) ∧
    (∀ b, w.block_ = some b → 0 ≤ s.heap.Get1 b →
      (w.UseCount s.heap : Int) = s.heap.Get1 b) ∧
    (s.Counted → ∀ i p b, s.sharedAt i = some p → p.block_ = some b → w.block_ = some b →
      ∀ op, op = Op.sharedReset i ∨ op = Op.sharedDestroy i →
        ∃ t, step s op = Except.ok t ∧ w.Expired s.heap = false ∧
          (w.Expired t.heap = true ↔ s.sharedRefs b = 1)) := by
  refine ⟨weak_Expired_iff w s.heap hint, ?_, ?_, ?_, ?_, ?_⟩
  · intro a
    refine ⟨?_, ?_, weak_UseCount_IncrementWeak w s.heap a,
      weak_UseCount_DecrementWeak w s.heap a⟩
    · simp [WeakPtr.Expired, weak_UseCount_IncrementWeak]
    · simp [WeakPtr.Expired, weak_UseCount_DecrementWeak]
  · intro hb
    simp [WeakPtr.UseCount, hb]
  · intro b hb h0
    simp [WeakPtr.UseCount, hb, h0, toSizeT]
  · intro b hb h0
    simp only [WeakPtr.UseCount, hb]
    exact toSizeT_of_nonneg _ h0 (hint b hb).2
  · intro hs i p b hi hpb hwb op hop
    have hlt := Counted_valid s hs i p b hi hpb
    have hpos := shared_refs_pos s.shared i p b hi hpb
    have hc : s.heap.Get1 b = (s.sharedRefs b : Int) := hs b
    have hkey := weak_Expired_after_Reset w p s.heap b (hint b hwb) hwb hpb hlt
      (by rw [hc]; unfold Sys.sharedRefs; omega)
    have hiff : s.heap.Get1 b = 1 ↔ s.sharedRefs b = 1 := by
      rw [hc]
      omega
    rcases hop with rfl | rfl
    · refine ⟨{ s with heap := (p.Reset s.heap).2,
                       shared := s.shared.set i (some (p.Reset s.heap).1) },
        by simp only [step, hi], hkey.1, ?_⟩
      exact hkey.2.trans hiff
    · refine ⟨{ s with heap := (p.Reset s.heap).2, shared := s.shared.set i none },
        by simp only [step, hi], hkey.1, ?_⟩
      exact hkey.2.trans hiff

/-- Witness for C6: with two owners and one observer `w` of block 0, `w` is not expired and
reports 2; on the block whose owners are gone `w` is expired and reports 0. -/
theorem weak_expired_iff_no_strong_owner_witness :
    (∀ b, (WeakPtr.mk 7 (some 0)).block_ = some b → IsInt (observedSys.heap.Get1 b)) ∧
    (WeakPtr.Expired (WeakPtr.mk 7 (some 0)) observedSys.heap = true ↔
      ((WeakPtr.mk 7 (some 0)).block_ = none ∨
        ∃ b, (WeakPtr.mk 7 (some 0)).block_ = some b ∧ observedSys.heap.Get1 b = 0)) ∧
    WeakPtr.Expired (WeakPtr.mk 7 (some 0)) observedSys.heap = false ∧
    WeakPtr.UseCount (WeakPtr.mk 7 (some 0)) observedSys.heap = 2 ∧
    WeakPtr.Expired (WeakPtr.mk 7 (some 0)) expiredHeap = true ∧
    WeakPtr.UseCount (WeakPtr.mk 7 (some 0)) expiredHeap = 0 :=
  ⟨by intro b hb; cases hb; decide,
   (weak_expired_iff_no_strong_owner observedSys (WeakPtr.mk 7 (some 0))
      (by intro b hb; cases hb; decide)).1,
   rfl, rfl, rfl, rfl⟩

theorem weak_not_Expired (w : WeakPtr) (h : Heap) (hne : w.Expired h = false) :
    ∃ b, w.block_ = some b ∧ h.Get1 b ≠ 0 ∧ b < h.length := by
  cases hb : w.block_ with
  | none => simp [WeakPtr.Expired, WeakPtr.UseCount, hb] at hne
  | some b =>
    have h0 : h.Get1 b ≠ 0 := by
      intro h0
      simp [WeakPtr.Expired, WeakPtr.UseCount, hb, h0, toSizeT] at hne
    exact ⟨b, rfl, h0, count_pos_valid h b h0⟩

theorem ctorWeak_of_not_Expired (w : WeakPtr) (h : Heap) (b : Nat) (hb : w.block_ = some b)
    (hne : w.Expired h = false) :
    SharedPtr.ctorWeak w h = Except.ok ({ ptr_ := w.ptr_, block_ := some b }, h.Increment b) := by
  simp [SharedPtr.ctorWeak, hne, WeakPtr.GetBlock, WeakPtr.Get, hb]

theorem weak_count_Increment (h : Heap) (a b : Nat) :
    ((h.Increment a).block b).weak_count_ = (h.block b).weak_count_ := by
  rw [Heap.Increment, block_modify]
  split_ifs <;> simp [ControlBlockBase.Increment]

/-- C7: `Lock()` on a non-expired `WeakPtr` returns a `SharedPtr` with the same access pointer
and the same block, adds exactly one to that block's strong count and changes no other count
(in particular no weak count); for a strong count that is non-negative and stays an `int`,
`UseCount()` of the result is the former strong count plus one. -/
theorem lock_of_live_weak (w : WeakPtr) (h : Heap) (hne : w.Expired h = false) :
    ∃ b sp h2, w.block_ = some b ∧ b < h.length ∧ w.Lock h = Except.ok (sp, h2) ∧
      sp.Get = w.Get ∧ sp.GetBlock = w.GetBlock ∧
      h2.Get1 b = h.Get1 b + 1 ∧
      (∀ c, c ≠ b → h2.Get1 c = h.Get1 c) ∧
      (∀ c, h2.Get2 c = h.Get2 c) ∧
      (0 ≤ h.Get1 b → h.Get1 b + 1 < 2 ^ 31 →
        (sp.UseCount h2 : Int) = h.Get1 b + 1 ∧ sp.UseCount h2 = w.UseCount h + 1) := by
  obtain ⟨b, hb, h0, hlt⟩ := weak_not_Expired w h hne
  have hget : (h.Increment b).Get1 b = h.Get1 b + 1 := by
    simp [Heap.Get1, ControlBlockBase.Get1, count_Increment, hlt]
  refine ⟨b, { ptr_ := w.ptr_, block_ := some b }, h.Increment b, hb, hlt, ?_, rfl, ?_, hget,
    ?_, ?_, ?_⟩
  · simp [WeakPtr.Lock, hne, ctorWeak_of_not_Expired w h b hb hne]
  · simp [SharedPtr.GetBlock, WeakPtr.GetBlock, hb]
  · intro c hc
    have : ¬ (b = c) := fun e => hc e.symm
    simp [Heap.Get1, ControlBlockBase.Get1, count_Increment, this]
  · intro c
    simp [Heap.Get2, ControlBlockBase.Get2, weak_count_Increment]
  · intro hnn hup
    have h1 : (SharedPtr.UseCount { ptr_ := w.ptr_, block_ := some b } (h.Increment b) : Int)
        = h.Get1 b + 1 := by
      simp only [SharedPtr.UseCount, hget]
      exact toSizeT_of_nonneg _ (by omega) hup
    have h2 : (w.UseCount h : Int) = h.Get1 b := by
      simp only [WeakPtr.UseCount, hb]
      exact toSizeT_of_nonneg _ hnn (by omega)
    refine ⟨h1, ?_⟩
    have : (SharedPtr.UseCount { ptr_ := w.ptr_, block_ := some b } (h.Increment b) : Int)
        = ((w.UseCount h + 1 : Nat) : Int) := by
      rw [h1]
      push_cast
      omega
    exact_mod_cast this

/-- Witness for C7: locking the observer of a block with two owners gives a third owner. -/
theorem lock_of_live_weak_witness :
    WeakPtr.Expired (WeakPtr.mk 7 (some 0)) aliasedHeap = false ∧
    ∃ b sp h2, (WeakPtr.mk 7 (some 0)).block_ = some b ∧ b < aliasedHeap.length ∧
      WeakPtr.Lock (WeakPtr.mk 7 (some 0)) aliasedHeap = Except.ok (sp, h2) ∧
      sp.Get = (WeakPtr.mk 7 (some 0)).Get ∧ sp.GetBlock = (WeakPtr.mk 7 (some 0)).GetBlock ∧
      h2.Get1 b = aliasedHeap.Get1 b + 1 ∧
      (∀ c, c ≠ b → h2.Get1 c = aliasedHeap.Get1 c) ∧
      (∀ c, h2.Get2 c = aliasedHeap.Get2 c) ∧
      (0 ≤ aliasedHeap.Get1 b → aliasedHeap.Get1 b + 1 < 2 ^ 31 →
        (sp.UseCount h2 : Int) = aliasedHeap.Get1 b + 1 ∧
        sp.UseCount h2 = WeakPtr.UseCount (WeakPtr.mk 7 (some 0)) aliasedHeap + 1) :=
  ⟨rfl, lock_of_live_weak (WeakPtr.mk 7 (some 0)) aliasedHeap rfl⟩

/-- C8: `Lock()` on an empty or expired `WeakPtr` raises nothing and returns the empty
`SharedPtr` (`Get()` is null, no block, `UseCount()` is 0) together with the unchanged heap. -/
theorem lock_of_expired_weak (w : WeakPtr) (h : Heap)
    (hex : w.block_ = none ∨ w.Expired h = true) :
    w.Lock h = Except.ok (SharedPtr.ctorDefault, h) ∧
    SharedPtr.ctorDefault.Get = 0 ∧ SharedPtr.ctorDefault.GetBlock = none ∧
    SharedPtr.ctorDefault.UseCount h = 0 := by
  refine ⟨?_, rfl, rfl, rfl⟩
  have hx : w.Expired h = true := by
    rcases hex with hn | hx
    · simp [WeakPtr.Expired, WeakPtr.UseCount, hn]
    · exact hx
  simp [WeakPtr.Lock, hx]

/-- Witness for C8: `p` wraps a raw pointer, `w` observes `p`, `p` is reset; then `w` is
expired and `w.Lock()` is the empty `SharedPtr`, created in slot 1 by the program. -/
theorem lock_of_expired_weak_witness :
    (run Sys.init [Op.sharedRaw 7, Op.weakFromShared 0, Op.sharedReset 0]).map
        (fun t => (t.weakAt 0, t.heap)) = Except.ok (some (WeakPtr.mk 7 (some 0)), expiredHeap) ∧
    WeakPtr.Expired (WeakPtr.mk 7 (some 0)) expiredHeap = true ∧
    (WeakPtr.Lock (WeakPtr.mk 7 (some 0)) expiredHeap
        = Except.ok (SharedPtr.ctorDefault, expiredHeap) ∧
      SharedPtr.ctorDefault.Get = 0 ∧ SharedPtr.ctorDefault.GetBlock = none ∧
      SharedPtr.ctorDefault.UseCount expiredHeap = 0) ∧
    (run Sys.init [Op.sharedRaw 7, Op.weakFromShared 0, Op.sharedReset 0, Op.weakLock 0]).map
        (fun t => (t.sharedAt 1, t.heap)) = Except.ok (some (SharedPtr.mk 0 none), expiredHeap) :=
  ⟨rfl, rfl, lock_of_expired_weak (WeakPtr.mk 7 (some 0)) expiredHeap (Or.inr rfl), rfl⟩

/-- C9: constructing a `SharedPtr` from a `WeakPtr` raises `BadWeakPtr` exactly when the
`WeakPtr` is expired, which for an `int` strong count means no block or strong count 0; the
exception is the whole outcome, so the heap stays as it was. Otherwise the new `SharedPtr` has
the `WeakPtr`'s block and access pointer, that block's strong count grows by exactly one and
every other count is unchanged. -/
theorem shared_from_weak_raises_iff_expired (w : WeakPtr) (h : Heap) :
    (SharedPtr.ctorWeak w h = Except.error Fault.BadWeakPtr ↔ w.Expired h = true) ∧
    ((∀ b, w.block_ = some b → IsInt (h.Get1 b)) →
      (SharedPtr.ctorWeak w h = Except.error Fault.BadWeakPtr ↔
        (w.block_ = none ∨ ∃ b, w.block_ = some b ∧ h.Get1 b = 0))) ∧
    (w.Expired h = false →
      ∃ b, w.block_ = some b ∧ b < h.length ∧
        SharedPtr.ctorWeak w h
          = Except.ok ({ ptr_ := w.ptr_, block_ := some b }, h.Increment b) ∧
        (h.Increment b).Get1 b = h.Get1 b + 1 ∧
        (∀ c, c ≠ b → (h.Increment b).Get1 c = h.Get1 c) ∧
        (∀ c, (h.Increment b).Get2 c = h.Get2 c)) := by
  have key : SharedPtr.ctorWeak w h = Except.error Fault.BadWeakPtr ↔ w.Expired h = true := by
    constructor
    · intro he
      cases hx : w.Expired h with
      | true => rfl
      | false =>
        obtain ⟨b, hb, _, _⟩ := weak_not_Expired w h hx
        rw [ctorWeak_of_not_Expired w h b hb hx] at he
        cases he
    · intro hx
      simp [SharedPtr.ctorWeak, hx]
  refine ⟨key, ?_, ?_⟩
  · intro hint
    rw [key]
    exact weak_Expired_iff w h hint
  · intro hne
    obtain ⟨b, hb, _, hlt⟩ := weak_not_Expired w h hne
    refine ⟨b, hb, hlt, ctorWeak_of_not_Expired w h b hb hne, ?_, ?_, ?_⟩
    · simp [Heap.Get1, ControlBlockBase.Get1, count_Increment, hlt]
    · intro c hc
      have : ¬ (b = c) := fun e => hc e.symm
      simp [Heap.Get1, ControlBlockBase.Get1, count_Increment, this]
    · intro c
      simp [Heap.Get2, ControlBlockBase.Get2, weak_count_Increment]

/-- C10: self copy assignment and self move assignment of a `SharedPtr` object leave the whole
program state as it was: the object's `Get()` and `UseCount()`, every count and every
destruction counter. -/
theorem shared_self_assignment_is_noop (s : Sys) (i : Nat) :
    step s (Op.sharedAssign i i) = Except.ok s ∧
    step s (Op.sharedMoveAssign i i) = Except.ok s ∧
    ∀ op, op = Op.sharedAssign i i ∨ op = Op.sharedMoveAssign i i →
      ∃ t, step s op = Except.ok t ∧
        (t.sharedAt i).map SharedPtr.Get = (s.sharedAt i).map SharedPtr.Get ∧
        (t.sharedAt i).map (fun p => p.UseCount t.heap)
          = (s.sharedAt i).map (fun p => p.UseCount s.heap) ∧
        ∀ b, (t.heap.block b).dtorRuns = (s.heap.block b).dtorRuns ∧
          (t.heap.block b).destroyCalls = (s.heap.block b).destroyCalls := by
  have h1 : step s (Op.sharedAssign i i) = Except.ok s := by simp [step]
  have h2 : step s (Op.sharedMoveAssign i i) = Except.ok s := by simp [step]
  refine ⟨h1, h2, ?_⟩
  rintro op (rfl | rfl)
  · exact ⟨s, h1, rfl, rfl, fun _ => ⟨rfl, rfl⟩⟩
  · exact ⟨s, h2, rfl, rfl, fun _ => ⟨rfl, rfl⟩⟩

/-- Witness for C9: from the expired observer the construction raises `BadWeakPtr`; from the
observer of a block with two owners it yields a third owner. -/
theorem shared_from_weak_raises_iff_expired_witness :
    (SharedPtr.ctorWeak (WeakPtr.mk 7 (some 0)) expiredHeap = Except.error Fault.BadWeakPtr ↔
      WeakPtr.Expired (WeakPtr.mk 7 (some 0)) expiredHeap = true) ∧
    SharedPtr.ctorWeak (WeakPtr.mk 7 (some 0)) expiredHeap = Except.error Fault.BadWeakPtr ∧
    SharedPtr.ctorWeak (WeakPtr.mk 7 (some 0)) aliasedHeap
      = Except.ok (SharedPtr.mk 7 (some 0), aliasedHeap.Increment 0) ∧
    (aliasedHeap.Increment 0).Get1 0 = 3 :=
  ⟨(shared_from_weak_raises_iff_expired (WeakPtr.mk 7 (some 0)) expiredHeap).1, rfl, rfl, rfl⟩

/-! ## What one `Reset()` does to each block -/

theorem weak_count_Decrement (h : Heap) (a b : Nat) :
    ((h.Decrement a).block b).weak_count_ = (h.block b).weak_count_ := by
  rw [Heap.Decrement, block_modify]
  split_ifs <;> simp [ControlBlockBase.Decrement]

theorem Destroy_count (c : ControlBlockBase) : c.Destroy.count_ = c.count_ := by
  unfold ControlBlockBase.Destroy
  split <;> rfl

theorem Destroy_weak_count (c : ControlBlockBase) : c.Destroy.weak_count_ = c.weak_count_ := by
  unfold ControlBlockBase.Destroy
  split <;> rfl

theorem Destroy_freed (c : ControlBlockBase) : c.Destroy.freed = c.freed := by
  unfold ControlBlockBase.Destroy
  split <;> rfl

theorem Destroy_destroyCalls (c : ControlBlockBase) :
    c.Destroy.destroyCalls = c.destroyCalls + 1 := by
  unfold ControlBlockBase.Destroy
  split <;> rfl

theorem Destroy_dtorRuns (c : ControlBlockBase) :
    c.Destroy.dtorRuns
      = c.dtorRuns + (if c.body = BlockBody.PointingConterBlock 0 then 0 else 1) := by
  unfold ControlBlockBase.Destroy
  split
  · next p hp =>
    by_cases h0 : p = 0
    · simp [hp, h0]
    · simp [hp, h0]
  · next a ha => simp [ha]

/-- The block a `SharedPtr` on `x` leaves behind when it lets go: `Decrement()`, at zero
`Destroy()`, and `delete` when the weak count is zero as well. -/
theorem shared_Reset_own_block (p : SharedPtr) (h : Heap) (x : Nat) (hx : p.block_ = some x)
    (hlt : x < h.length) :
    (p.Reset h).2.block x
      = if (h.block x).count_ = 1 then
          (if (h.block x).weak_count_ = 0 then (h.block x).Decrement.Destroy.delete
            else (h.block x).Decrement.Destroy)
        else (h.block x).Decrement := by
  unfold SharedPtr.Reset
  rw [hx]
  have hd : (h.Decrement x).block x = (h.block x).Decrement := by
    simp [Heap.Decrement, block_modify, hlt]
  have hdd : ((h.Decrement x).Destroy x).block x = (h.block x).Decrement.Destroy := by
    simp [Heap.Destroy, block_modify, hlt, hd]
  by_cases h1 : (h.block x).count_ = 1
  · have hz : (h.Decrement x).Get1 x = 0 := by
      simp [Heap.Get1, ControlBlockBase.Get1, hd, ControlBlockBase.Decrement, h1]
    simp only [hz, ↓reduceIte, h1]
    unfold SharedPtr.Realise
    have hsum : ((h.Decrement x).Destroy x).Get1 x + ((h.Decrement x).Destroy x).Get2 x
        = (h.block x).weak_count_ := by
      simp [Heap.Get1, Heap.Get2, ControlBlockBase.Get1, ControlBlockBase.Get2, hdd,
        Destroy_count, Destroy_weak_count, ControlBlockBase.Decrement, h1]
    rw [hsum]
    by_cases hw : (h.block x).weak_count_ = 0
    · simp [hw, Heap.delete, block_modify, hlt, hdd]
    · simp [hw, hdd]
  · have hz : ¬ (h.Decrement x).Get1 x = 0 := by
      simp only [Heap.Get1, ControlBlockBase.Get1, hd, ControlBlockBase.Decrement]
      omega
    simp [hz, h1, hd]

theorem shared_Reset_other_block (p : SharedPtr) (h : Heap) (c : Nat)
    (hc : p.block_ ≠ some c) : (p.Reset h).2.block c = h.block c := by
  unfold SharedPtr.Reset
  split
  · next x hx =>
    have hne : ¬ (x = c) := by
      rintro rfl
      exact hc hx
    dsimp only
    split_ifs
    · unfold SharedPtr.Realise
      split_ifs <;>
        simp [Heap.delete, Heap.Destroy, Heap.Decrement, block_modify, hne]
    · simp [Heap.Decrement, block_modify, hne]
  · rfl

theorem shared_Reset_handle (p : SharedPtr) (h : Heap) :
    (p.Reset h).1 = if p.block_ = none then p else { ptr_ := 0, block_ := none } := by
  unfold SharedPtr.Reset
  split
  · next x hx => simp [hx]
  · next hx => simp [hx]

theorem shared_Reset_own_fields (p : SharedPtr) (h : Heap) (x : Nat) (hx : p.block_ = some x)
    (hlt : x < h.length) :
    ((p.Reset h).2.block x).count_ = (h.block x).count_ - 1 ∧
    ((p.Reset h).2.block x).weak_count_ = (h.block x).weak_count_ ∧
    ((p.Reset h).2.block x).destroyCalls
      = (h.block x).destroyCalls + (if (h.block x).count_ = 1 then 1 else 0) ∧
    ((p.Reset h).2.block x).dtorRuns
      = (h.block x).dtorRuns
        + (if (h.block x).count_ = 1 ∧ (h.block x).body ≠ BlockBody.PointingConterBlock 0
            then 1 else 0) ∧
    ((p.Reset h).2.block x).freed
      = (h.block x).freed
        + (if (h.block x).count_ = 1 ∧ (h.block x).weak_count_ = 0 then 1 else 0) := by
  rw [shared_Reset_own_block p h x hx hlt]
  by_cases h1 : (h.block x).count_ = 1
  · by_cases hw : (h.block x).weak_count_ = 0
    · by_cases hb : (h.block x).body = BlockBody.PointingConterBlock 0
      · simp [h1, hw, hb, ControlBlockBase.delete, Destroy_count, Destroy_weak_count,
          Destroy_destroyCalls, Destroy_dtorRuns, Destroy_freed, ControlBlockBase.Decrement]
      · simp [h1, hw, hb, ControlBlockBase.delete, Destroy_count, Destroy_weak_count,
          Destroy_destroyCalls, Destroy_dtorRuns, Destroy_freed, ControlBlockBase.Decrement]
    · by_cases hb : (h.block x).body = BlockBody.PointingConterBlock 0
      · simp [h1, hw, hb, Destroy_count, Destroy_weak_count,
          Destroy_destroyCalls, Destroy_dtorRuns, Destroy_freed, ControlBlockBase.Decrement]
      · simp [h1, hw, hb, Destroy_count, Destroy_weak_count,
          Destroy_destroyCalls, Destroy_dtorRuns, Destroy_freed, ControlBlockBase.Decrement]
  · simp [h1, ControlBlockBase.Decrement]

theorem Increment_Decrement (c : ControlBlockBase) : c.Decrement.Increment = c := by
  cases c
  simp [ControlBlockBase.Decrement, ControlBlockBase.Increment]

theorem Decrement_Increment (c : ControlBlockBase) : c.Increment.Decrement = c := by
  cases c
  simp [ControlBlockBase.Decrement, ControlBlockBase.Increment]

theorem block_Increment (h : Heap) (a b : Nat) :
    (h.Increment a).block b
      = if a = b ∧ b < h.length then (h.block b).Increment else h.block b := by
  rw [Heap.Increment, block_modify]

theorem shared_refs_two (l : List (Option SharedPtr)) (i j : Nat) (hij : i ≠ j)
    (a o : SharedPtr) (x : Nat) (hi : l.getD i none = some a) (hj : l.getD j none = some o)
    (ha : a.block_ = some x) (ho : o.block_ = some x) :
    2 ≤ l.countP (SharedPtr.refers x) := by
  have h1 := shared_refs_set l i a none x hi
  have hj2 : (l.set i none).getD j none = some o := by
    rw [getD_set_none]
    simp only [hij, false_and, ↓reduceIte]
    exact hj
  have h2 := shared_refs_pos (l.set i none) j o x hj2 ho
  have h3 : SharedPtr.refers x none = false := rfl
  rw [h3] at h1
  simp only [ha, ↓reduceIte, Bool.false_eq_true] at h1
  omega

theorem SharedPtr_eta (p : SharedPtr) :
    ({ ptr_ := p.ptr_, block_ := p.block_ } : SharedPtr) = p := by
  cases p
  rfl

theorem sharedAt_set (s : Sys) (i k : Nat) (x : Option SharedPtr) (h : Heap)
    (hi : i < s.shared.length) :
    Sys.sharedAt { s with heap := h, shared := s.shared.set i x } k
      = if i = k then x else s.sharedAt k := by
  simp only [Sys.sharedAt, getD_set_none]
  by_cases hik : i = k
  · subst hik
    simp [hi]
  · simp [hik]

theorem sharedAt_lt (s : Sys) (i : Nat) (a : SharedPtr) (hi : s.sharedAt i = some a) :
    i < s.shared.length :=
  (getD_none_eq_some s.shared i a hi).1

theorem assignCopy_handle (a o : SharedPtr) (h : Heap) : (SharedPtr.assignCopy a o h).1 = o := by
  unfold SharedPtr.assignCopy
  cases hb : o.block_ with
  | none =>
    cases o
    simp_all
  | some b =>
    cases o
    simp_all

theorem assignCopy_heap (a o : SharedPtr) (h : Heap) :
    (SharedPtr.assignCopy a o h).2
      = match o.block_ with
        | some y => (a.Reset h).2.Increment y
        | none => (a.Reset h).2 := by
  unfold SharedPtr.assignCopy
  cases o.block_ <;> rfl

/-- Copy assignment between two handle objects of the program state (neither is a member of a
payload): in a state whose strong counts are the numbers of live `SharedPtr` objects, copy
assignment `a = b` between two distinct objects completes and leaves `a` holding `b`'s access
pointer and block, `b` untouched and the counts accurate. A block that only `a` referenced
loses one strong reference, `Destroy()` runs on it exactly if that was the last one, and it is
freed exactly if in addition its weak count is 0; a block that only `b` referenced gains one
strong reference and nothing else; a block both referenced, and every other block, is exactly
as before. In particular an empty `b` leaves `a` empty. -/
theorem shared_copy_assign_releases_then_shares (s : Sys) (hs : s.Counted) (i j : Nat)
    (hij : i ≠ j) (a o : SharedPtr) (ha : s.sharedAt i = some a) (ho : s.sharedAt j = some o) :
    ∃ t, step s (Op.sharedAssign i j) = Except.ok t ∧
      t.sharedAt i = some o ∧ t.sharedAt j = some o ∧ t.Counted ∧
      (∀ x, a.block_ = some x → o.block_ ≠ some x →
        (t.heap.block x).count_ = (s.heap.block x).count_ - 1 ∧
        (t.heap.block x).weak_count_ = (s.heap.block x).weak_count_ ∧
        (t.heap.block x).destroyCalls
          = (s.heap.block x).destroyCalls + (if (s.heap.block x).count_ = 1 then 1 else 0) ∧
        (t.heap.block x).dtorRuns
          = (s.heap.block x).dtorRuns
            + (if (s.heap.block x).count_ = 1
                  ∧ (s.heap.block x).body ≠ BlockBody.PointingConterBlock 0 then 1 else 0) ∧
        (t.heap.block x).freed
          = (s.heap.block x).freed
            + (if (s.heap.block x).count_ = 1 ∧ (s.heap.block x).weak_count_ = 0
                then 1 else 0)) ∧
      (∀ y, o.block_ = some y → a.block_ ≠ some y →
        t.heap.block y = (s.heap.block y).Increment) ∧
      (∀ x, a.block_ = some x → o.block_ = some x → t.heap.block x = s.heap.block x) ∧
      (∀ c, a.block_ ≠ some c → o.block_ ≠ some c → t.heap.block c = s.heap.block c) ∧
      (o = SharedPtr.ctorDefault → t.sharedAt i = some SharedPtr.ctorDefault) := by
  have hi := sharedAt_lt s i a ha
  have hstep : step s (Op.sharedAssign i j) = Except.ok
      { s with heap := (SharedPtr.assignCopy a o s.heap).2,
               shared := s.shared.set i (some (SharedPtr.assignCopy a o s.heap).1) } := by
    simp only [step, hij, ↓reduceIte, ha, ho]
  have hati : Sys.sharedAt
      { s with heap := (SharedPtr.assignCopy a o s.heap).2,
               shared := s.shared.set i (some (SharedPtr.assignCopy a o s.heap).1) } i
      = some o := by
    rw [sharedAt_set s i i _ _ hi, assignCopy_handle]
    simp
  refine ⟨_, hstep, hati, ?_, step_Counted s _ _ hs hstep, ?_, ?_, ?_, ?_, ?_⟩
  · rw [sharedAt_set s i j _ _ hi]
    simp only [hij, ↓reduceIte]
    exact ho
  · intro x hax hox
    have hx := Counted_valid s hs i a x ha hax
    have hb : (SharedPtr.assignCopy a o s.heap).2.block x = (a.Reset s.heap).2.block x := by
      rw [assignCopy_heap]
      cases hy : o.block_ with
      | none => rfl
      | some y =>
        have hne : ¬ y = x := by
          rintro rfl
          exact hox hy
        simp [block_Increment, hne]
    simp only [hb]
    exact shared_Reset_own_fields a s.heap x hax hx
  · intro y hoy hay
    have hy := Counted_valid s hs j o y ho hoy
    simp only [assignCopy_heap, hoy, block_Increment, shared_length_Reset, hy, and_self,
      ↓reduceIte]
    rw [shared_Reset_other_block a s.heap y hay]
  · intro x hax hox
    have hx := Counted_valid s hs i a x ha hax
    have h2 := shared_refs_two s.shared i j hij a o x ha ho hax hox
    have hc : (s.heap.block x).count_ = (s.sharedRefs x : Int) := hs x
    have hne1 : ¬ (s.heap.block x).count_ = 1 := by
      rw [hc]
      unfold Sys.sharedRefs
      omega
    simp only [assignCopy_heap, hox, block_Increment, shared_length_Reset, hx, and_self,
      ↓reduceIte]
    rw [shared_Reset_own_block a s.heap x hax hx]
    simp only [hne1, ↓reduceIte]
    exact Increment_Decrement _
  · intro c hac hoc
    have hb : (SharedPtr.assignCopy a o s.heap).2.block c = (a.Reset s.heap).2.block c := by
      rw [assignCopy_heap]
      cases hy : o.block_ with
      | none => rfl
      | some y =>
        have hne : ¬ y = c := by
          rintro rfl
          exact hoc hy
        simp [block_Increment, hne]
    simp only [hb]
    exact shared_Reset_other_block a s.heap c hac
  · intro he
    rw [hati, he]

theorem twoOwners_Counted : twoOwners.Counted :=
  run_Counted [Op.sharedRaw 7, Op.sharedRaw 8] Sys.init twoOwners Counted_init rfl

/-- The statement above at `twoOwners`: `a` owns 7, `b` owns 8; after `a = b` both hold 8 on
block 1, whose strong count is 2, and block 0 has been destroyed and freed. -/
theorem shared_copy_assign_releases_then_shares_witness :
    twoOwners.Counted ∧ twoOwners.sharedAt 0 = some (SharedPtr.mk 7 (some 0)) ∧
    twoOwners.sharedAt 1 = some (SharedPtr.mk 8 (some 1)) ∧
    (∃ t, step twoOwners (Op.sharedAssign 0 1) = Except.ok t ∧
      t.sharedAt 0 = some (SharedPtr.mk 8 (some 1)) ∧
      t.sharedAt 1 = some (SharedPtr.mk 8 (some 1)) ∧ t.Counted) ∧
    (step twoOwners (Op.sharedAssign 0 1)).map
        (fun t => ((t.heap.block 0).count_, (t.heap.block 0).dtorRuns, (t.heap.block 0).freed,
          (t.heap.block 1).count_, (t.heap.block 1).dtorRuns, (t.heap.block 1).freed))
      = Except.ok (0, 1, 1, 2, 0, 0) := by
  refine ⟨twoOwners_Counted, rfl, rfl, ?_, rfl⟩
  obtain ⟨t, h1, h2, h3, h4, _⟩ :=
    shared_copy_assign_releases_then_shares twoOwners twoOwners_Counted 0 1 (by decide)
      (SharedPtr.mk 7 (some 0)) (SharedPtr.mk 8 (some 1)) rfl rfl
  exact ⟨t, h1, h2, h3, h4⟩

theorem sharedAt_append (s : Sys) (k : Nat) (x : Option SharedPtr) (h : Heap) :
    Sys.sharedAt { s with heap := h, shared := s.shared ++ [x] } k
      = if k < s.shared.length then s.sharedAt k
        else if k = s.shared.length then x else none := by
  simp only [Sys.sharedAt, getD_append_none]

/-- C15: in a state whose strong counts are the numbers of live `SharedPtr` objects, the
aliasing constructor applied to an owner with block `b` and any pointer `q` creates a handle
with `Get() = q` on block `b` and adds one to the strong count of `b`. Destroying the owner
next leaves block `b` exactly as it was before the alias was made (no `Destroy()`, no
destructor run, not freed) and the alias in place. Destroying the alias after that calls
`Destroy()` exactly if the owner had been the only `SharedPtr` on `b`, in which case the strong
count ends at 0 and the payload's destructor has run. -/
theorem alias_keeps_owner_payload_alive (s : Sys) (hs : s.Counted) (j : Nat) (o : SharedPtr)
    (b q : Nat) (ho : s.sharedAt j = some o) (hb : o.block_ = some b) :
    ∃ s1 s2 s3, step s (Op.sharedAlias j q) = Except.ok s1 ∧
      s1.sharedAt s.shared.length = some (SharedPtr.mk q (some b)) ∧
      s1.sharedAt j = some o ∧
      s1.heap.block b = (s.heap.block b).Increment ∧
      (∀ c, c ≠ b → s1.heap.block c = s.heap.block c) ∧
      step s1 (Op.sharedDestroy j) = Except.ok s2 ∧
      s2.sharedAt j = none ∧
      s2.sharedAt s.shared.length = some (SharedPtr.mk q (some b)) ∧
      s2.heap.block b = s.heap.block b ∧
      0 < (s2.heap.block b).count_ ∧
      step s2 (Op.sharedDestroy s.shared.length) = Except.ok s3 ∧
      (s3.heap.block b).count_ = (s.heap.block b).count_ - 1 ∧
      (s3.heap.block b).destroyCalls
        = (s.heap.block b).destroyCalls + (if s.sharedRefs b = 1 then 1 else 0) ∧
      (s3.heap.block b).dtorRuns
        = (s.heap.block b).dtorRuns
          + (if s.sharedRefs b = 1 ∧ (s.heap.block b).body ≠ BlockBody.PointingConterBlock 0
              then 1 else 0) := by
  have hj := sharedAt_lt s j o ho
  have hv := Counted_valid s hs j o b ho hb
  have hpos := shared_refs_pos s.shared j o b ho hb
  have hc : (s.heap.block b).count_ = (s.sharedRefs b : Int) := hs b
  have hjne : ¬ j = s.shared.length := by omega
  -- the alias is made
  have e1 : step s (Op.sharedAlias j q) = Except.ok
      { s with heap := s.heap.Increment b,
               shared := s.shared ++ [some (SharedPtr.mk q (some b))] } := by
    simp [step, ho, SharedPtr.ctorAlias, SharedPtr.GetBlock, hb]
  have a1 : Sys.sharedAt { s with heap := s.heap.Increment b,
                                  shared := s.shared ++ [some (SharedPtr.mk q (some b))] }
      s.shared.length = some (SharedPtr.mk q (some b)) := by
    rw [sharedAt_append]
    simp
  have a1j : Sys.sharedAt { s with heap := s.heap.Increment b,
                                   shared := s.shared ++ [some (SharedPtr.mk q (some b))] }
      j = some o := by
    rw [sharedAt_append]
    simp [hj, ho]
  have b1 : (s.heap.Increment b).block b = (s.heap.block b).Increment := by
    simp [block_Increment, hv]
  -- the owner is destroyed
  have b2 : (o.Reset (s.heap.Increment b)).2.block b = s.heap.block b := by
    rw [shared_Reset_own_block o _ b hb (by simpa using hv), b1]
    have hne1 : ¬ (s.heap.block b).Increment.count_ = 1 := by
      simp only [ControlBlockBase.Increment, hc]
      unfold Sys.sharedRefs
      omega
    simp only [hne1, ↓reduceIte]
    exact Decrement_Increment _
  refine ⟨_, { heap := (o.Reset (s.heap.Increment b)).2,
               shared := (s.shared ++ [some (SharedPtr.mk q (some b))]).set j none,
               weak := s.weak },
    { heap := (SharedPtr.Reset (SharedPtr.mk q (some b))
                (o.Reset (s.heap.Increment b)).2).2,
      shared := ((s.shared ++ [some (SharedPtr.mk q (some b))]).set j none).set
        s.shared.length none,
      weak := s.weak },
    e1, a1, a1j, b1, ?_, ?_, ?_, ?_, b2, ?_, ?_, ?_⟩
  · intro c hcb
    have : ¬ b = c := fun e => hcb e.symm
    simp [block_Increment, this]
  · simp only [step, a1j]
  · simp only [Sys.sharedAt, getD_set_none, List.length_append, List.length_singleton]
    have : j < s.shared.length + 1 := by omega
    simp [this]
  · simp only [Sys.sharedAt, getD_set_none, getD_append_none]
    simp [hjne]
  · rw [b2, hc]
    unfold Sys.sharedRefs
    omega
  · have a2 : Sys.sharedAt
        { heap := (o.Reset (s.heap.Increment b)).2,
          shared := (s.shared ++ [some (SharedPtr.mk q (some b))]).set j none,
          weak := s.weak } s.shared.length = some (SharedPtr.mk q (some b)) := by
      simp only [Sys.sharedAt, getD_set_none, getD_append_none]
      simp [hjne]
    simp only [step, a2]
  · have hf := shared_Reset_own_fields (SharedPtr.mk q (some b))
      (o.Reset (s.heap.Increment b)).2 b rfl (by simpa using hv)
    rw [b2] at hf
    have hiff : (s.heap.block b).count_ = 1 ↔ s.sharedRefs b = 1 := by
      rw [hc]
      omega
    simp only [hiff] at hf
    exact ⟨hf.1, hf.2.2.1, hf.2.2.2.1⟩

theorem oneOwner_Counted : oneOwner.Counted :=
  run_Counted [Op.sharedRaw 7] Sys.init oneOwner Counted_init rfl

/-- Witness for C15: `sub` aliases the only owner of block 0 with pointer 9; after the owner
is destroyed the payload is still alive and `sub` is the one strong reference; destroying
`sub` destroys the payload and frees the block. -/
theorem alias_keeps_owner_payload_alive_witness :
    oneOwner.Counted ∧ oneOwner.sharedAt 0 = some (SharedPtr.mk 7 (some 0)) ∧
    (∃ s1, step oneOwner (Op.sharedAlias 0 9) = Except.ok s1 ∧
      s1.sharedAt 1 = some (SharedPtr.mk 9 (some 0)) ∧
      s1.heap.block 0 = (oneOwner.heap.block 0).Increment) ∧
    (run oneOwner [Op.sharedAlias 0 9, Op.sharedDestroy 0]).map
        (fun t => (t.sharedAt 1, (t.heap.block 0).count_, (t.heap.block 0).dtorRuns,
          (t.heap.block 0).freed))
      = Except.ok (some (SharedPtr.mk 9 (some 0)), 1, 0, 0) ∧
    (run oneOwner [Op.sharedAlias 0 9, Op.sharedDestroy 0, Op.sharedDestroy 1]).map
        (fun t => ((t.heap.block 0).count_, (t.heap.block 0).dtorRuns, (t.heap.block 0).freed))
      = Except.ok (0, 1, 1) := by
  refine ⟨oneOwner_Counted, rfl, ?_, rfl, rfl⟩
  obtain ⟨s1, _, _, h1, h2, _, h3, _⟩ :=
    alias_keeps_owner_payload_alive oneOwner oneOwner_Counted 0 (SharedPtr.mk 7 (some 0)) 0 9
      rfl rfl
  exact ⟨s1, h1, h2, h3⟩

theorem SharedPtr_UseCount_new (h : Heap) (body : BlockBody) (ptr : Nat) :
    SharedPtr.UseCount { ptr_ := ptr, block_ := some h.length }
      ((h.new body).2.Increment (h.new body).1) = 1 := by
  simp only [SharedPtr.UseCount, Heap.Get1, ControlBlockBase.Get1, block_new_Increment,
    ↓reduceIte]
  rfl

theorem length_new_Increment (h : Heap) (body : BlockBody) :
    ((h.new body).2.Increment (h.new body).1).length = h.length + 1 := by
  simp [Heap.new]

theorem block_new_Increment_old (h : Heap) (body : BlockBody) (c : Nat) (hc : c < h.length) :
    ((h.new body).2.Increment (h.new body).1).block c = h.block c := by
  rw [block_new_Increment]
  have : ¬ c = h.length := by omega
  simp [this]

/-- C17: `p.Reset(q)` with a non-null `q` leaves `p` with `Get() = q` and `UseCount() = 1` on
a block that did not exist before: a pointing block for `q` with strong count 1, weak count 0,
never destroyed, never freed. Every earlier block is as `p.Reset()` leaves it: the block `p`
held loses one strong reference, `Destroy()` runs on it exactly if `p` was its only owner
(otherwise the payload stays alive), it is freed exactly if in addition its weak count is 0,
and the other blocks are untouched. `p.Reset(nullptr)` leaves `p` empty, with the heap as
`p.Reset()` leaves it. -/
theorem reset_to_raw_pointer (p : SharedPtr) (q : Nat) (h : Heap) :
    (q ≠ 0 →
      (p.ResetPtr q h).1 = { ptr_ := q, block_ := some h.length } ∧
      (p.ResetPtr q h).1.Get = q ∧
      (p.ResetPtr q h).1.UseCount (p.ResetPtr q h).2 = 1 ∧
      (p.ResetPtr q h).2.length = h.length + 1 ∧
      (p.ResetPtr q h).2.block h.length
        = { count_ := 1, weak_count_ := 0, body := BlockBody.PointingConterBlock q,
            destroyCalls := 0, dtorRuns := 0, freed := 0 } ∧
      (∀ c, c < h.length → (p.ResetPtr q h).2.block c = (p.Reset h).2.block c)) ∧
    (p.ResetPtr 0 h = ({ ptr_ := 0, block_ := none }, (p.Reset h).2)) ∧
    (∀ x, p.block_ = some x → x < h.length →
      ((p.Reset h).2.block x).count_ = (h.block x).count_ - 1 ∧
      ((p.Reset h).2.block x).weak_count_ = (h.block x).weak_count_ ∧
      ((p.Reset h).2.block x).destroyCalls
        = (h.block x).destroyCalls + (if (h.block x).count_ = 1 then 1 else 0) ∧
      ((p.Reset h).2.block x).dtorRuns
        = (h.block x).dtorRuns
          + (if (h.block x).count_ = 1 ∧ (h.block x).body ≠ BlockBody.PointingConterBlock 0
              then 1 else 0) ∧
      ((p.Reset h).2.block x).freed
        = (h.block x).freed
          + (if (h.block x).count_ = 1 ∧ (h.block x).weak_count_ = 0 then 1 else 0)) ∧
    (∀ c, p.block_ ≠ some c → (p.Reset h).2.block c = h.block c) := by
  refine ⟨?_, ?_, fun x hx hlt => shared_Reset_own_fields p h x hx hlt,
    fun c hc => shared_Reset_other_block p h c hc⟩
  · intro hq
    have hr : p.ResetPtr q h
        = ({ ptr_ := q, block_ := some h.length },
            (((p.Reset h).2).new (BlockBody.PointingConterBlock q)).2.Increment
              (((p.Reset h).2).new (BlockBody.PointingConterBlock q)).1) := by
      simp [SharedPtr.ResetPtr, hq, Heap.new]
    rw [hr]
    refine ⟨rfl, rfl, ?_, ?_, ?_, ?_⟩
    · have := SharedPtr_UseCount_new (p.Reset h).2 (BlockBody.PointingConterBlock q) q
      simpa using this
    · simp [Heap.new]
    · have := block_new_Increment (p.Reset h).2 (BlockBody.PointingConterBlock q) h.length
      simp only [shared_length_Reset, ↓reduceIte] at this
      rw [this]
      rfl
    · intro c hc
      exact block_new_Increment_old (p.Reset h).2 _ c (by simpa using hc)
  · simp [SharedPtr.ResetPtr]

theorem getD_none_getElem? {α : Type} (l : List (Option α)) (i : Nat) (a : α)
    (h : l.getD i none = some a) : l[i]? = some (some a) := by
  obtain ⟨hi, hget⟩ := getD_none_eq_some l i a h
  rw [List.getElem?_eq_getElem hi]
  simpa using hget

theorem swap_swap_list {α : Type} (l : List (Option α)) (i j : Nat) (a o : α)
    (hi : l.getD i none = some a) (hj : l.getD j none = some o) :
    (((l.set i (some o)).set j (some a)).set i (some a)).set j (some o) = l := by
  have hilt := (getD_none_eq_some l i a hi).1
  have hjlt := (getD_none_eq_some l j o hj).1
  have ei := getD_none_getElem? l i a hi
  have ej := getD_none_getElem? l j o hj
  apply List.ext_getElem?
  intro n
  simp only [List.getElem?_set, List.length_set]
  by_cases hjn : j = n
  · subst hjn
    simp [hjlt, ej]
  · by_cases hin : i = n
    · subst hin
      simp [hjn, hilt, ei]
    · simp [hjn, hin]

theorem Swap_eq (a o : SharedPtr) : a.Swap o = (o, a) := by
  cases a
  cases o
  rfl

/-- C18: `p1.Swap(p2)` on two live `SharedPtr` objects completes, leaves the heap (every
strong count, weak count and destruction counter) and every other object untouched, and
leaves each of the two objects holding what the other held, so each reports the `Get()` and
`UseCount()` the other reported before; swapping again gives back the original state. -/
theorem swap_exchanges_handles (s : Sys) (i j : Nat) (a o : SharedPtr)
    (ha : s.sharedAt i = some a) (ho : s.sharedAt j = some o) :
    a.Swap o = (o, a) ∧
    ∃ t, step s (Op.sharedSwap i j) = Except.ok t ∧
      t.heap = s.heap ∧ t.weak = s.weak ∧
      t.sharedAt i = some o ∧ t.sharedAt j = some a ∧
      (∀ k, k ≠ i → k ≠ j → t.sharedAt k = s.sharedAt k) ∧
      (t.sharedAt i).map (fun p => (p.Get, p.UseCount t.heap))
        = (s.sharedAt j).map (fun p => (p.Get, p.UseCount s.heap)) ∧
      (t.sharedAt j).map (fun p => (p.Get, p.UseCount t.heap))
        = (s.sharedAt i).map (fun p => (p.Get, p.UseCount s.heap)) ∧
      step t (Op.sharedSwap i j) = Except.ok s := by
  have hilt := sharedAt_lt s i a ha
  have hjlt := sharedAt_lt s j o ho
  have hstep : step s (Op.sharedSwap i j) = Except.ok
      { s with shared := (s.shared.set i (some o)).set j (some a) } := by
    simp only [step, ha, ho, Swap_eq]
  have hti : Sys.sharedAt { s with shared := (s.shared.set i (some o)).set j (some a) } i
      = some o := by
    simp only [Sys.sharedAt, getD_set_none, List.length_set]
    by_cases hij : j = i
    · subst hij
      rw [same_slot_eq s j a o ha ho]
      simp [hjlt]
    · simp [hij, hilt]
  have htj : Sys.sharedAt { s with shared := (s.shared.set i (some o)).set j (some a) } j
      = some a := by
    simp [Sys.sharedAt, getD_set_none, List.length_set, hjlt]
  refine ⟨Swap_eq a o, _, hstep, rfl, rfl, hti, htj, ?_, ?_, ?_, ?_⟩
  · intro k hki hkj
    have h1 : ¬ j = k := fun e => hkj e.symm
    have h2 : ¬ i = k := fun e => hki e.symm
    simp [Sys.sharedAt, getD_set_none, h1, h2]
  · rw [hti, ho]
  · rw [htj, ha]
  · simp only [step, hti, htj, Swap_eq]
    have hl := swap_swap_list s.shared i j a o ha ho
    simp only [hl]

/-- Witness for C18: the owners of 7 and 8 swap; each then holds the other's pointer and
block with `UseCount()` 1, and the heap is untouched. -/
theorem swap_exchanges_handles_witness :
    twoOwners.sharedAt 0 = some (SharedPtr.mk 7 (some 0)) ∧
    twoOwners.sharedAt 1 = some (SharedPtr.mk 8 (some 1)) ∧
    (∃ t, step twoOwners (Op.sharedSwap 0 1) = Except.ok t ∧ t.heap = twoOwners.heap ∧
      t.sharedAt 0 = some (SharedPtr.mk 8 (some 1)) ∧
      t.sharedAt 1 = some (SharedPtr.mk 7 (some 0)) ∧
      step t (Op.sharedSwap 0 1) = Except.ok twoOwners) ∧
    (step twoOwners (Op.sharedSwap 0 1)).map
        (fun t => ((t.sharedAt 0).map (fun p => (p.Get, p.UseCount t.heap)),
          (t.sharedAt 1).map (fun p => (p.Get, p.UseCount t.heap))))
      = Except.ok (some (8, 1), some (7, 1)) := by
  refine ⟨rfl, rfl, ?_, rfl⟩
  obtain ⟨_, t, h1, h2, _, h3, h4, _, _, _, h5⟩ :=
    swap_exchanges_handles twoOwners 0 1 (SharedPtr.mk 7 (some 0)) (SharedPtr.mk 8 (some 1))
      rfl rfl
  exact ⟨t, h1, h2, h3, h4, h5⟩

/-- C19: `SharedPtr(q)` for a non-null `q` adds exactly one block to the heap, at a block
pointer no earlier block has; it is a pointing block for `q` with strong count 1 and weak
count 0, the earlier blocks are untouched, and the new handle has `Get() = q` and
`UseCount() = 1`. Doing it twice for the same `q` gives two handles on different blocks, each
with `UseCount() = 1`. `SharedPtr()`, `SharedPtr(nullptr)` and `SharedPtr(q)` for a null `q`
leave the heap as it is and give `Get() = nullptr`, no block and `UseCount() = 0`. -/
theorem raw_pointer_construction_makes_fresh_block (q : Nat) (h : Heap) :
    (q ≠ 0 →
      (SharedPtr.ctorRaw q h).1 = { ptr_ := q, block_ := some h.length } ∧
      (SharedPtr.ctorRaw q h).1.Get = q ∧
      (SharedPtr.ctorRaw q h).1.UseCount (SharedPtr.ctorRaw q h).2 = 1 ∧
      (SharedPtr.ctorRaw q h).2.length = h.length + 1 ∧
      (SharedPtr.ctorRaw q h).2.block h.length
        = { count_ := 1, weak_count_ := 0, body := BlockBody.PointingConterBlock q,
            destroyCalls := 0, dtorRuns := 0, freed := 0 } ∧
      (∀ c, c < h.length →
        (SharedPtr.ctorRaw q h).1.block_ ≠ some c ∧
        (SharedPtr.ctorRaw q h).2.block c = h.block c) ∧
      (SharedPtr.ctorRaw q (SharedPtr.ctorRaw q h).2).1.block_
        ≠ (SharedPtr.ctorRaw q h).1.block_ ∧
      (SharedPtr.ctorRaw q h).1.UseCount (SharedPtr.ctorRaw q (SharedPtr.ctorRaw q h).2).2
        = 1 ∧
      (SharedPtr.ctorRaw q (SharedPtr.ctorRaw q h).2).1.UseCount
        (SharedPtr.ctorRaw q (SharedPtr.ctorRaw q h).2).2 = 1) ∧
    SharedPtr.ctorRaw 0 h = ({ ptr_ := 0, block_ := none }, h) ∧
    SharedPtr.ctorDefault = { ptr_ := 0, block_ := none } ∧
    SharedPtr.ctorDefault.Get = 0 ∧ SharedPtr.ctorDefault.GetBlock = none ∧
    SharedPtr.ctorDefault.UseCount h = 0 := by
  refine ⟨?_, by simp [SharedPtr.ctorRaw], rfl, rfl, rfl, rfl⟩
  intro hq
  have hr : ∀ g : Heap, SharedPtr.ctorRaw q g
      = ({ ptr_ := q, block_ := some g.length },
          (g.new (BlockBody.PointingConterBlock q)).2.Increment
            (g.new (BlockBody.PointingConterBlock q)).1) := by
    intro g
    simp [SharedPtr.ctorRaw, hq, Heap.new]
  have hlen : ((h.new (BlockBody.PointingConterBlock q)).2.Increment
      (h.new (BlockBody.PointingConterBlock q)).1).length = h.length + 1 :=
    length_new_Increment h _
  rw [hr (SharedPtr.ctorRaw q h).2, hr h]
  refine ⟨rfl, rfl, SharedPtr_UseCount_new h _ q, hlen, ?_, ?_, ?_, ?_, ?_⟩
  · rw [block_new_Increment]
    simp only [↓reduceIte]
    rfl
  · intro c hc
    refine ⟨?_, block_new_Increment_old h _ c hc⟩
    simp only [ne_eq, Option.some.injEq]
    omega
  · simp only [hlen, ne_eq, Option.some.injEq]
    omega
  · simp only [SharedPtr.UseCount, Heap.Get1, ControlBlockBase.Get1]
    rw [block_new_Increment_old _ _ h.length (by rw [hlen]; omega), block_new_Increment]
    simp only [↓reduceIte]
    rfl
  · have := SharedPtr_UseCount_new
      ((h.new (BlockBody.PointingConterBlock q)).2.Increment
        (h.new (BlockBody.PointingConterBlock q)).1) (BlockBody.PointingConterBlock q) q
    exact this

/-- C20: `MakeShared<T>(args...)` adds exactly one block to the heap and leaves the earlier
blocks untouched; the new block is an `EmplaceConterBlock` whose `buffer_` holds the object
built from `args`, with strong count 1 and weak count 0; the returned `SharedPtr` is on that
block, its `Get()` is the non-null address of that `buffer_`, and its `UseCount()` is 1.
Resetting it runs the object's destructor in place while the block is not yet freed, and then
frees the block. -/
theorem make_shared_emplaces_one_block (args : List Nat) (h : Heap) :
    (MakeShared args h).2.length = h.length + 1 ∧
    (∀ c, c < h.length → (MakeShared args h).2.block c = h.block c) ∧
    (MakeShared args h).2.block h.length
      = { count_ := 1, weak_count_ := 0, body := BlockBody.EmplaceConterBlock args,
          destroyCalls := 0, dtorRuns := 0, freed := 0 } ∧
    (MakeShared args h).1.GetBlock = some h.length ∧
    (MakeShared args h).1.Get = EmplaceConterBlock.Get h.length ∧
    (MakeShared args h).1.Get ≠ 0 ∧
    (MakeShared args h).1.UseCount (MakeShared args h).2 = 1 ∧
    (MakeShared args h).2.Get2 h.length = 0 ∧
    (((MakeShared args h).2.Decrement h.length).Destroy h.length).block h.length
      = { count_ := 0, weak_count_ := 0, body := BlockBody.EmplaceConterBlock args,
          destroyCalls := 1, dtorRuns := 1, freed := 0 } ∧
    ((MakeShared args h).1.Reset (MakeShared args h).2).2
      = SharedPtr.Realise h.length
          (((MakeShared args h).2.Decrement h.length).Destroy h.length) ∧
    ((MakeShared args h).1.Reset (MakeShared args h).2).2.block h.length
      = { count_ := 0, weak_count_ := 0, body := BlockBody.EmplaceConterBlock args,
          destroyCalls := 1, dtorRuns := 1, freed := 1 } ∧
    ((MakeShared args h).1.Reset (MakeShared args h).2).1 = { ptr_ := 0, block_ := none } := by
  have hm : MakeShared args h
      = ({ ptr_ := EmplaceConterBlock.Get h.length, block_ := some h.length },
          (h.new (BlockBody.EmplaceConterBlock args)).2.Increment
            (h.new (BlockBody.EmplaceConterBlock args)).1) := rfl
  have hlen := length_new_Increment h (BlockBody.EmplaceConterBlock args)
  have hblk : ((h.new (BlockBody.EmplaceConterBlock args)).2.Increment
      (h.new (BlockBody.EmplaceConterBlock args)).1).block h.length
      = { count_ := 1, weak_count_ := 0, body := BlockBody.EmplaceConterBlock args,
          destroyCalls := 0, dtorRuns := 0, freed := 0 } := by
    rw [block_new_Increment]
    simp only [↓reduceIte]
    rfl
  have hdec : (((h.new (BlockBody.EmplaceConterBlock args)).2.Increment
      (h.new (BlockBody.EmplaceConterBlock args)).1).Decrement h.length).Get1 h.length = 0 := by
    simp [Heap.Get1, ControlBlockBase.Get1, Heap.Decrement, block_modify, hlen, hblk,
      ControlBlockBase.Decrement]
  have hmid : ((((h.new (BlockBody.EmplaceConterBlock args)).2.Increment
      (h.new (BlockBody.EmplaceConterBlock args)).1).Decrement h.length).Destroy
        h.length).block h.length
      = { count_ := 0, weak_count_ := 0, body := BlockBody.EmplaceConterBlock args,
          destroyCalls := 1, dtorRuns := 1, freed := 0 } := by
    simp [Heap.Destroy, Heap.Decrement, block_modify, hlen, hblk, ControlBlockBase.Decrement,
      ControlBlockBase.Destroy]
  have hreset : (SharedPtr.Reset
      { ptr_ := EmplaceConterBlock.Get h.length, block_ := some h.length }
      ((h.new (BlockBody.EmplaceConterBlock args)).2.Increment
        (h.new (BlockBody.EmplaceConterBlock args)).1))
      = ({ ptr_ := 0, block_ := none }, SharedPtr.Realise h.length
          ((((h.new (BlockBody.EmplaceConterBlock args)).2.Increment
            (h.new (BlockBody.EmplaceConterBlock args)).1).Decrement h.length).Destroy
              h.length)) := by
    simp only [SharedPtr.Reset, hdec, ↓reduceIte]
  rw [hm]
  refine ⟨hlen, fun c hc => block_new_Increment_old h _ c hc, hblk, rfl, rfl, ?_,
    SharedPtr_UseCount_new h _ _, ?_, hmid, ?_, ?_, ?_⟩
  · simp [SharedPtr.Get, EmplaceConterBlock.Get]
  · simp [Heap.Get2, ControlBlockBase.Get2, hblk]
  · rw [hreset]
  · rw [hreset]
    simp only [SharedPtr.Realise, Heap.Get1, Heap.Get2, ControlBlockBase.Get1,
      ControlBlockBase.Get2, hmid]
    simp [Heap.delete, block_modify, hlen, hmid, ControlBlockBase.delete]
  · rw [hreset]

/-- C12 (evaluation at two failing programs). The converting copy constructor behaves as
claimed: the copy of the owner of 7 is on block 0 with the same pointer and the strong count
is 2. The converting copy assignment compares `Get()`: (1) `a` is empty and `b` is an aliasing
`SharedPtr` with a null access pointer on block 0; `a = b` does nothing, so `a` has no block
while `b` has block 0. (2) `a` aliases the owner of 7 and `b` aliases the owner of 8, both with
access pointer 9; `a = b` does nothing, so `a` stays on block 0 while `b` is on block 1. -/
theorem converting_assign_skips_equal_pointers :
    (run Sys.init [Op.sharedRaw 7, Op.sharedConvert 0]).map
        (fun t => (t.sharedAt 0, t.sharedAt 1, (t.heap.block 0).count_, t.heap.length))
      = Except.ok (some (SharedPtr.mk 7 (some 0)), some (SharedPtr.mk 7 (some 0)), 2, 1) ∧
    (run Sys.init [Op.sharedDefault, Op.sharedRaw 7, Op.sharedAlias 1 0,
        Op.sharedAssignConvert 0 2]).map
        (fun t => (t.sharedAt 0, t.sharedAt 2, (t.heap.block 0).count_))
      = Except.ok (some (SharedPtr.mk 0 none), some (SharedPtr.mk 0 (some 0)), 2) ∧
    (run Sys.init [Op.sharedRaw 7, Op.sharedRaw 8, Op.sharedAlias 0 9, Op.sharedAlias 1 9,
        Op.sharedAssignConvert 2 3]).map
        (fun t => (t.sharedAt 2, t.sharedAt 3, (t.heap.block 0).count_,
          (t.heap.block 1).count_))
      = Except.ok (some (SharedPtr.mk 9 (some 0)), some (SharedPtr.mk 9 (some 1)), 2, 2) ∧
    (run Sys.init [Op.sharedRaw 7, Op.sharedRaw 8, Op.sharedAlias 0 9, Op.sharedAlias 1 9,
        Op.sharedAssign 2 3]).map
        (fun t => (t.sharedAt 2, t.sharedAt 3, (t.heap.block 0).count_,
          (t.heap.block 1).count_))
      = Except.ok (some (SharedPtr.mk 9 (some 1)), some (SharedPtr.mk 9 (some 1)), 1, 3) :=
  ⟨rfl, rfl, rfl, rfl⟩

/-- C13 (evaluation at the failing program): `b` owns 7 and `a` is a converting copy of `b`,
so both have access pointer 7. The converting move assignment `a = std::move(b)` compares
`Get()` and does nothing: `b` still holds pointer 7 and block 0, and the strong count is
still 2. The same-type move assignment on the same two objects empties `b` and leaves the
strong count at 1, and so does the converting one when the pointers differ. -/
theorem converting_move_assign_leaves_source :
    (run Sys.init [Op.sharedRaw 7, Op.sharedConvert 0, Op.sharedMoveAssignConvert 1 0]).map
        (fun t => (t.sharedAt 1, t.sharedAt 0, (t.heap.block 0).count_))
      = Except.ok (some (SharedPtr.mk 7 (some 0)), some (SharedPtr.mk 7 (some 0)), 2) ∧
    (run Sys.init [Op.sharedRaw 7, Op.sharedConvert 0, Op.sharedMoveAssign 1 0]).map
        (fun t => (t.sharedAt 1, t.sharedAt 0, (t.heap.block 0).count_))
      = Except.ok (some (SharedPtr.mk 7 (some 0)), some (SharedPtr.mk 0 none), 1) ∧
    (run Sys.init [Op.sharedRaw 7, Op.sharedRaw 8, Op.sharedMoveAssignConvert 1 0]).map
        (fun t => (t.sharedAt 1, t.sharedAt 0, (t.heap.block 0).count_,
          (t.heap.block 1).count_, (t.heap.block 1).dtorRuns))
      = Except.ok (some (SharedPtr.mk 7 (some 0)), some (SharedPtr.mk 0 none), 1, 0, 1) :=
  ⟨rfl, rfl, rfl⟩

/-- C14 (evaluation at the failing program): `w1` and `w2` both observe the owner of 7, so
both have access pointer 7. `w1 = std::move(w2)` compares `Get()` and does nothing: `w2` still
holds pointer 7 and block 0 and `w1` has released nothing (the weak count is still 2). With
observers of two different owners the same assignment releases `w1`'s reference, hands `w2`'s
pointer and block to `w1` and empties `w2`. -/
theorem weak_move_assign_leaves_source :
    (run Sys.init [Op.sharedRaw 7, Op.weakFromShared 0, Op.weakFromShared 0,
        Op.weakMoveAssign 0 1]).map
        (fun t => (t.weakAt 0, t.weakAt 1, (t.heap.block 0).weak_count_, t.weakRefs 0))
      = Except.ok (some (WeakPtr.mk 7 (some 0)), some (WeakPtr.mk 7 (some 0)), 2, 2) ∧
    (run Sys.init [Op.sharedRaw 7, Op.sharedRaw 8, Op.weakFromShared 0, Op.weakFromShared 1,
        Op.weakMoveAssign 0 1]).map
        (fun t => (t.weakAt 0, t.weakAt 1, (t.heap.block 0).weak_count_,
          (t.heap.block 1).weak_count_, t.weakRefs 1))
      = Except.ok (some (WeakPtr.mk 8 (some 1)), some (WeakPtr.mk 0 none), 0, 1, 1) :=
  ⟨rfl, rfl⟩

/-- C16 (evaluation at the failing program): `p` is made by the aliasing constructor from an
empty owner and the pointer 5, so it has `ptr_ = 5` and no block. `p.Reset()` is guarded by
`block_` and does nothing: `Get()` is still 5. `p.Reset(nullptr)` on the same `p` does leave
`Get()` null, and `Reset()` on an owner and on an empty pointer behave as claimed. -/
theorem reset_keeps_pointer_without_block :
    (run Sys.init [Op.sharedDefault, Op.sharedAlias 0 5]).map (fun t => t.sharedAt 1)
      = Except.ok (some (SharedPtr.mk 5 none)) ∧
    SharedPtr.Reset (SharedPtr.mk 5 none) [] = (SharedPtr.mk 5 none, []) ∧
    (run Sys.init [Op.sharedDefault, Op.sharedAlias 0 5, Op.sharedReset 1]).map
        (fun t => (t.sharedAt 1).map (fun p => (p.Get, p.UseCount t.heap)))
      = Except.ok (some (5, 0)) ∧
    (run Sys.init [Op.sharedDefault, Op.sharedAlias 0 5, Op.sharedResetPtr 1 0]).map
        (fun t => (t.sharedAt 1).map (fun p => (p.Get, p.UseCount t.heap)))
      = Except.ok (some (0, 0)) ∧
    (run Sys.init [Op.sharedRaw 7, Op.sharedReset 0]).map
        (fun t => ((t.sharedAt 0).map (fun p => (p.Get, p.UseCount t.heap)),
          (t.heap.block 0).dtorRuns))
      = Except.ok (some (0, 0), 1) ∧
    (run Sys.init [Op.sharedDefault, Op.sharedReset 0]).map
        (fun t => ((t.sharedAt 0).map (fun p => (p.Get, p.UseCount t.heap)), t.heap))
      = Except.ok (some (0, 0), []) :=
  ⟨rfl, rfl, rfl, rfl, rfl, rfl⟩

/-! ## Frame lemmas: what each side leaves alone -/

theorem block_modify_pres {α : Type} (g : ControlBlockBase → α)
    (f : ControlBlockBase → ControlBlockBase) (hf : ∀ c, g (f c) = g c) (h : Heap) (a b : Nat) :
    g (Heap.block (List.modify f a h) b) = g (h.block b) := by
  rw [block_modify]
  split_ifs
  · exact hf _
  · rfl

theorem strong_IncrementWeak (h : Heap) (a b : Nat) :
    ((h.IncrementWeak a).block b).strongPart = (h.block b).strongPart :=
  block_modify_pres ControlBlockBase.strongPart ControlBlockBase.IncrementWeak (fun _ => rfl) h a b

theorem strong_DecrementWeak (h : Heap) (a b : Nat) :
    ((h.DecrementWeak a).block b).strongPart = (h.block b).strongPart :=
  block_modify_pres ControlBlockBase.strongPart ControlBlockBase.DecrementWeak (fun _ => rfl) h a b

theorem strong_delete (h : Heap) (a b : Nat) :
    ((h.delete a).block b).strongPart = (h.block b).strongPart :=
  block_modify_pres ControlBlockBase.strongPart ControlBlockBase.delete (fun _ => rfl) h a b

theorem strong_weak_Realise (a b : Nat) (h : Heap) :
    ((WeakPtr.Realise a h).block b).strongPart = (h.block b).strongPart := by
  unfold WeakPtr.Realise
  split_ifs
  · exact strong_delete h a b
  · rfl

theorem strong_weak_Reset (w : WeakPtr) (h : Heap) (r : WeakPtr × Heap)
    (hr : w.Reset h = Except.ok r) (b : Nat) :
    (r.2.block b).strongPart = (h.block b).strongPart := by
  unfold WeakPtr.Reset at hr
  split_ifs at hr with hp
  · split at hr
    · injection hr with hr
      subst hr
      dsimp only
      split_ifs
      · rw [strong_weak_Realise, strong_DecrementWeak]
      · rw [strong_DecrementWeak]
    · cases hr
  · injection hr with hr
    subst hr
    rfl

theorem strong_weak_ctorCopy (w : WeakPtr) (h : Heap) (r : WeakPtr × Heap)
    (hr : w.ctorCopy h = Except.ok r) (b : Nat) :
    (r.2.block b).strongPart = (h.block b).strongPart := by
  unfold WeakPtr.ctorCopy at hr
  split_ifs at hr with hp
  · split at hr
    · injection hr with hr
      subst hr
      exact strong_IncrementWeak _ _ _
    · cases hr
  · injection hr with hr
    subst hr
    rfl

theorem strong_weak_ctorShared (o : SharedPtr) (h : Heap) (b : Nat) :
    ((WeakPtr.ctorShared o h).2.block b).strongPart = (h.block b).strongPart := by
  unfold WeakPtr.ctorShared
  split
  · exact strong_IncrementWeak _ _ _
  · rfl

theorem strong_weak_ctorConvert (o : WeakPtr) (h : Heap) (b : Nat) :
    ((WeakPtr.ctorConvert o h).2.block b).strongPart = (h.block b).strongPart := by
  unfold WeakPtr.ctorConvert
  split
  · exact strong_IncrementWeak _ _ _
  · rfl

theorem strong_weak_assignCopy (a o : WeakPtr) (h : Heap) (b : Nat) :
    ((WeakPtr.assignCopy a o h).2.block b).strongPart = (h.block b).strongPart := by
  unfold WeakPtr.assignCopy
  split <;> split <;>
    simp only [strong_IncrementWeak, strong_weak_Realise, strong_DecrementWeak]

theorem strong_weak_assignMove (a o : WeakPtr) (h : Heap) (r : WeakPtr × WeakPtr × Heap)
    (hr : WeakPtr.assignMove a o h = Except.ok r) (b : Nat) :
    (r.2.2.block b).strongPart = (h.block b).strongPart := by
  unfold WeakPtr.assignMove at hr
  split_ifs at hr with hp
  · split at hr
    · next r1 h1 =>
      injection hr with hr
      subst hr
      exact strong_weak_Reset a h r1 h1 b
    · cases hr
  · injection hr with hr
    subst hr
    rfl

theorem step_weak_strong (s t : Sys) (op : Op) (hop : op.isWeak = true)
    (ht : step s op = Except.ok t) (b : Nat) :
    (t.heap.block b).strongPart = (s.heap.block b).strongPart := by
  cases op <;> simp only [Op.isWeak, Bool.false_eq_true] at hop <;> simp only [step] at ht
  case weakDefault =>
    injection ht with ht
    subst ht
    rfl
  case weakFromShared j =>
    split at ht
    · injection ht with ht
      subst ht
      exact strong_weak_ctorShared _ _ _
    · injection ht with ht
      subst ht
      rfl
  case weakCopy j =>
    split at ht
    · split at ht
      · next r hr =>
        injection ht with ht
        subst ht
        exact strong_weak_ctorCopy _ _ r hr b
      · cases ht
    · injection ht with ht
      subst ht
      rfl
  case weakConvert j =>
    split at ht
    · injection ht with ht
      subst ht
      exact strong_weak_ctorConvert _ _ _
    · injection ht with ht
      subst ht
      rfl
  case weakMove j =>
    split at ht <;>
    · injection ht with ht
      subst ht
      rfl
  case weakAssign i j =>
    split_ifs at ht
    · injection ht with ht
      subst ht
      rfl
    · split at ht
      · injection ht with ht
        subst ht
        exact strong_weak_assignCopy _ _ _ _
      · injection ht with ht
        subst ht
        rfl
  case weakMoveAssign i j =>
    split at ht
    · split at ht
      · next r hr =>
        injection ht with ht
        subst ht
        exact strong_weak_assignMove _ _ _ r hr b
      · cases ht
    · injection ht with ht
      subst ht
      rfl
  case weakReset i =>
    split at ht
    · split at ht
      · next r hr =>
        injection ht with ht
        subst ht
        exact strong_weak_Reset _ _ r hr b
      · cases ht
    · injection ht with ht
      subst ht
      rfl
  case weakSwap i j =>
    split at ht <;>
    · injection ht with ht
      subst ht
      rfl
  case weakDestroy i =>
    split at ht
    · split at ht
      · next r hr =>
        injection ht with ht
        subst ht
        exact strong_weak_Reset _ _ r hr b
      · cases ht
    · injection ht with ht
      subst ht
      rfl

theorem weak_count_Destroy (h : Heap) (a b : Nat) :
    ((h.Destroy a).block b).weak_count_ = (h.block b).weak_count_ :=
  block_modify_pres ControlBlockBase.weak_count_ ControlBlockBase.Destroy
    Destroy_weak_count h a b

theorem weak_count_delete (h : Heap) (a b : Nat) :
    ((h.delete a).block b).weak_count_ = (h.block b).weak_count_ :=
  block_modify_pres ControlBlockBase.weak_count_ ControlBlockBase.delete (fun _ => rfl) h a b

theorem weak_count_shared_Realise (a b : Nat) (h : Heap) :
    ((SharedPtr.Realise a h).block b).weak_count_ = (h.block b).weak_count_ := by
  unfold SharedPtr.Realise
  split_ifs
  · exact weak_count_delete h a b
  · rfl

theorem weak_count_shared_Reset (p : SharedPtr) (h : Heap) (b : Nat) :
    ((p.Reset h).2.block b).weak_count_ = (h.block b).weak_count_ := by
  unfold SharedPtr.Reset
  split
  · dsimp only
    split_ifs
    · rw [weak_count_shared_Realise, weak_count_Destroy, weak_count_Decrement]
    · rw [weak_count_Decrement]
  · rfl

theorem weak_count_new_Increment (h : Heap) (body : BlockBody) (b : Nat) :
    (((h.new body).2.Increment (h.new body).1).block b).weak_count_
      = (h.block b).weak_count_ := by
  rw [block_new_Increment]
  by_cases hb : b = h.length
  · subst hb
    simp [ControlBlockBase.fresh, ControlBlockBase.Increment,
      block_of_length_le h h.length (Nat.le_refl _), default_weak_count]
  · simp [hb]

theorem weak_count_ctorRaw (q : Nat) (h : Heap) (b : Nat) :
    (((SharedPtr.ctorRaw q h).2).block b).weak_count_ = (h.block b).weak_count_ := by
  unfold SharedPtr.ctorRaw
  split_ifs
  · exact weak_count_new_Increment h _ b
  · rfl

theorem weak_count_ctorCopy (o : SharedPtr) (h : Heap) (b : Nat) :
    (((SharedPtr.ctorCopy o h).2).block b).weak_count_ = (h.block b).weak_count_ := by
  unfold SharedPtr.ctorCopy
  split
  · exact weak_count_Increment _ _ _
  · rfl

theorem weak_count_ctorAlias (o : SharedPtr) (q : Nat) (h : Heap) (b : Nat) :
    (((SharedPtr.ctorAlias o q h).2).block b).weak_count_ = (h.block b).weak_count_ := by
  unfold SharedPtr.ctorAlias
  split
  · exact weak_count_Increment _ _ _
  · rfl

theorem weak_count_ctorConvert (o : SharedPtr) (h : Heap) (b : Nat) :
    (((SharedPtr.ctorConvert o h).2).block b).weak_count_ = (h.block b).weak_count_ := by
  unfold SharedPtr.ctorConvert
  split
  · exact weak_count_Increment _ _ _
  · rfl

theorem weak_count_assignCopy (a o : SharedPtr) (h : Heap) (b : Nat) :
    (((SharedPtr.assignCopy a o h).2).block b).weak_count_ = (h.block b).weak_count_ := by
  rw [assignCopy_heap]
  split
  · rw [weak_count_Increment, weak_count_shared_Reset]
  · rw [weak_count_shared_Reset]

theorem weak_count_assignMove (a o : SharedPtr) (h : Heap) (b : Nat) :
    (((SharedPtr.assignMove a o h).2.2).block b).weak_count_ = (h.block b).weak_count_ := by
  unfold SharedPtr.assignMove
  exact weak_count_shared_Reset a h b

theorem weak_count_assignConvert (a o : SharedPtr) (h : Heap) (b : Nat) :
    (((SharedPtr.assignConvert a o h).2).block b).weak_count_ = (h.block b).weak_count_ := by
  by_cases hg : a.Get = o.Get
  · rw [assignConvert_of_eq a o h hg]
  · rw [assignConvert_of_ne a o h hg]
    exact weak_count_assignCopy a o h b

theorem weak_count_assignMoveConvert (a o : SharedPtr) (h : Heap) (b : Nat) :
    (((SharedPtr.assignMoveConvert a o h).2.2).block b).weak_count_
      = (h.block b).weak_count_ := by
  by_cases hg : a.Get = o.Get
  · rw [assignMoveConvert_of_eq a o h hg]
  · rw [assignMoveConvert_of_ne a o h hg]
    exact weak_count_assignMove a o h b

theorem weak_count_ResetPtr (p : SharedPtr) (q : Nat) (h : Heap) (b : Nat) :
    (((p.ResetPtr q h).2).block b).weak_count_ = (h.block b).weak_count_ := by
  unfold SharedPtr.ResetPtr
  dsimp only
  split_ifs
  · rw [weak_count_new_Increment, weak_count_shared_Reset]
  · rw [weak_count_shared_Reset]

theorem weak_count_MakeShared (args : List Nat) (h : Heap) (b : Nat) :
    (((MakeShared args h).2).block b).weak_count_ = (h.block b).weak_count_ :=
  weak_count_new_Increment h _ b

theorem step_shared_weak_count (s t : Sys) (op : Op) (hop : op.isShared = true)
    (ht : step s op = Except.ok t) (b : Nat) :
    (t.heap.block b).weak_count_ = (s.heap.block b).weak_count_ := by
  cases op <;> simp only [Op.isShared, Bool.false_eq_true] at hop <;> simp only [step] at ht
  case sharedDefault =>
    injection ht with ht
    subst ht
    rfl
  case sharedRaw q =>
    injection ht with ht
    subst ht
    exact weak_count_ctorRaw _ _ _
  case sharedCopy j =>
    split at ht <;> injection ht with ht <;> subst ht
    · exact weak_count_ctorCopy _ _ _
    · rfl
  case sharedMove j =>
    split at ht <;> injection ht with ht <;> subst ht <;> rfl
  case sharedAlias j q =>
    split at ht <;> injection ht with ht <;> subst ht
    · exact weak_count_ctorAlias _ _ _ _
    · rfl
  case sharedAssign i j =>
    split_ifs at ht
    · injection ht with ht
      subst ht
      rfl
    · split at ht <;> injection ht with ht <;> subst ht
      · exact weak_count_assignCopy _ _ _ _
      · rfl
  case sharedMoveAssign i j =>
    split_ifs at ht
    · injection ht with ht
      subst ht
      rfl
    · split at ht
      · next a o ha ho =>
        injection ht with ht
        subst ht
        exact weak_count_assignMove a o s.heap b
      · injection ht with ht
        subst ht
        rfl
  case sharedReset i =>
    split at ht <;> injection ht with ht <;> subst ht
    · exact weak_count_shared_Reset _ _ _
    · rfl
  case sharedDestroy i =>
    split at ht <;> injection ht with ht <;> subst ht
    · exact weak_count_shared_Reset _ _ _
    · rfl
  case sharedConvert j =>
    split at ht <;> injection ht with ht <;> subst ht
    · exact weak_count_ctorConvert _ _ _
    · rfl
  case sharedMoveConvert j =>
    split at ht <;> injection ht with ht <;> subst ht <;> rfl
  case sharedAssignConvert i j =>
    split at ht <;> injection ht with ht <;> subst ht
    · exact weak_count_assignConvert _ _ _ _
    · rfl
  case sharedMoveAssignConvert i j =>
    split at ht
    · next a o ha ho =>
      injection ht with ht
      subst ht
      exact weak_count_assignMoveConvert a o s.heap b
    · injection ht with ht
      subst ht
      rfl
  case sharedResetPtr i q =>
    split at ht <;> injection ht with ht <;> subst ht
    · exact weak_count_ResetPtr _ _ _ _
    · rfl
  case sharedSwap i j =>
    split at ht <;> injection ht with ht <;> subst ht <;> rfl
  case makeShared args =>
    injection ht with ht
    subst ht
    exact weak_count_MakeShared _ _ _

theorem step_weak_ok_of_blocks (s : Sys) (op : Op) (hop : op.isWeak = true)
    (hb : ∀ i w, s.weakAt i = some w → w.ptr_ ≠ 0 → w.block_ ≠ none) :
    ∃ t, step s op = Except.ok t := by
  cases op <;> simp only [Op.isWeak, Bool.false_eq_true] at hop <;> simp only [step]
  case weakDefault => exact ⟨_, rfl⟩
  case weakFromShared j => split <;> exact ⟨_, rfl⟩
  case weakCopy j =>
    split
    · next o ho =>
      unfold WeakPtr.ctorCopy
      split_ifs with he
      · cases hblk : o.block_ with
        | none => simp [WeakPtr.Expired, WeakPtr.UseCount, hblk] at he
        | some c => exact ⟨_, rfl⟩
      · exact ⟨_, rfl⟩
    · exact ⟨_, rfl⟩
  case weakConvert j => split <;> exact ⟨_, rfl⟩
  case weakMove j => split <;> exact ⟨_, rfl⟩
  case weakAssign i j => split_ifs <;> [exact ⟨_, rfl⟩; (split <;> exact ⟨_, rfl⟩)]
  case weakMoveAssign i j =>
    split
    · next a o ha ho =>
      unfold WeakPtr.assignMove
      split_ifs with hg
      · unfold WeakPtr.Reset
        split_ifs with hp
        · cases hblk : a.block_ with
          | none => exact absurd hblk (hb i a ha hp)
          | some c => exact ⟨_, rfl⟩
        · exact ⟨_, rfl⟩
      · exact ⟨_, rfl⟩
    · exact ⟨_, rfl⟩
  case weakReset i =>
    split
    · next a ha =>
      unfold WeakPtr.Reset
      split_ifs with hp
      · cases hblk : a.block_ with
        | none => exact absurd hblk (hb i a ha hp)
        | some c => exact ⟨_, rfl⟩
      · exact ⟨_, rfl⟩
    · exact ⟨_, rfl⟩
  case weakSwap i j => split <;> exact ⟨_, rfl⟩
  case weakDestroy i =>
    split
    · next a ha =>
      unfold WeakPtr.Reset
      split_ifs with hp
      · cases hblk : a.block_ with
        | none => exact absurd hblk (hb i a ha hp)
        | some c => exact ⟨_, rfl⟩
      · exact ⟨_, rfl⟩
    · exact ⟨_, rfl⟩

/-- C22: an operation on `WeakPtr` objects that completes leaves every block's strong count,
payload and destruction counters (`Destroy()` calls, destructor runs) as they were, and an
operation on `SharedPtr` objects leaves every block's weak count as it was. The `SharedPtr`
operations always complete; the `WeakPtr` operations complete whenever every `WeakPtr` with a
non-null access pointer has a block. -/
theorem weak_ops_keep_strong_side_and_shared_ops_keep_weak_count (s : Sys) (op : Op) :
    (op.isWeak = true → ∀ t, step s op = Except.ok t → ∀ b,
      (t.heap.block b).count_ = (s.heap.block b).count_ ∧
      (t.heap.block b).body = (s.heap.block b).body ∧
      (t.heap.block b).destroyCalls = (s.heap.block b).destroyCalls ∧
      (t.heap.block b).dtorRuns = (s.heap.block b).dtorRuns) ∧
    (op.isShared = true → ∀ t, step s op = Except.ok t → ∀ b,
      (t.heap.block b).weak_count_ = (s.heap.block b).weak_count_) ∧
    (op.isShared = true → ∃ t, step s op = Except.ok t) ∧
    (op.isWeak = true → (∀ i w, s.weakAt i = some w → w.ptr_ ≠ 0 → w.block_ ≠ none) →
      ∃ t, step s op = Except.ok t) := by
  refine ⟨?_, ?_, step_shared_ok s op, step_weak_ok_of_blocks s op⟩
  · intro hop t ht b
    have h := step_weak_strong s t op hop ht b
    simp only [ControlBlockBase.strongPart, Prod.mk.injEq] at h
    exact h
  · intro hop t ht b
    exact step_shared_weak_count s t op hop ht b

/-! ## `Destroy()` happens once, at the last owner -/

theorem StrongSteps_of_same (h g : Heap) (hl : g.length = h.length)
    (hs : ∀ b, (g.block b).strongPart = (h.block b).strongPart) : h.StrongSteps g := by
  refine ⟨by omega, ?_, ?_⟩
  · intro b _
    have := hs b
    simp only [ControlBlockBase.strongPart, Prod.mk.injEq] at this
    exact Or.inl ⟨this.1, this.2.2.1⟩
  · intro b h1 h2
    omega

theorem StrongSteps_refl (h : Heap) : h.StrongSteps h :=
  StrongSteps_of_same h h rfl (fun _ => rfl)

theorem destroyCalls_Increment (h : Heap) (a b : Nat) :
    ((h.Increment a).block b).destroyCalls = (h.block b).destroyCalls :=
  block_modify_pres ControlBlockBase.destroyCalls ControlBlockBase.Increment (fun _ => rfl)
    h a b

theorem StrongSteps_Increment (h : Heap) (a : Nat) (ha : 0 < (h.block a).count_) :
    h.StrongSteps (h.Increment a) := by
  refine ⟨by simp, ?_, ?_⟩
  · intro b hb
    by_cases hab : a = b
    · subst hab
      refine Or.inr (Or.inl ⟨ha, ?_, destroyCalls_Increment h a a⟩)
      simp [count_Increment, hb]
    · refine Or.inl ⟨?_, destroyCalls_Increment h a b⟩
      simp [count_Increment, hab]
  · intro b h1 h2
    simp at h2
    omega

theorem StrongSteps_Reset (p : SharedPtr) (h : Heap)
    (hv : ∀ x, p.block_ = some x → x < h.length ∧ 0 < (h.block x).count_) :
    h.StrongSteps (p.Reset h).2 := by
  refine ⟨by simp, ?_, ?_⟩
  · intro b hb
    by_cases hpb : p.block_ = some b
    · obtain ⟨hlt, hpos⟩ := hv b hpb
      have hf := shared_Reset_own_fields p h b hpb hlt
      by_cases h1 : (h.block b).count_ = 1
      · refine Or.inr (Or.inr (Or.inr ⟨h1, ?_, ?_⟩))
        · rw [hf.1, h1]
          rfl
        · rw [hf.2.2.1]
          simp [h1]
      · refine Or.inr (Or.inr (Or.inl ⟨by omega, hf.1, ?_⟩))
        rw [hf.2.2.1]
        simp [h1]
    · rw [shared_Reset_other_block p h b hpb]
      exact Or.inl ⟨rfl, rfl⟩
  · intro b h1 h2
    simp at h2
    omega

theorem StrongSteps_new (h : Heap) (body : BlockBody) :
    h.StrongSteps ((h.new body).2.Increment (h.new body).1) := by
  refine ⟨by rw [length_new_Increment]; omega, ?_, ?_⟩
  · intro b hb
    rw [block_new_Increment_old h body b hb]
    exact Or.inl ⟨rfl, rfl⟩
  · intro b h1 h2
    rw [length_new_Increment] at h2
    have hb : b = h.length := by omega
    subst hb
    rw [block_new_Increment]
    simp [ControlBlockBase.fresh, ControlBlockBase.Increment]

theorem StrongSteps_Reset_new (p : SharedPtr) (h : Heap) (body : BlockBody)
    (hv : ∀ x, p.block_ = some x → x < h.length ∧ 0 < (h.block x).count_) :
    h.StrongSteps (((p.Reset h).2.new body).2.Increment ((p.Reset h).2.new body).1) := by
  have h1 := StrongSteps_Reset p h hv
  have h2 := StrongSteps_new (p.Reset h).2 body
  have hl : (p.Reset h).2.length = h.length := shared_length_Reset p h
  refine ⟨by rw [length_new_Increment, hl]; omega, ?_, ?_⟩
  · intro b hb
    rw [block_new_Increment_old (p.Reset h).2 body b (by rw [hl]; exact hb)]
    exact h1.2.1 b hb
  · intro b hb1 hb2
    exact h2.2.2 b (by rw [hl]; exact hb1) hb2

theorem Counted_live_block (s : Sys) (hs : s.Counted) (i : Nat) (a : SharedPtr)
    (ha : s.sharedAt i = some a) :
    ∀ x, a.block_ = some x → x < s.heap.length ∧ 0 < (s.heap.block x).count_ := by
  intro x hx
  refine ⟨Counted_valid s hs i a x ha hx, ?_⟩
  have hpos := shared_refs_pos s.shared i a x ha hx
  have hc : (s.heap.block x).count_ = (s.sharedRefs x : Int) := hs x
  rw [hc]
  unfold Sys.sharedRefs
  omega

theorem StrongSteps_acquire (s : Sys) (hs : s.Counted) (j : Nat) (o : SharedPtr)
    (ho : s.sharedAt j = some o) :
    s.heap.StrongSteps
      (match o.block_ with | some c => s.heap.Increment c | none => s.heap) := by
  cases hb : o.block_ with
  | none => exact StrongSteps_refl _
  | some c => exact StrongSteps_Increment _ c (Counted_live_block s hs j o ho c hb).2

theorem StrongSteps_assignCopy (s : Sys) (hs : s.Counted) (i j : Nat) (hij : i ≠ j)
    (a o : SharedPtr) (ha : s.sharedAt i = some a) (ho : s.sharedAt j = some o) :
    s.heap.StrongSteps (SharedPtr.assignCopy a o s.heap).2 := by
  have hva := Counted_live_block s hs i a ha
  have hvo := Counted_live_block s hs j o ho
  have hR := StrongSteps_Reset a s.heap hva
  rw [assignCopy_heap]
  cases hy : o.block_ with
  | none => exact hR
  | some y =>
    obtain ⟨hylt, hypos⟩ := hvo y hy
    refine ⟨by simp, ?_, ?_⟩
    · intro b hb
      simp only
      by_cases hyb : y = b
      · subst hyb
        by_cases hay : a.block_ = some y
        · -- shared by both: released and acquired again
          have h2 := shared_refs_two s.shared i j hij a o y ha ho hay hy
          have hc : (s.heap.block y).count_ = (s.sharedRefs y : Int) := hs y
          have hne1 : ¬ (s.heap.block y).count_ = 1 := by
            rw [hc]
            unfold Sys.sharedRefs
            omega
          have hblk : ((a.Reset s.heap).2.Increment y).block y = s.heap.block y := by
            simp only [block_Increment, shared_length_Reset, hylt, and_self, ↓reduceIte]
            rw [shared_Reset_own_block a s.heap y hay hylt]
            simp only [hne1, ↓reduceIte]
            exact Increment_Decrement _
          rw [hblk]
          exact Or.inl ⟨rfl, rfl⟩
        · have hblk : ((a.Reset s.heap).2.Increment y).block y
              = (s.heap.block y).Increment := by
            simp only [block_Increment, shared_length_Reset, hylt, and_self, ↓reduceIte]
            rw [shared_Reset_other_block a s.heap y hay]
          rw [hblk]
          exact Or.inr (Or.inl ⟨hypos, rfl, rfl⟩)
      · have hblk : ((a.Reset s.heap).2.Increment y).block b = (a.Reset s.heap).2.block b := by
          simp [block_Increment, hyb]
        rw [hblk]
        exact hR.2.1 b hb
    · intro b h1 h2
      simp at h2
      omega

theorem length_weak_Reset (w : WeakPtr) (h : Heap) (r : WeakPtr × Heap)
    (hr : w.Reset h = Except.ok r) : r.2.length = h.length := by
  unfold WeakPtr.Reset at hr
  split_ifs at hr with hp
  · split at hr
    · injection hr with hr
      subst hr
      dsimp only
      split_ifs <;> simp
    · cases hr
  · injection hr with hr
    subst hr
    rfl

theorem length_weak_ctorCopy (w : WeakPtr) (h : Heap) (r : WeakPtr × Heap)
    (hr : w.ctorCopy h = Except.ok r) : r.2.length = h.length := by
  unfold WeakPtr.ctorCopy at hr
  split_ifs at hr with hp
  · split at hr
    · injection hr with hr
      subst hr
      simp
    · cases hr
  · injection hr with hr
    subst hr
    rfl

theorem length_weak_ctorShared (o : SharedPtr) (h : Heap) :
    (WeakPtr.ctorShared o h).2.length = h.length := by
  unfold WeakPtr.ctorShared
  split <;> simp

theorem length_weak_ctorConvert (o : WeakPtr) (h : Heap) :
    (WeakPtr.ctorConvert o h).2.length = h.length := by
  unfold WeakPtr.ctorConvert
  split <;> simp

theorem length_weak_assignCopy (a o : WeakPtr) (h : Heap) :
    (WeakPtr.assignCopy a o h).2.length = h.length := by
  unfold WeakPtr.assignCopy
  split <;> split <;> simp

theorem length_weak_assignMove (a o : WeakPtr) (h : Heap) (r : WeakPtr × WeakPtr × Heap)
    (hr : WeakPtr.assignMove a o h = Except.ok r) : r.2.2.length = h.length := by
  unfold WeakPtr.assignMove at hr
  split_ifs at hr with hp
  · split at hr
    · next r1 h1 =>
      injection hr with hr
      subst hr
      exact length_weak_Reset a h r1 h1
    · cases hr
  · injection hr with hr
    subst hr
    rfl

theorem step_weak_length (s t : Sys) (op : Op) (hop : op.isWeak = true)
    (ht : step s op = Except.ok t) : t.heap.length = s.heap.length := by
  cases op <;> simp only [Op.isWeak, Bool.false_eq_true] at hop <;> simp only [step] at ht
  case weakDefault =>
    injection ht with ht
    subst ht
    rfl
  case weakFromShared j =>
    split at ht <;> injection ht with ht <;> subst ht
    · exact length_weak_ctorShared _ _
    · rfl
  case weakCopy j =>
    split at ht
    · split at ht
      · next r hr =>
        injection ht with ht
        subst ht
        exact length_weak_ctorCopy _ _ r hr
      · cases ht
    · injection ht with ht
      subst ht
      rfl
  case weakConvert j =>
    split at ht <;> injection ht with ht <;> subst ht
    · exact length_weak_ctorConvert _ _
    · rfl
  case weakMove j =>
    split at ht <;> injection ht with ht <;> subst ht <;> rfl
  case weakAssign i j =>
    split_ifs at ht
    · injection ht with ht
      subst ht
      rfl
    · split at ht <;> injection ht with ht <;> subst ht
      · exact length_weak_assignCopy _ _ _
      · rfl
  case weakMoveAssign i j =>
    split at ht
    · split at ht
      · next r hr =>
        injection ht with ht
        subst ht
        exact length_weak_assignMove _ _ _ r hr
      · cases ht
    · injection ht with ht
      subst ht
      rfl
  case weakReset i =>
    split at ht
    · split at ht
      · next r hr =>
        injection ht with ht
        subst ht
        exact length_weak_Reset _ _ r hr
      · cases ht
    · injection ht with ht
      subst ht
      rfl
  case weakSwap i j =>
    split at ht <;> injection ht with ht <;> subst ht <;> rfl
  case weakDestroy i =>
    split at ht
    · split at ht
      · next r hr =>
        injection ht with ht
        subst ht
        exact length_weak_Reset _ _ r hr
      · cases ht
    · injection ht with ht
      subst ht
      rfl

theorem count_pos_of_ne_zero (s : Sys) (hs : s.Counted) (c : Nat)
    (hc : (s.heap.block c).count_ ≠ 0) : 0 < (s.heap.block c).count_ := by
  have h0 : (s.heap.block c).count_ = (s.sharedRefs c : Int) := hs c
  omega

theorem step_other_StrongSteps (s t : Sys) (op : Op) (hs : s.Counted)
    (hw : op.isWeak = false) (ht : step s op = Except.ok t) :
    s.heap.StrongSteps t.heap := by
  cases op <;> simp only [Op.isWeak, Bool.true_eq_false] at hw <;> simp only [step] at ht
  case sharedDefault =>
    injection ht with ht
    subst ht
    exact StrongSteps_refl _
  case sharedRaw q =>
    injection ht with ht
    subst ht
    unfold SharedPtr.ctorRaw
    split_ifs
    · exact StrongSteps_new _ _
    · exact StrongSteps_refl _
  case sharedCopy j =>
    split at ht
    · next o ho =>
      injection ht with ht
      subst ht
      have := StrongSteps_acquire s hs j o ho
      unfold SharedPtr.ctorCopy
      cases hb : o.block_ <;> simpa [hb] using this
    · injection ht with ht
      subst ht
      exact StrongSteps_refl _
  case sharedMove j =>
    split at ht <;> injection ht with ht <;> subst ht <;> exact StrongSteps_refl _
  case sharedAlias j q =>
    split at ht
    · next o ho =>
      injection ht with ht
      subst ht
      have := StrongSteps_acquire s hs j o ho
      unfold SharedPtr.ctorAlias SharedPtr.GetBlock
      cases hb : o.block_ <;> simpa [hb] using this
    · injection ht with ht
      subst ht
      exact StrongSteps_refl _
  case sharedFromWeak j =>
    split at ht
    · next w hw2 =>
      split at ht
      · next r hr =>
        injection ht with ht
        subst ht
        obtain ⟨c, _, hc, rfl⟩ := ctorWeak_ok w s.heap r hr
        exact StrongSteps_Increment _ c (count_pos_of_ne_zero s hs c hc)
      · cases ht
    · injection ht with ht
      subst ht
      exact StrongSteps_refl _
  case sharedAssign i j =>
    split_ifs at ht with hij
    · injection ht with ht
      subst ht
      exact StrongSteps_refl _
    · split at ht
      · next a o ha ho =>
        injection ht with ht
        subst ht
        exact StrongSteps_assignCopy s hs i j hij a o ha ho
      · injection ht with ht
        subst ht
        exact StrongSteps_refl _
  case sharedMoveAssign i j =>
    split_ifs at ht with hij
    · injection ht with ht
      subst ht
      exact StrongSteps_refl _
    · split at ht
      · next a o ha ho =>
        injection ht with ht
        subst ht
        exact StrongSteps_Reset a s.heap (Counted_live_block s hs i a ha)
      · injection ht with ht
        subst ht
        exact StrongSteps_refl _
  case sharedReset i =>
    split at ht
    · next a ha =>
      injection ht with ht
      subst ht
      exact StrongSteps_Reset a s.heap (Counted_live_block s hs i a ha)
    · injection ht with ht
      subst ht
      exact StrongSteps_refl _
  case sharedDestroy i =>
    split at ht
    · next a ha =>
      injection ht with ht
      subst ht
      exact StrongSteps_Reset a s.heap (Counted_live_block s hs i a ha)
    · injection ht with ht
      subst ht
      exact StrongSteps_refl _
  case weakLock j =>
    split at ht
    · next w hw2 =>
      split at ht
      · next r hr =>
        injection ht with ht
        subst ht
        rcases Lock_ok w s.heap r hr with rfl | ⟨c, _, hc, rfl⟩
        · exact StrongSteps_refl _
        · exact StrongSteps_Increment _ c (count_pos_of_ne_zero s hs c hc)
      · cases ht
    · injection ht with ht
      subst ht
      exact StrongSteps_refl _
  case sharedConvert j =>
    split at ht
    · next o ho =>
      injection ht with ht
      subst ht
      have := StrongSteps_acquire s hs j o ho
      unfold SharedPtr.ctorConvert SharedPtr.GetBlock
      cases hb : o.block_ <;> simpa [hb] using this
    · injection ht with ht
      subst ht
      exact StrongSteps_refl _
  case sharedMoveConvert j =>
    split at ht <;> injection ht with ht <;> subst ht <;> exact StrongSteps_refl _
  case sharedAssignConvert i j =>
    split at ht
    · next a o ha ho =>
      injection ht with ht
      subst ht
      by_cases hg : a.Get = o.Get
      · rw [assignConvert_of_eq a o s.heap hg]
        exact StrongSteps_refl _
      · have hij : i ≠ j := by
          rintro rfl
          exact hg (by rw [same_slot_eq s i a o ha ho])
        rw [assignConvert_of_ne a o s.heap hg]
        exact StrongSteps_assignCopy s hs i j hij a o ha ho
    · injection ht with ht
      subst ht
      exact StrongSteps_refl _
  case sharedMoveAssignConvert i j =>
    split at ht
    · next a o ha ho =>
      injection ht with ht
      subst ht
      by_cases hg : a.Get = o.Get
      · rw [assignMoveConvert_of_eq a o s.heap hg]
        exact StrongSteps_refl _
      · rw [assignMoveConvert_of_ne a o s.heap hg]
        exact StrongSteps_Reset a s.heap (Counted_live_block s hs i a ha)
    · injection ht with ht
      subst ht
      exact StrongSteps_refl _
  case sharedResetPtr i q =>
    split at ht
    · next a ha =>
      injection ht with ht
      subst ht
      unfold SharedPtr.ResetPtr
      dsimp only
      split_ifs
      · exact StrongSteps_Reset_new a s.heap _ (Counted_live_block s hs i a ha)
      · exact StrongSteps_Reset a s.heap (Counted_live_block s hs i a ha)
    · injection ht with ht
      subst ht
      exact StrongSteps_refl _
  case sharedSwap i j =>
    split at ht <;> injection ht with ht <;> subst ht <;> exact StrongSteps_refl _
  case makeShared args =>
    injection ht with ht
    subst ht
    exact StrongSteps_new _ _

theorem step_StrongSteps (s t : Sys) (op : Op) (hs : s.Counted)
    (ht : step s op = Except.ok t) : s.heap.StrongSteps t.heap := by
  cases hw : op.isWeak with
  | true =>
    exact StrongSteps_of_same _ _ (step_weak_length s t op hw ht)
      (step_weak_strong s t op hw ht)
  | false => exact step_other_StrongSteps s t op hs hw ht

theorem Settled_step (s t : Sys) (hs : s.Settled) (h : s.heap.StrongSteps t.heap) :
    t.Settled := by
  intro b hb
  by_cases hlt : b < s.heap.length
  · have h0 := hs b hlt
    rcases h.2.1 b hlt with ⟨h1, h2⟩ | ⟨h1, h2, h3⟩ | ⟨h1, h2, h3⟩ | ⟨h1, h2, h3⟩
    · rw [h1, h2]
      exact h0
    · rcases h0 with ⟨_, h5⟩ | ⟨h4, _⟩
      · exact Or.inl ⟨by omega, by omega⟩
      · omega
    · rcases h0 with ⟨_, h5⟩ | ⟨h4, _⟩
      · exact Or.inl ⟨by omega, by omega⟩
      · omega
    · rcases h0 with ⟨_, h5⟩ | ⟨h4, _⟩
      · exact Or.inr ⟨h2, by omega⟩
      · omega
  · obtain ⟨h1, h2⟩ := h.2.2 b (Nat.le_of_not_lt hlt) hb
    exact Or.inl ⟨by omega, h2⟩

theorem Settled_init : Sys.Settled Sys.init := by
  intro b hb
  simp [Sys.init] at hb

theorem run_Settled (ops : List Op) (s t : Sys) (hc : s.Counted) (hs : s.Settled)
    (ht : run s ops = Except.ok t) : t.Settled := by
  induction ops generalizing s with
  | nil =>
    simp only [run, Except.ok.injEq] at ht
    subst ht
    exact hs
  | cons op ops ih =>
    simp only [run] at ht
    split at ht
    · next u hu =>
      exact ih u (step_Counted s u op hc hu)
        (Settled_step s u hs (step_StrongSteps s u op hc hu)) ht
    · cases ht

theorem StrongStep_zero (c d : ControlBlockBase) (h : c.StrongStep d) (h0 : c.count_ = 0) :
    d.count_ = 0 := by
  rcases h with ⟨h1, _⟩ | ⟨h1, _, _⟩ | ⟨h1, _, _⟩ | ⟨h1, _, _⟩ <;> omega

theorem StrongStep_destroy (c d : ControlBlockBase) (h : c.StrongStep d)
    (hd : d.destroyCalls ≠ c.destroyCalls) :
    c.count_ = 1 ∧ d.count_ = 0 ∧ d.destroyCalls = c.destroyCalls + 1 := by
  rcases h with ⟨_, h2⟩ | ⟨_, _, h2⟩ | ⟨_, _, h2⟩ | ⟨h1, h2, h3⟩
  · exact absurd h2 hd
  · exact absurd h2 hd
  · exact absurd h2 hd
  · exact ⟨h1, h2, h3⟩

theorem run_count_zero (ops : List Op) (s t : Sys) (hc : s.Counted)
    (ht : run s ops = Except.ok t) (b : Nat) (hb : b < s.heap.length)
    (h0 : (s.heap.block b).count_ = 0) :
    b < t.heap.length ∧ (t.heap.block b).count_ = 0 := by
  induction ops generalizing s with
  | nil =>
    simp only [run, Except.ok.injEq] at ht
    subst ht
    exact ⟨hb, h0⟩
  | cons op ops ih =>
    simp only [run] at ht
    split at ht
    · next u hu =>
      have hst := step_StrongSteps s u op hc hu
      exact ih u (step_Counted s u op hc hu) ht (by have := hst.1; omega)
        (StrongStep_zero _ _ (hst.2.1 b hb) h0)
    · cases ht

/-- C21: start in a state whose strong counts are the numbers of live `SharedPtr` objects and
in which every block has owners and was never destroyed or has none and was destroyed once
(the empty state is one). After any program that completes, every block has had at most one
`Destroy()` call, and has had one exactly if its strong count is 0; a block whose strong count
was 0 at the start still has strong count 0; and any further operation calls `Destroy()` on a
block only by taking its strong count from 1 to 0, once, and leaves a strong count of 0
at 0. -/
theorem destroy_once_at_last_owner (s : Sys) (ops : List Op) (hc : s.Counted)
    (hs : s.Settled) (t : Sys) (ht : run s ops = Except.ok t) :
    (∀ b, b < t.heap.length →
      (t.heap.block b).destroyCalls ≤ 1 ∧ 0 ≤ (t.heap.block b).count_ ∧
      ((t.heap.block b).destroyCalls = 1 ↔ (t.heap.block b).count_ = 0)) ∧
    (∀ b, b < s.heap.length → (s.heap.block b).count_ = 0 → (t.heap.block b).count_ = 0) ∧
    (∀ op u, step t op = Except.ok u → ∀ b, b < t.heap.length →
      ((u.heap.block b).destroyCalls ≠ (t.heap.block b).destroyCalls →
        (t.heap.block b).count_ = 1 ∧ (u.heap.block b).count_ = 0 ∧
        (u.heap.block b).destroyCalls = (t.heap.block b).destroyCalls + 1) ∧
      ((t.heap.block b).count_ = 0 → (u.heap.block b).count_ = 0)) := by
  have hct := run_Counted ops s t hc ht
  have hst := run_Settled ops s t hc hs ht
  refine ⟨?_, ?_, ?_⟩
  · intro b hb
    rcases hst b hb with ⟨h1, h2⟩ | ⟨h1, h2⟩
    · refine ⟨by omega, by omega, ?_⟩
      constructor <;> intro h <;> omega
    · refine ⟨by omega, by omega, ?_⟩
      constructor <;> intro _ <;> assumption
  · intro b hb h0
    exact (run_count_zero ops s t hc ht b hb h0).2
  · intro op u hu b hb
    have hss := (step_StrongSteps t u op hct hu).2.1 b hb
    exact ⟨StrongStep_destroy _ _ hss, StrongStep_zero _ _ hss⟩

/-- Witness for C21: `p` wraps 7, `w` observes `p`, `p` is reset. Block 0 has been destroyed
once and its strong count is 0; locking `w` afterwards leaves both as they are. -/
theorem destroy_once_at_last_owner_witness :
    Sys.Counted Sys.init ∧ Sys.Settled Sys.init ∧
    run Sys.init [Op.sharedRaw 7, Op.weakFromShared 0, Op.sharedReset 0]
      = Except.ok expiredSys ∧
    ((expiredSys.heap.block 0).destroyCalls ≤ 1 ∧ 0 ≤ (expiredSys.heap.block 0).count_ ∧
      ((expiredSys.heap.block 0).destroyCalls = 1 ↔ (expiredSys.heap.block 0).count_ = 0)) ∧
    (step expiredSys (Op.weakLock 0)).map
        (fun u => ((u.heap.block 0).count_, (u.heap.block 0).destroyCalls, u.sharedAt 1))
      = Except.ok (0, 1, some (SharedPtr.mk 0 none)) :=
  ⟨Counted_init, Settled_init, rfl,
   (destroy_once_at_last_owner Sys.init [Op.sharedRaw 7, Op.weakFromShared 0, Op.sharedReset 0]
      Counted_init Settled_init expiredSys rfl).1 0 (by decide),
   rfl⟩

/-! ## Self-observation -/

theorem block_IncrementWeak (h : Heap) (a b : Nat) :
    (h.IncrementWeak a).block b
      = if a = b ∧ b < h.length then (h.block b).IncrementWeak else h.block b := by
  rw [Heap.IncrementWeak, block_modify]

theorem self_observation_managed (p : SharedPtr) (h : Heap) (b : Nat)
    (hb : p.block_ = some b) (hpos : 0 < h.Get1 b) (hmax : h.Get1 b + 1 < 2 ^ 31) :
    (EnableSharedFromThis.wire p h).1.weak_this = { ptr_ := p.ptr_, block_ := some b } ∧
    (EnableSharedFromThis.wire p h).2 = h.IncrementWeak b ∧
    (EnableSharedFromThis.wire p h).1.SharedFromThis (EnableSharedFromThis.wire p h).2
      = Except.ok ({ ptr_ := p.ptr_, block_ := some b }, (h.IncrementWeak b).Increment b) ∧
    ((h.IncrementWeak b).Increment b).length = h.length ∧
    p.UseCount ((h.IncrementWeak b).Increment b) = p.UseCount h + 1 ∧
    (EnableSharedFromThis.wire p h).1.WeakFromThis (EnableSharedFromThis.wire p h).2
      = Except.ok ({ ptr_ := p.ptr_, block_ := some b }, (h.IncrementWeak b).IncrementWeak b) ∧
    ((h.IncrementWeak b).IncrementWeak b).length = h.length ∧
    ((h.IncrementWeak b).IncrementWeak b).Get2 b = (h.IncrementWeak b).Get2 b + 1 ∧
    ((h.IncrementWeak b).IncrementWeak b).Get1 b = h.Get1 b := by
  have hlt : b < h.length := count_pos_valid h b (by
    simp only [Heap.Get1, ControlBlockBase.Get1] at hpos
    omega)
  have hw : EnableSharedFromThis.wire p h
      = ({ weak_this := { ptr_ := p.ptr_, block_ := some b } }, h.IncrementWeak b) := by
    simp [EnableSharedFromThis.wire, WeakPtr.ctorShared, SharedPtr.GetBlock, SharedPtr.Get, hb]
  have hg1 : (h.IncrementWeak b).Get1 b = h.Get1 b := by
    simp [Heap.Get1, ControlBlockBase.Get1]
  have hne : WeakPtr.Expired { ptr_ := p.ptr_, block_ := some b } (h.IncrementWeak b)
      = false := by
    cases he : WeakPtr.Expired { ptr_ := p.ptr_, block_ := some b } (h.IncrementWeak b) with
    | false => rfl
    | true =>
      have hint : ∀ c, (WeakPtr.mk p.ptr_ (some b)).block_ = some c →
          IsInt ((h.IncrementWeak b).Get1 c) := by
        intro c hc
        injection hc with hc
        subst hc
        rw [hg1]
        unfold IsInt
        constructor <;> omega
      rcases (weak_Expired_iff _ _ hint).mp he with hn | ⟨c, hc, h0⟩
      · cases hn
      · injection hc with hc
        subst hc
        rw [hg1] at h0
        omega
  rw [hw]
  refine ⟨rfl, rfl, ?_, by simp, ?_, ?_, by simp, ?_, ?_⟩
  · exact ctorWeak_of_not_Expired _ _ b rfl hne
  · simp only [SharedPtr.UseCount, hb]
    have h1 : ((h.IncrementWeak b).Increment b).Get1 b = h.Get1 b + 1 := by
      simp [Heap.Get1, ControlBlockBase.Get1, count_Increment, hlt]
    have e1 := toSizeT_of_nonneg (h.Get1 b + 1) (by omega) hmax
    have e2 := toSizeT_of_nonneg (h.Get1 b) (by omega) (by omega)
    rw [h1]
    have : (toSizeT (h.Get1 b + 1) : Int) = ((toSizeT (h.Get1 b) + 1 : Nat) : Int) := by
      rw [e1]
      push_cast
      rw [e2]
    exact_mod_cast this
  · simp [EnableSharedFromThis.WeakFromThis, WeakPtr.ctorCopy, hne]
  · simp [Heap.Get2, ControlBlockBase.Get2, block_IncrementWeak, hlt,
      ControlBlockBase.IncrementWeak]
  · simp [Heap.Get1, ControlBlockBase.Get1]

theorem SelfObserves_managed (p : SharedPtr) (g : Heap) (b : Nat)
    (hb : p.block_ = some b) (hpos : 0 < g.Get1 b) (hmax : g.Get1 b + 1 < 2 ^ 31) :
    SelfObserves p g := by
  obtain ⟨_, _, h3, h4, h5, h6, h7, _, _⟩ := self_observation_managed p g b hb hpos hmax
  exact ⟨_, _, _, _, h3, by simp [SharedPtr.GetBlock, hb], rfl, h4, h5, h6,
    by simp [WeakPtr.GetBlock, SharedPtr.GetBlock, hb], rfl, h7⟩

theorem Get1_new_Increment (h : Heap) (body : BlockBody) :
    ((h.new body).2.Increment (h.new body).1).Get1 h.length = 1 := by
  simp only [Heap.Get1, ControlBlockBase.Get1, block_new_Increment, ↓reduceIte]
  rfl

/-- C23: with the self-observation capability as the specification describes it (a weak
back-reference wired into the object when it becomes managed), for an object managed by the
`SharedPtr` that `SharedPtr(q)` (non-null `q`) or `MakeShared` returns, and more generally by
any `SharedPtr` `p` whose block has a positive strong count that can still grow,
`SharedFromThis()` returns a `SharedPtr` on `p`'s block with `p`'s access pointer and raises
`p.UseCount()` by one, `WeakFromThis()` returns a `WeakPtr` on `p`'s block, and no block is
allocated. -/
theorem self_observation_shares_managing_block (q : Nat) (args : List Nat) (h : Heap) :
    (q ≠ 0 → SelfObserves (SharedPtr.ctorRaw q h).1 (SharedPtr.ctorRaw q h).2) ∧
    SelfObserves (MakeShared args h).1 (MakeShared args h).2 ∧
    (∀ p g b, p.block_ = some b → 0 < g.Get1 b → g.Get1 b + 1 < 2 ^ 31 →
      SelfObserves p g) := by
  refine ⟨?_, ?_, SelfObserves_managed⟩
  · intro hq
    have hr : SharedPtr.ctorRaw q h
        = ({ ptr_ := q, block_ := some h.length },
            (h.new (BlockBody.PointingConterBlock q)).2.Increment
              (h.new (BlockBody.PointingConterBlock q)).1) := by
      simp [SharedPtr.ctorRaw, hq, Heap.new]
    rw [hr]
    have h1 := Get1_new_Increment h (BlockBody.PointingConterBlock q)
    exact SelfObserves_managed _ _ h.length rfl (by rw [h1]; decide) (by rw [h1]; decide)
  · have hm : MakeShared args h
        = ({ ptr_ := EmplaceConterBlock.Get h.length, block_ := some h.length },
            (h.new (BlockBody.EmplaceConterBlock args)).2.Increment
              (h.new (BlockBody.EmplaceConterBlock args)).1) := rfl
    rw [hm]
    have h1 := Get1_new_Increment h (BlockBody.EmplaceConterBlock args)
    exact SelfObserves_managed _ _ h.length rfl (by rw [h1]; decide) (by rw [h1]; decide)

/-! ## Teardown that releases the last `WeakPtr` -/

theorem ResetHolding_without_member (p : SharedPtr) (h : Heap) :
    p.ResetHolding WeakPtr.ctorDefault h = Except.ok (p.Reset h) := by
  unfold SharedPtr.ResetHolding SharedPtr.Reset
  cases p.block_ with
  | none => rfl
  | some b =>
    simp only [Heap.DestroyHolding, WeakPtr.Reset, WeakPtr.ctorDefault, ne_eq,
      not_true_eq_false, ↓reduceIte]
    split_ifs <;> rfl

/-- C24 (evaluation at the failing input): block 0 has one owner `p` and weak count 1, and
the one `WeakPtr` on it is a member of the payload. When `p` is reset, `Destroy()` runs the
payload's destructor once; the member's release inside it takes the weak count to 0 and frees
the block, so the block is already freed when `Destroy()` returns; `Realise()` then reads the
counts of the freed block, finds 0 + 0, and frees it a second time. With the same block and
the `WeakPtr` held outside the payload, resetting `p` frees nothing and the later release of
the `WeakPtr` frees the block once. -/
theorem teardown_releasing_last_weak_frees_block_twice :
    ((selfObservedHeap.Decrement 0).DestroyHolding 0 (WeakPtr.mk 7 (some 0))).map
        (fun g => ((g.block 0).count_, (g.block 0).weak_count_, (g.block 0).dtorRuns,
          (g.block 0).freed))
      = Except.ok (0, 0, 1, 1) ∧
    (SharedPtr.ResetHolding (SharedPtr.mk 7 (some 0)) (WeakPtr.mk 7 (some 0))
        selfObservedHeap).map
        (fun r => (r.1, (r.2.block 0).destroyCalls, (r.2.block 0).dtorRuns,
          (r.2.block 0).freed))
      = Except.ok (SharedPtr.mk 0 none, 1, 1, 2) ∧
    (fun r : SharedPtr × Heap => ((r.2.block 0).dtorRuns, (r.2.block 0).freed))
        (SharedPtr.Reset (SharedPtr.mk 7 (some 0)) selfObservedHeap) = (1, 0) ∧
    (WeakPtr.Reset (WeakPtr.mk 7 (some 0))
        (SharedPtr.Reset (SharedPtr.mk 7 (some 0)) selfObservedHeap).2).map
        (fun r => ((r.2.block 0).dtorRuns, (r.2.block 0).freed))
      = Except.ok (1, 1) :=
  ⟨rfl, rfl, rfl, rfl⟩



/-! ## Intrusive pointers: counters and live handles -/

theorem obj_modify (f : RefCounted → RefCounted) (os : Objects) (a b : Nat) :
    Objects.obj (List.modify f a os) b
      = if a = b ∧ b < os.length then f (os.obj b) else os.obj b := by
  unfold Objects.obj
  simp only [List.getD_eq_getElem?_getD, List.getElem?_modify]
  by_cases hb : b < os.length
  · by_cases hab : a = b
    · simp [hab, hb, List.getElem?_eq_getElem]
    · simp [hab, hb, List.getElem?_eq_getElem]
  · have : os[b]? = none := List.getElem?_eq_none (by omega)
    simp [this, hb]

theorem obj_of_length_le (os : Objects) (k : Nat) (hk : os.length ≤ k) :
    os.obj k = default := by
  unfold Objects.obj
  simp [List.getElem?_eq_none hk]

theorem obj_append (os : Objects) (c : RefCounted) (k : Nat) :
    Objects.obj (os ++ [c]) k
      = if k < os.length then os.obj k else if k = os.length then c else default := by
  unfold Objects.obj
  simp only [List.getD_eq_getElem?_getD]
  by_cases hb : k < os.length
  · simp [hb, List.getElem?_append_left hb]
  · by_cases hb2 : k = os.length
    · subst hb2
      simp
    · have : (os ++ [c])[k]? = none := List.getElem?_eq_none (by simp; omega)
      simp [this, hb, hb2]

theorem RefCounted_IncRef (o : RefCounted) (h : o.RefCount + 1 < 2 ^ 64) :
    o.IncRef.RefCount = o.RefCount + 1 ∧ o.IncRef.destroyed = o.destroyed := by
  simp only [RefCounted.IncRef, RefCounted.RefCount, SimpleCounter.IncRef,
    SimpleCounter.RefCount] at h ⊢
  exact ⟨Nat.mod_eq_of_lt h, trivial⟩

theorem size_dec (c N : Nat) (h1 : 0 < c) (h2 : c < N) : (c + N - 1) % N = c - 1 := by
  have e : c + N - 1 = (c - 1) + N := by omega
  rw [e, Nat.add_mod_right, Nat.mod_eq_of_lt (by omega)]

theorem SimpleCounter_DecRef (c : SimpleCounter) (h1 : 0 < c.count_) (h2 : c.count_ < 2 ^ 64) :
    c.DecRef = (SimpleCounter.mk (c.count_ - 1), c.count_ - 1) := by
  unfold SimpleCounter.DecRef
  generalize (2 : Nat) ^ 64 = N at h2 ⊢
  rw [size_dec _ _ h1 h2]

theorem RefCounted_DecRef (o : RefCounted) (h1 : 0 < o.RefCount) (h2 : o.RefCount < 2 ^ 64) :
    o.DecRef.RefCount + 1 = o.RefCount ∧
      o.DecRef.destroyed = o.destroyed + (if o.RefCount = 1 then 1 else 0) := by
  have h3 : 0 < o.counter_.count_ := h1
  have h4 := SimpleCounter_DecRef _ h1 h2
  clear h2
  delta RefCounted.DecRef
  rw [h4]
  delta RefCounted.RefCount SimpleCounter.RefCount
  by_cases h : o.counter_.count_ = 1
  · have h0 : o.counter_.count_ - 1 = 0 := by omega
    simp only [h0, h, ↓reduceIte]
    trivial
  · have h0 : ¬ (o.counter_.count_ - 1 = 0) := by omega
    simp only [h0, h, ↓reduceIte]
    exact ⟨by omega, rfl⟩

theorem length_retarget (os : Objects) (x y : Option Nat) :
    (os.retarget x y).length = os.length := by
  cases x <;> cases y <;> simp [Objects.retarget, Objects.IncRef, Objects.DecRef]

theorem obj_retarget (os : Objects) (x y : Option Nat) (j : Nat)
    (hx : ∀ k, x = some k → k < os.length ∧ (os.obj k).RefCount + 2 < 2 ^ 64)
    (hy : ∀ k, y = some k → k < os.length ∧ 0 < (os.obj k).RefCount ∧
      (os.obj k).RefCount + 2 < 2 ^ 64) :
    ((os.retarget x y).obj j).RefCount + (if y = some j then 1 else 0)
        = (os.obj j).RefCount + (if x = some j then 1 else 0) ∧
      ((os.retarget x y).obj j).destroyed
        = (os.obj j).destroyed
          + (if y = some j ∧ (os.obj j).RefCount + (if x = some j then 1 else 0) = 1
              then 1 else 0) := by
  have hI : ∀ k, x = some k →
      ((os.IncRef k).obj j).RefCount = (os.obj j).RefCount + (if k = j then 1 else 0) ∧
      ((os.IncRef k).obj j).destroyed = (os.obj j).destroyed := by
    intro k hk
    obtain ⟨h1, h2⟩ := hx k hk
    unfold Objects.IncRef
    rw [obj_modify]
    by_cases hkj : k = j
    · subst hkj
      obtain ⟨h3, h4⟩ := RefCounted_IncRef (os.obj k) (by omega)
      simp [h1, h3, h4]
    · simp [hkj]
  cases x with
  | none =>
    cases y with
    | none => simp [Objects.retarget]
    | some b =>
      obtain ⟨h1, h2, h3⟩ := hy b rfl
      simp only [Objects.retarget, Objects.DecRef, obj_modify, Option.some.injEq]
      by_cases hbj : b = j
      · subst hbj
        obtain ⟨h4, h5⟩ := RefCounted_DecRef (os.obj b) h2 (by omega)
        simp [h1, h4, h5]
      · simp [hbj]
  | some a =>
    obtain ⟨hIa, hIb⟩ := hI a rfl
    cases y with
    | none =>
      simp only [Objects.retarget, Option.some.injEq]
      rw [hIa, hIb]
      simp
    | some b =>
      obtain ⟨h1, h2, h3⟩ := hy b rfl
      have hlen : (os.IncRef a).length = os.length := by simp [Objects.IncRef]
      simp only [Objects.retarget, Objects.DecRef, obj_modify, Option.some.injEq, hlen]
      by_cases hbj : b = j
      · subst hbj
        have h6 : 0 < ((os.IncRef a).obj b).RefCount := by rw [hIa]; omega
        have h7 : ((os.IncRef a).obj b).RefCount < 2 ^ 64 := by
          rw [hIa]; split_ifs <;> omega
        obtain ⟨h4, h5⟩ := RefCounted_DecRef ((os.IncRef a).obj b) h6 h7
        simp only [h1, and_self, ↓reduceIte, h5, hIb]
        rw [hIa] at h4 ⊢
        refine ⟨by omega, ?_⟩
        simp only [true_and]
      · simp only [hbj, false_and, ↓reduceIte, add_zero]
        rw [hIa, hIb]
        simp

theorem irefs_set (l : List (Option IntrusivePtr)) (i : Nat) (a : IntrusivePtr)
    (x : Option IntrusivePtr) (k : Nat) (h : l.getD i none = some a) :
    ((l.set i x).countP (IntrusivePtr.refers k) : Int)
      = l.countP (IntrusivePtr.refers k) - (if a.ptr_ = some k then 1 else 0)
        + (if IntrusivePtr.refers k x then 1 else 0) := by
  obtain ⟨hi, hget⟩ := getD_none_eq_some l i a h
  rw [countP_set_int _ l i x hi, hget]
  simp [IntrusivePtr.refers]

theorem irefs_append (l : List (Option IntrusivePtr)) (x : Option IntrusivePtr) (k : Nat) :
    ((l ++ [x]).countP (IntrusivePtr.refers k) : Int)
      = l.countP (IntrusivePtr.refers k) + (if IntrusivePtr.refers k x then 1 else 0) := by
  rw [List.countP_append]
  simp [List.countP_cons]

theorem irefs_pos (l : List (Option IntrusivePtr)) (i : Nat) (a : IntrusivePtr) (k : Nat)
    (h : l.getD i none = some a) (hk : a.ptr_ = some k) :
    0 < l.countP (IntrusivePtr.refers k) := by
  obtain ⟨hi, hget⟩ := getD_none_eq_some l i a h
  rw [List.countP_pos_iff]
  exact ⟨some a, by rw [← hget]; exact List.get_mem l i hi, by simp [IntrusivePtr.refers, hk]⟩

theorem irefs_le (s : ISys) (k : Nat) : s.refs k ≤ s.ptrs.length :=
  List.countP_le_length _

theorem ICounted_valid (s : ISys) (hs : s.Counted) (k : Nat) (hk : 0 < s.refs k) :
    k < s.objs.length := by
  by_contra hlt
  have h1 := (hs k).1
  rw [obj_of_length_le s.objs k (Nat.le_of_not_lt hlt)] at h1
  have h2 : (default : RefCounted).RefCount = 0 := rfl
  omega

theorem ICounted_update (s t : ISys) (hs : s.Counted) (hb : s.ptrs.length + 2 < 2 ^ 64)
    (x y : Option Nat)
    (hx : ∀ k, x = some k → 0 < s.refs k) (hy : ∀ k, y = some k → 0 < s.refs k)
    (hobjs : t.objs = s.objs.retarget x y)
    (hrefs : ∀ k, (t.refs k : Int)
      = s.refs k + (if x = some k then 1 else 0) - (if y = some k then 1 else 0)) :
    t.Counted ∧ s.DestroyStep t := by
  have hx2 : ∀ k, x = some k →
      k < s.objs.length ∧ (s.objs.obj k).RefCount + 2 < 2 ^ 64 := by
    intro k hk
    have h1 := irefs_le s k
    exact ⟨ICounted_valid s hs k (hx k hk), by rw [(hs k).1]; omega⟩
  have hy2 : ∀ k, y = some k → k < s.objs.length ∧ 0 < (s.objs.obj k).RefCount ∧
      (s.objs.obj k).RefCount + 2 < 2 ^ 64 := by
    intro k hk
    have h1 := irefs_le s k
    have h2 := hy k hk
    exact ⟨ICounted_valid s hs k h2, by rw [(hs k).1]; exact h2, by rw [(hs k).1]; omega⟩
  have key : ∀ k, (t.objs.obj k).RefCount = t.refs k ∧
      (t.objs.obj k).destroyed = (s.objs.obj k).destroyed
        + (if 0 < s.refs k ∧ t.refs k = 0 then 1 else 0) := by
    intro k
    obtain ⟨h1, h2⟩ := obj_retarget s.objs x y k hx2 hy2
    rw [← hobjs] at h1 h2
    have h3 := hrefs k
    have h4 := (hs k).1
    have h5 : ∀ j, y = some j → 0 < s.refs j := hy
    rw [h2]
    by_cases hxk : x = some k <;> by_cases hyk : y = some k
    · have := h5 k hyk
      simp only [hxk, hyk, ↓reduceIte, true_and] at h1 h3 ⊢
      refine ⟨by omega, ?_⟩
      split_ifs <;> omega
    · simp only [hxk, hyk, ↓reduceIte, false_and] at h1 h3 ⊢
      refine ⟨by omega, ?_⟩
      split_ifs <;> omega
    · have := h5 k hyk
      simp only [hxk, hyk, ↓reduceIte, true_and] at h1 h3 ⊢
      refine ⟨by omega, ?_⟩
      split_ifs <;> omega
    · simp only [hxk, hyk, ↓reduceIte, false_and] at h1 h3 ⊢
      refine ⟨by omega, ?_⟩
      split_ifs <;> omega
  have hlen : t.objs.length = s.objs.length := by rw [hobjs, length_retarget]
  constructor
  · intro k
    refine ⟨(key k).1, ?_⟩
    intro hk
    rw [hlen] at hk
    have h1 := (hs k).2 hk
    have h2 : s.refs k = 0 → t.refs k = 0 := by
      intro h0
      have h3 := hrefs k
      have hxk : x ≠ some k := fun h => by have := hx k h; omega
      have hyk : y ≠ some k := fun h => by have := hy k h; omega
      simp only [hxk, hyk, ↓reduceIte] at h3
      omega
    rw [(key k).2, h1]
    split_ifs <;> omega
  · intro k _
    rw [(key k).2, (hs k).1, (key k).1]

theorem DestroyStep_refl (s : ISys) : s.DestroyStep s := by
  intro k _
  have : ¬ (0 < (s.objs.obj k).RefCount ∧ (s.objs.obj k).RefCount = 0) := by omega
  simp [this]

theorem ICounted_append (s : ISys) (hs : s.Counted) (hb : s.ptrs.length + 2 < 2 ^ 64)
    (x : Option Nat) (hx : ∀ k, x = some k → 0 < s.refs k) :
    ISys.Counted (ISys.mk (s.objs.retarget x none) (s.ptrs ++ [some (IntrusivePtr.mk x)])) ∧
      s.DestroyStep (ISys.mk (s.objs.retarget x none)
        (s.ptrs ++ [some (IntrusivePtr.mk x)])) := by
  apply ICounted_update s _ hs hb x none hx (fun k hk => by cases hk) rfl
  intro k
  simp only [ISys.refs]
  rw [irefs_append]
  simp [IntrusivePtr.refers]

theorem ICounted_assign (s : ISys) (hs : s.Counted) (hb : s.ptrs.length + 2 < 2 ^ 64)
    (i : Nat) (a : IntrusivePtr) (hi : s.ptrAt i = some a)
    (x : Option Nat) (hx : ∀ k, x = some k → 0 < s.refs k) (v : Option IntrusivePtr)
    (hv : ∀ k, IntrusivePtr.refers k v = decide (x = some k)) :
    ISys.Counted (ISys.mk (s.objs.retarget x a.ptr_) (s.ptrs.set i v)) ∧
      s.DestroyStep (ISys.mk (s.objs.retarget x a.ptr_) (s.ptrs.set i v)) := by
  apply ICounted_update s _ hs hb x a.ptr_ hx (fun k hk => irefs_pos s.ptrs i a k hi hk) rfl
  intro k
  simp only [ISys.refs]
  rw [irefs_set s.ptrs i a v k hi, hv k]
  simp only [decide_eq_true_eq]
  omega

theorem ICounted_make (s : ISys) (hs : s.Counted) :
    ISys.Counted (ISys.mk (MakeIntrusive none s.objs).2
        (s.ptrs ++ [some (MakeIntrusive none s.objs).1])) ∧
      s.DestroyStep (ISys.mk (MakeIntrusive none s.objs).2
        (s.ptrs ++ [some (MakeIntrusive none s.objs).1])) := by
  have hobj : ∀ k, Objects.obj (MakeIntrusive none s.objs).2 k
      = if k < s.objs.length then s.objs.obj k
        else if k = s.objs.length then RefCounted.mk (SimpleCounter.mk 1) 0 else default := by
    intro k
    simp only [MakeIntrusive, Objects.new, IntrusivePtr.ctorRaw, Objects.IncRef]
    rw [obj_modify, obj_append]
    by_cases h1 : k < s.objs.length
    · have : ¬ (s.objs.length = k) := by omega
      simp [h1, this]
    · by_cases h2 : k = s.objs.length
      · subst h2
        simp [RefCounted.IncRef, SimpleCounter.IncRef]
      · have : ¬ (s.objs.length = k) := fun h => h2 h.symm
        simp [h1, h2, this]
  have hrefs : ∀ k, ((List.countP (IntrusivePtr.refers k)
      (s.ptrs ++ [some (MakeIntrusive none s.objs).1]) : Nat) : Int)
      = s.refs k + (if k = s.objs.length then 1 else 0) := by
    intro k
    rw [irefs_append]
    simp only [ISys.refs, MakeIntrusive, Objects.new, IntrusivePtr.ctorRaw, IntrusivePtr.refers,
      Option.some.injEq, decide_eq_true_eq]
    by_cases h : k = s.objs.length
    · simp [h]
    · have : ¬ (s.objs.length = k) := fun h2 => h h2.symm
      simp [h, this]
  have hlen : (MakeIntrusive none s.objs).2.length = s.objs.length + 1 := by
    simp [MakeIntrusive, Objects.new, IntrusivePtr.ctorRaw, Objects.IncRef]
  constructor
  · intro k
    have h1 := hrefs k
    have h2 := hs k
    simp only [ISys.refs] at h1 h2 ⊢
    rw [hobj k]
    by_cases hk : k < s.objs.length
    · have hne : ¬ (k = s.objs.length) := by omega
      simp only [hk, hne, ↓reduceIte, add_zero, Nat.cast_inj] at h1 ⊢
      simp only [h1]
      exact ⟨h2.1, fun _ => h2.2 hk⟩
    · by_cases hk2 : k = s.objs.length
      · subst hk2
        have h3 : (s.objs.obj s.objs.length).RefCount = 0 := by
          rw [obj_of_length_le s.objs s.objs.length (le_refl _)]; rfl
        simp only [lt_irrefl, ↓reduceIte] at h1 ⊢
        have h4 : List.countP (IntrusivePtr.refers s.objs.length)
            (s.ptrs ++ [some (MakeIntrusive none s.objs).1]) = 1 := by
          have := h2.1
          omega
        simp only [h4]
        exact ⟨rfl, fun _ => rfl⟩
      · have h3 : (s.objs.obj k).RefCount = 0 := by
          rw [obj_of_length_le s.objs k (by omega)]; rfl
        simp only [hk, hk2, ↓reduceIte, add_zero, Nat.cast_inj] at h1 ⊢
        simp only [h1, ← h2.1, h3]
        refine ⟨rfl, fun h => ?_⟩
        rw [hlen] at h
        omega
  · intro k hk
    simp only at hk ⊢
    rw [hobj k]
    simp only [hk, ↓reduceIte]
    have : ¬ (0 < (s.objs.obj k).RefCount ∧ (s.objs.obj k).RefCount = 0) := by omega
    simp [this]

theorem ISys_set_self (s : ISys) (i : Nat) (a : IntrusivePtr) (hi : s.ptrAt i = some a) :
    ISys.mk s.objs (s.ptrs.set i (some a)) = s := by
  have h := set_getD_self s.ptrs i a hi
  cases s
  simp only at h ⊢
  rw [h]

theorem ResetPtr_of_ne (a : IntrusivePtr) (p : Option Nat) (os : Objects) (h : p ≠ a.ptr_) :
    a.ResetPtr p os = (IntrusivePtr.mk p, os.retarget p a.ptr_) := by
  unfold IntrusivePtr.ResetPtr
  rw [if_pos h]
  rfl

theorem ResetPtr_of_eq (a : IntrusivePtr) (p : Option Nat) (os : Objects) (h : p = a.ptr_) :
    a.ResetPtr p os = (a, os) := by
  unfold IntrusivePtr.ResetPtr
  rw [if_neg (fun hn => hn h)]

theorem Set_eq_ResetPtr (a : IntrusivePtr) (p : Option Nat) (os : Objects) :
    a.Set p os = a.ResetPtr p os := rfl

theorem assignMove_of_ne (a o : IntrusivePtr) (os : Objects) (h : a.ptr_ ≠ o.ptr_) :
    a.assignMove o os
      = (IntrusivePtr.mk o.ptr_, IntrusivePtr.mk none, os.retarget none a.ptr_) := by
  unfold IntrusivePtr.assignMove
  rw [if_pos h]
  rfl

theorem assignMove_of_eq (a o : IntrusivePtr) (os : Objects) (h : a.ptr_ = o.ptr_) :
    a.assignMove o os = (a, o, os) := by
  unfold IntrusivePtr.assignMove
  rw [if_neg (fun hn => hn h)]

theorem Reset_eq_retarget (a : IntrusivePtr) (os : Objects) :
    a.Reset os = (IntrusivePtr.mk none, os.retarget none a.ptr_) := by
  rcases a with ⟨_ | k⟩ <;> rfl

theorem ctorCopy_eq_retarget (o : IntrusivePtr) (os : Objects) :
    o.ctorCopy os = (IntrusivePtr.mk o.ptr_, os.retarget o.ptr_ none) := by
  rcases o with ⟨_ | k⟩ <;> rfl

theorem ICounted_move (s : ISys) (hs : s.Counted) (hb : s.ptrs.length + 2 < 2 ^ 64)
    (j : Nat) (o : IntrusivePtr) (hj : s.ptrAt j = some o) :
    ISys.Counted (ISys.mk s.objs
        (s.ptrs.set j (some (IntrusivePtr.mk none)) ++ [some (IntrusivePtr.mk o.ptr_)])) ∧
      s.DestroyStep (ISys.mk s.objs
        (s.ptrs.set j (some (IntrusivePtr.mk none)) ++ [some (IntrusivePtr.mk o.ptr_)])) := by
  apply ICounted_update s (ISys.mk s.objs
    (s.ptrs.set j (some (IntrusivePtr.mk none)) ++ [some (IntrusivePtr.mk o.ptr_)]))
    hs hb none none (fun k hk => by cases hk) (fun k hk => by cases hk) rfl
  intro k
  simp only [ISys.refs]
  rw [irefs_append, irefs_set s.ptrs j o _ k hj]
  by_cases h : o.ptr_ = some k <;> simp [IntrusivePtr.refers, h]

theorem ICounted_moveAssign (s : ISys) (hs : s.Counted) (hb : s.ptrs.length + 2 < 2 ^ 64)
    (i j : Nat) (a o : IntrusivePtr) (hi : s.ptrAt i = some a) (hj : s.ptrAt j = some o)
    (hne : a.ptr_ ≠ o.ptr_) :
    ISys.Counted (ISys.mk (s.objs.retarget none a.ptr_)
        ((s.ptrs.set i (some (IntrusivePtr.mk o.ptr_))).set j (some (IntrusivePtr.mk none)))) ∧
      s.DestroyStep (ISys.mk (s.objs.retarget none a.ptr_)
        ((s.ptrs.set i (some (IntrusivePtr.mk o.ptr_))).set j
          (some (IntrusivePtr.mk none)))) := by
  have hij : i ≠ j := by
    intro h
    subst h
    rw [hi] at hj
    injection hj with hj
    exact hne (by rw [hj])
  have hj2 : (s.ptrs.set i (some (IntrusivePtr.mk o.ptr_))).getD j none = some o := by
    rw [getD_set_none]
    simp only [hij, false_and, ↓reduceIte]
    exact hj
  apply ICounted_update s _ hs hb none a.ptr_ (fun k hk => by cases hk)
    (fun k hk => irefs_pos s.ptrs i a k hi hk) rfl
  intro k
  simp only [ISys.refs]
  rw [irefs_set _ j o _ k hj2, irefs_set s.ptrs i a _ k hi]
  simp only [IntrusivePtr.refers, decide_eq_true_eq]
  split_ifs <;> simp

theorem ICounted_iswap (s : ISys) (hs : s.Counted) (hb : s.ptrs.length + 2 < 2 ^ 64)
    (i j : Nat) (a o : IntrusivePtr) (hi : s.ptrAt i = some a) (hj : s.ptrAt j = some o) :
    ISys.Counted (ISys.mk s.objs
        ((s.ptrs.set i (some (IntrusivePtr.mk o.ptr_))).set j (some (IntrusivePtr.mk a.ptr_)))) ∧
      s.DestroyStep (ISys.mk s.objs
        ((s.ptrs.set i (some (IntrusivePtr.mk o.ptr_))).set j
          (some (IntrusivePtr.mk a.ptr_)))) := by
  have hj2 : (s.ptrs.set i (some (IntrusivePtr.mk o.ptr_))).getD j none
      = some (IntrusivePtr.mk o.ptr_) := by
    rw [getD_set_none]
    by_cases hij : i = j
    · subst hij
      obtain ⟨hlt, _⟩ := getD_none_eq_some s.ptrs i a hi
      simp [hlt]
    · simp only [hij, false_and, ↓reduceIte]
      exact hj
  apply ICounted_update s (ISys.mk s.objs
    ((s.ptrs.set i (some (IntrusivePtr.mk o.ptr_))).set j (some (IntrusivePtr.mk a.ptr_))))
    hs hb none none (fun k hk => by cases hk) (fun k hk => by cases hk) rfl
  intro k
  simp only [ISys.refs]
  rw [irefs_set _ j _ _ k hj2, irefs_set s.ptrs i a _ k hi]
  simp only [IntrusivePtr.refers, decide_eq_true_eq]
  split_ifs <;> simp

theorem istep_Counted (s : ISys) (op : IOp) (hs : s.Counted) (hd : op.determinate s = true)
    (hb : s.ptrs.length + 2 < 2 ^ 64) :
    (istep s op).Counted ∧ s.DestroyStep (istep s op) := by
  have hsame : s.Counted ∧ s.DestroyStep s := ⟨hs, DestroyStep_refl s⟩
  cases op with
  | default => exact ICounted_append s hs hb none (fun k hk => by cases hk)
  | make => exact ICounted_make s hs
  | raw j g =>
    rcases hj : s.ptrAt j with _ | o
    · simp only [istep, hj]
      exact hsame
    · simp only [IOp.determinate, hj, bne_iff_ne, ne_eq] at hd
      obtain ⟨k, hk⟩ := Option.ne_none_iff_exists'.mp hd
      have hg : o.Get = some k := hk
      simp only [istep, hj, hg]
      exact ICounted_append s hs hb (some k)
        (fun c hc => by cases hc; exact irefs_pos s.ptrs j o k hj hk)
  | rawNull g => simp [IOp.determinate] at hd
  | copy j =>
    rcases hj : s.ptrAt j with _ | o
    · simp only [istep, hj]
      exact hsame
    · simp only [istep, hj, ctorCopy_eq_retarget]
      exact ICounted_append s hs hb o.ptr_ (fun c hc => irefs_pos s.ptrs j o c hj hc)
  | convert j g =>
    rcases hj : s.ptrAt j with _ | o
    · simp only [istep, hj]
      exact hsame
    · simp only [IOp.determinate, hj, bne_iff_ne, ne_eq] at hd
      obtain ⟨k, hk⟩ := Option.ne_none_iff_exists'.mp hd
      have hg : o.Get = some k := hk
      simp only [istep, hj, IntrusivePtr.ctorConvert, hg]
      exact ICounted_append s hs hb (some k)
        (fun c hc => by cases hc; exact irefs_pos s.ptrs j o k hj hk)
  | move j =>
    rcases hj : s.ptrAt j with _ | o
    · simp only [istep, hj]
      exact hsame
    · simp only [istep, hj]
      exact ICounted_move s hs hb j o hj
  | assign i j =>
    by_cases hij : i = j
    · simp only [istep, hij, ↓reduceIte]
      exact hsame
    · rcases hi : s.ptrAt i with _ | a <;> rcases hj : s.ptrAt j with _ | o <;>
        simp only [istep, hij, ↓reduceIte, hi, hj]
      · exact hsame
      · exact hsame
      · exact hsame
      · exact ICounted_assign s hs hb i a hi o.ptr_
          (fun c hc => irefs_pos s.ptrs j o c hj hc) (some (IntrusivePtr.mk o.ptr_))
          (fun c => by simp [IntrusivePtr.refers])
  | moveAssign i j =>
    rcases hi : s.ptrAt i with _ | a <;> rcases hj : s.ptrAt j with _ | o <;>
      simp only [istep, hi, hj]
    · exact hsame
    · exact hsame
    · exact hsame
    · by_cases hne : a.ptr_ = o.ptr_
      · rw [assignMove_of_eq a o s.objs hne]
        have hj2 : ISys.ptrAt (ISys.mk s.objs (s.ptrs.set i (some a))) j = some o := by
          rw [ISys_set_self s i a hi]; exact hj
        have e := ISys_set_self (ISys.mk s.objs (s.ptrs.set i (some a))) j o hj2
        simp only at e ⊢
        rw [e, ISys_set_self s i a hi]
        exact hsame
      · rw [assignMove_of_ne a o s.objs hne]
        exact ICounted_moveAssign s hs hb i j a o hi hj hne
  | reset i =>
    rcases hi : s.ptrAt i with _ | a
    · simp only [istep, hi]
      exact hsame
    · simp only [istep, hi, Reset_eq_retarget]
      exact ICounted_assign s hs hb i a hi none (fun c hc => by cases hc)
        (some (IntrusivePtr.mk none)) (fun c => by simp [IntrusivePtr.refers])
  | resetPtr i j =>
    rcases hi : s.ptrAt i with _ | a <;> rcases hj : s.ptrAt j with _ | o <;>
      simp only [istep, hi, hj]
    · exact hsame
    · exact hsame
    · exact hsame
    · by_cases he : o.Get = a.ptr_
      · rw [ResetPtr_of_eq a o.Get s.objs he, ISys_set_self s i a hi]
        exact hsame
      · rw [ResetPtr_of_ne a o.Get s.objs he]
        exact ICounted_assign s hs hb i a hi o.Get
          (fun c hc => irefs_pos s.ptrs j o c hj hc) (some (IntrusivePtr.mk o.Get))
          (fun c => by simp [IntrusivePtr.refers])
  | set i j =>
    rcases hi : s.ptrAt i with _ | a <;> rcases hj : s.ptrAt j with _ | o <;>
      simp only [istep, hi, hj, Set_eq_ResetPtr]
    · exact hsame
    · exact hsame
    · exact hsame
    · by_cases he : o.Get = a.ptr_
      · rw [ResetPtr_of_eq a o.Get s.objs he, ISys_set_self s i a hi]
        exact hsame
      · rw [ResetPtr_of_ne a o.Get s.objs he]
        exact ICounted_assign s hs hb i a hi o.Get
          (fun c hc => irefs_pos s.ptrs j o c hj hc) (some (IntrusivePtr.mk o.Get))
          (fun c => by simp [IntrusivePtr.refers])
  | swap i j =>
    rcases hi : s.ptrAt i with _ | a <;> rcases hj : s.ptrAt j with _ | o <;>
      simp only [istep, hi, hj]
    · exact hsame
    · exact hsame
    · exact hsame
    · exact ICounted_iswap s hs hb i j a o hi hj
  | destroy i =>
    rcases hi : s.ptrAt i with _ | a
    · simp only [istep, hi]
      exact hsame
    · simp only [istep, hi, Reset_eq_retarget]
      exact ICounted_assign s hs hb i a hi none (fun c hc => by cases hc) none
        (fun c => by simp [IntrusivePtr.refers])

theorem istep_length (s : ISys) (op : IOp) :
    (istep s op).ptrs.length ≤ s.ptrs.length + 1 := by
  cases op <;> simp only [istep]
  case default => simp
  case make => simp
  case raw => split <;> simp
  case rawNull => simp
  case copy => split <;> simp
  case convert => split <;> simp
  case move => split <;> simp
  case assign => split_ifs <;> [simp; (split <;> simp)]
  case moveAssign => split <;> simp
  case reset => split <;> simp
  case resetPtr => split <;> simp
  case set => split <;> simp
  case swap => split <;> simp
  case destroy => split <;> simp

theorem irun_Counted (ops : List IOp) (s : ISys) (hs : s.Counted) (hd : Determinate s ops)
    (hb : s.ptrs.length + ops.length + 2 < 2 ^ 64) :
    (irun s ops).Counted ∧ (irun s ops).ptrs.length ≤ s.ptrs.length + ops.length := by
  induction ops generalizing s with
  | nil => exact ⟨hs, Nat.le_refl _⟩
  | cons op ops ih =>
    simp only [List.length_cons] at hb ⊢
    have h1 := istep_length s op
    obtain ⟨h2, h3⟩ := ih (istep s op) (istep_Counted s op hs hd.1 (by omega)).1 hd.2
      (by omega)
    exact ⟨h2, by simp only [irun]; omega⟩

theorem ICounted_UseCount (t : ISys) (ht : t.Counted) (p : IntrusivePtr) (k : Nat)
    (hk : p.ptr_ = some k) : p.UseCount t.objs = t.refs k := by
  unfold IntrusivePtr.UseCount
  rw [hk]
  exact (ht k).1

theorem ICounted_init : ISys.Counted ISys.init := by
  intro k
  refine ⟨rfl, fun h => ?_⟩
  simp [ISys.init] at h

/-! ## The counter under the handle operations of a program -/

/-- Counting for programs over handle objects of their own, with objects made by
`MakeIntrusive` from arguments that copy no counted object: start from a state in which every
object's counter is the number of live
`IntrusivePtr` objects pointing at it, and run any program of constructions, copies, moves,
assignments, `Reset`, `Set`, `Swap` and destructions that leaves no pointer member
uninitialised (no construction from a null raw pointer, no converting copy of an empty
`IntrusivePtr`), with fewer than `2 ^ 64` handles. Afterwards `RefCount()` of every object, and
`UseCount()` of every live non-empty `IntrusivePtr`, is the number of live `IntrusivePtr`
objects pointing at the object; `Deleter::Destroy` has run once on every allocated object
whose counter is 0 and never on the others; and in any further operation it runs on an object
exactly if that operation brings the object's counter from a positive value to 0, and then
once. -/
theorem intrusive_count_is_live_handles (s : ISys) (ops : List IOp) (hs : s.Counted)
    (hd : Determinate s ops) (hb : s.ptrs.length + ops.length + 3 < 2 ^ 64) :
    (∀ k, ((irun s ops).objs.obj k).RefCount = (irun s ops).refs k) ∧
    (∀ i p k, (irun s ops).ptrAt i = some p → p.Get = some k →
      p.UseCount (irun s ops).objs = (irun s ops).refs k) ∧
    (∀ k, k < (irun s ops).objs.length →
      ((irun s ops).objs.obj k).destroyed
        = if ((irun s ops).objs.obj k).RefCount = 0 then 1 else 0) ∧
    (∀ op, op.determinate (irun s ops) = true →
      (irun s ops).DestroyStep (istep (irun s ops) op)) := by
  obtain ⟨h1, h2⟩ := irun_Counted ops s hs hd (by omega)
  refine ⟨fun k => (h1 k).1, ?_, ?_, ?_⟩
  · intro i p k _ hk
    exact ICounted_UseCount _ h1 p k hk
  · intro k hk
    rw [(h1 k).1]
    exact (h1 k).2 hk
  · intro op hop
    exact (istep_Counted _ op h1 hop (by omega)).2

/-- The statement above at a program: `a = MakeIntrusive<T>()`, `b = a`, then `a` is
destroyed: the object's counter is 1, the number of live handles; `b.UseCount()` is 1;
`Destroy` has not run; and destroying `b` runs it once. -/
theorem intrusive_count_is_live_handles_witness :
    ISys.Counted ISys.init ∧
    Determinate ISys.init [IOp.make, IOp.copy 0, IOp.destroy 0] ∧
    irun ISys.init [IOp.make, IOp.copy 0, IOp.destroy 0]
      = ISys.mk [RefCounted.mk (SimpleCounter.mk 1) 0] [none, some (IntrusivePtr.mk (some 0))] ∧
    ((irun ISys.init [IOp.make, IOp.copy 0, IOp.destroy 0]).objs.obj 0).RefCount
      = (irun ISys.init [IOp.make, IOp.copy 0, IOp.destroy 0]).refs 0 ∧
    (irun ISys.init [IOp.make, IOp.copy 0, IOp.destroy 0]).refs 0 = 1 ∧
    (irun ISys.init [IOp.make, IOp.copy 0, IOp.destroy 0]).DestroyStep
      (istep (irun ISys.init [IOp.make, IOp.copy 0, IOp.destroy 0]) (IOp.destroy 1)) ∧
    ((istep (irun ISys.init [IOp.make, IOp.copy 0, IOp.destroy 0]) (IOp.destroy 1)).objs.obj
      0).destroyed = 1 :=
  ⟨ICounted_init, ⟨rfl, rfl, rfl, trivial⟩, rfl,
    (intrusive_count_is_live_handles ISys.init [IOp.make, IOp.copy 0, IOp.destroy 0]
      ICounted_init ⟨rfl, rfl, rfl, trivial⟩ (by decide)).1 0,
    rfl,
    (intrusive_count_is_live_handles ISys.init [IOp.make, IOp.copy 0, IOp.destroy 0]
      ICounted_init ⟨rfl, rfl, rfl, trivial⟩ (by decide)).2.2.2 (IOp.destroy 1) rfl,
    rfl⟩


/-! ## Claims C26 and C27 -/

/-- C26 (evaluation at the failing input): with one object of counter 1 allocated,
`IntrusivePtr<T>(static_cast<T*>(nullptr))` and the converting copy of an empty
`IntrusivePtr<Y>` assign nothing to `ptr_`: `Get()` is whatever the storage held, for any such
value `g`; when that is the address of the allocated object, `Get()` is non-null, `UseCount()`
is 1 and the boolean conversion is true, and the object's counter was not raised, so destroying
the handle destroys the object under the handle that owns it. The default constructor and the
same-type copy of an empty handle do give an empty handle. -/
theorem null_construction_leaves_pointer_unset :
    (∀ g os, (IntrusivePtr.ctorRaw none g os).1.Get = g ∧
      (IntrusivePtr.ctorRaw none g os).2 = os) ∧
    (∀ g os, (IntrusivePtr.ctorConvert IntrusivePtr.ctorDefault g os).1.Get = g ∧
      (IntrusivePtr.ctorConvert IntrusivePtr.ctorDefault g os).2 = os) ∧
    (fun r : IntrusivePtr × Objects => (r.1.Get, r.1.UseCount r.2, r.1.toBool, r.2))
        (IntrusivePtr.ctorRaw none (some 0) (MakeIntrusive none []).2)
      = (some 0, 1, true, [RefCounted.mk (SimpleCounter.mk 1) 0]) ∧
    (fun r : IntrusivePtr × Objects => (r.1.Get, r.1.UseCount r.2, r.1.toBool, r.2))
        (IntrusivePtr.ctorConvert IntrusivePtr.ctorDefault (some 0) (MakeIntrusive none []).2)
      = (some 0, 1, true, [RefCounted.mk (SimpleCounter.mk 1) 0]) ∧
    irun ISys.init [IOp.make, IOp.default, IOp.convert 1 (some 0), IOp.destroy 2]
      = ISys.mk [RefCounted.mk (SimpleCounter.mk 0) 1]
          [some (IntrusivePtr.mk (some 0)), some (IntrusivePtr.mk none), none] ∧
    (IntrusivePtr.ctorDefault.Get, IntrusivePtr.ctorDefault.UseCount (MakeIntrusive none []).2,
        IntrusivePtr.ctorDefault.toBool) = (none, 0, false) ∧
    (fun r : IntrusivePtr × Objects => (r.1.Get, r.1.UseCount r.2, r.1.toBool))
        (IntrusivePtr.ctorCopy IntrusivePtr.ctorDefault (MakeIntrusive none []).2)
      = (none, 0, false) :=
  ⟨fun _ _ => ⟨rfl, rfl⟩, fun _ _ => ⟨rfl, rfl⟩, rfl, rfl, rfl, rfl, rfl⟩

/-- C27 (evaluation at the failing input): for every `UniquePtr` `u` and pointer `p`,
`u.Reset(p)` makes `Get() == p`, keeps the stored deleter, and makes exactly one deleter call,
on the old pointer, by a value-initialised deleter `Deleter()`, whatever the stored deleter is
and also when the old pointer is null. With deleters told apart by a number (`Deleter()` is 0):
`u` holds pointer 7 with stored deleter 5; `u.Reset(9)`, `~UniquePtr()` and the release step of
move assignment call deleter 0 on 7, never deleter 5; and when `u` holds `nullptr`, `u.Reset(9)`
calls deleter 0 on `nullptr`. -/
theorem reset_calls_fresh_deleter :
    (∀ (u : UniquePtr Nat) (p : Nat) (calls : DeleterCalls Nat),
      (u.Reset p calls).1.Get = p ∧ (u.Reset p calls).1.GetDeleter = u.GetDeleter ∧
      (u.Reset p calls).2 = calls ++ [(0, u.Get)]) ∧
    (fun r : UniquePtr Nat × DeleterCalls Nat => (r.1.Get, r.1.GetDeleter, r.2))
        ((UniquePtr.ctorDeleter 7 5).Reset 9 []) = (9, 5, [(0, 7)]) ∧
    (UniquePtr.ctorDeleter 7 5).dtor [] = [(0, 7)] ∧
    (fun r : UniquePtr Nat × UniquePtr Nat × DeleterCalls Nat =>
          (r.1.Get, r.1.GetDeleter, r.2.1.Get, r.2.2))
        ((UniquePtr.ctorDeleter 7 5).assignMove (UniquePtr.ctorDeleter 8 6) [])
      = (8, 6, 0, [(0, 7)]) ∧
    (fun r : UniquePtr Nat × DeleterCalls Nat => (r.1.Get, r.1.GetDeleter, r.2))
        ((UniquePtr.ctorDeleter 0 5).Reset 9 []) = (9, 5, [(0, 0)]) :=
  ⟨fun _ _ _ => ⟨rfl, rfl, rfl⟩, rfl, rfl, rfl, rfl⟩


/-! ## Copy assignment from a member of the released object -/

theorem ResetOwning_of_shared (p held : SharedPtr) (h : Heap)
    (hsh : ∀ b, p.block_ = some b → (h.Decrement b).Get1 b ≠ 0) :
    p.ResetOwning held h = ((p.Reset h).1, held, (p.Reset h).2) := by
  unfold SharedPtr.ResetOwning SharedPtr.Reset
  rcases hb : p.block_ with _ | b
  · rfl
  · simp only [if_neg (hsh b hb)]

theorem assignCopyMember_of_shared (p held : SharedPtr) (h : Heap)
    (hsh : ∀ b, p.block_ = some b → (h.Decrement b).Get1 b ≠ 0) :
    p.assignCopyMember held h = p.assignCopy held h := by
  unfold SharedPtr.assignCopyMember SharedPtr.assignCopy
  rw [ResetOwning_of_shared p held h hsh]

/-- C11 (evaluation at the failing input): `head` is the only owner of block 0, whose payload
stores `next`, the only owner of block 1, and `head = head->next` is executed. `Reset()` takes
block 0 to strong count 0 and destroys its payload; the payload's destructor releases `next`,
which destroys the payload of block 1, frees block 1 and leaves `next` empty; then block 0 is
freed. The assignment reads `other.block_` and `other.ptr_` only now, from the released member:
`head` ends empty, not on block 1, whose strong count is 0 and not 2. With `next` an object of
its own holding the same block, `head` ends on block 1 with access pointer 8 and strong count
2, and block 1 is neither destroyed nor freed. -/
theorem copy_assign_reads_source_after_release :
    (fun r : SharedPtr × SharedPtr × Heap =>
          (r.1, r.2.1, (r.2.2.block 0).count_, (r.2.2.block 0).dtorRuns, (r.2.2.block 0).freed,
            (r.2.2.block 1).count_, (r.2.2.block 1).dtorRuns, (r.2.2.block 1).freed))
        (SharedPtr.ResetOwning (SharedPtr.mk 7 (some 0)) (SharedPtr.mk 8 (some 1)) chainHeap)
      = (SharedPtr.mk 0 none, SharedPtr.mk 0 none, 0, 1, 1, 0, 1, 1) ∧
    (fun r : SharedPtr × Heap =>
          (r.1, (r.2.block 1).count_, (r.2.block 1).dtorRuns, (r.2.block 1).freed))
        (SharedPtr.assignCopyMember (SharedPtr.mk 7 (some 0)) (SharedPtr.mk 8 (some 1)) chainHeap)
      = (SharedPtr.mk 0 none, 0, 1, 1) ∧
    (fun r : SharedPtr × Heap =>
          (r.1, (r.2.block 1).count_, (r.2.block 1).dtorRuns, (r.2.block 1).freed))
        (SharedPtr.assignCopy (SharedPtr.mk 7 (some 0)) (SharedPtr.mk 8 (some 1)) chainHeap)
      = (SharedPtr.mk 8 (some 1), 2, 0, 0) :=
  ⟨rfl, rfl, rfl⟩

theorem DecRefOwning_of_shared (os : Objects) (k : Nat) (held : IntrusivePtr)
    (h : (os.obj k).counter_.DecRef.2 ≠ 0) :
    os.DecRefOwning k held = (held, os.DecRef k) := by
  unfold Objects.DecRefOwning
  rw [if_neg h]

theorem intrusive_assignCopyMember_of_shared (p held : IntrusivePtr) (os : Objects)
    (h : ∀ k, p.ptr_ = some k →
      (((IntrusivePtr.assignCopy (IntrusivePtr.mk none) held os).2).obj k).counter_.DecRef.2
        ≠ 0) :
    p.assignCopyMember held os = p.assignCopy held os := by
  rcases p with ⟨_ | k⟩
  · rfl
  · have hk := h k rfl
    rcases held with ⟨_ | j⟩ <;>
      simp only [IntrusivePtr.assignCopyMember, IntrusivePtr.assignCopy] at hk ⊢ <;>
      rw [DecRefOwning_of_shared _ k _ hk]

/-- C25 (evaluation at the failing inputs). (1) `p = MakeIntrusive<T>()`,
`q = MakeIntrusive<T>(*p)`: the new object's counter is copied from `*p` and then raised, so
`q.UseCount()` is 2 with one live handle on the object, and when `q` dies the counter is 1 and
`Destroy` never runs. (2) `head` is the only handle on object 0, which stores `next`, the only
handle on object 1, and `head = head->next` is executed: object 1 is raised to 2, object 0 drops
to 0 and is destroyed, its member's destructor takes object 1 back to 1 and clears `next`, and
the second read of `other.ptr_` gives null: `head` ends empty and object 1 has counter 1, no
handle, and is never destroyed; with `next` an object of its own, `head` ends on object 1 with
counter 2. (3) `a = MakeIntrusive<T>()`, then an `IntrusivePtr` is constructed from a null
`T*` in storage that held the address of `a`'s object: two live handles point at the object,
its counter is 1, and destroying the second handle destroys the object under `a`. -/
theorem intrusive_counter_departs_from_live_handles :
    (fun r : IntrusivePtr × Objects => (r.1, r.2, r.1.UseCount r.2))
        (MakeIntrusive (some 0) (MakeIntrusive none []).2)
      = (IntrusivePtr.mk (some 1),
          [RefCounted.mk (SimpleCounter.mk 1) 0, RefCounted.mk (SimpleCounter.mk 2) 0], 2) ∧
    ISys.refs (ISys.mk (MakeIntrusive (some 0) (MakeIntrusive none []).2).2
        [some (MakeIntrusive none []).1,
          some (MakeIntrusive (some 0) (MakeIntrusive none []).2).1]) 1 = 1 ∧
    (IntrusivePtr.Reset (IntrusivePtr.mk (some 1))
        (MakeIntrusive (some 0) (MakeIntrusive none []).2).2).2
      = [RefCounted.mk (SimpleCounter.mk 1) 0, RefCounted.mk (SimpleCounter.mk 1) 0] ∧
    IntrusivePtr.assignCopyMember (IntrusivePtr.mk (some 0)) (IntrusivePtr.mk (some 1))
        [RefCounted.mk (SimpleCounter.mk 1) 0, RefCounted.mk (SimpleCounter.mk 1) 0]
      = (IntrusivePtr.mk none,
          [RefCounted.mk (SimpleCounter.mk 0) 1, RefCounted.mk (SimpleCounter.mk 1) 0]) ∧
    IntrusivePtr.assignCopy (IntrusivePtr.mk (some 0)) (IntrusivePtr.mk (some 1))
        [RefCounted.mk (SimpleCounter.mk 1) 0, RefCounted.mk (SimpleCounter.mk 1) 0]
      = (IntrusivePtr.mk (some 1),
          [RefCounted.mk (SimpleCounter.mk 0) 1, RefCounted.mk (SimpleCounter.mk 2) 0]) ∧
    (fun t : ISys => (t, t.refs 0, (t.objs.obj 0).RefCount))
        (irun ISys.init [IOp.make, IOp.rawNull (some 0)])
      = (ISys.mk [RefCounted.mk (SimpleCounter.mk 1) 0]
          [some (IntrusivePtr.mk (some 0)), some (IntrusivePtr.mk (some 0))], 2, 1) ∧
    (fun t : ISys => (t, t.refs 0))
        (irun ISys.init [IOp.make, IOp.rawNull (some 0), IOp.destroy 1])
      = (ISys.mk [RefCounted.mk (SimpleCounter.mk 0) 1]
          [some (IntrusivePtr.mk (some 0)), none], 1) :=
  ⟨rfl, rfl, rfl, rfl, rfl, rfl, rfl⟩

end SmartPtrs
